import Mathlib

/-!
# netsnoop: command parsing, derivation rules, statistics and the command paths

A shallow embedding of `src/command.h`, of `src/command_receiver.cc`, of the command
path of `src/net_snoop_server.cc` and `src/netsnoop.cc`, and of the timeout that the
event loop of `src/net_snoop_server.cc` prepares.

Conventions of the embedding.

* A C++ `std::string` is a list of characters (`Str`); the programs only handle
  ASCII command lines, so one character is one byte.
* A C++ `int` or `long long` is an `Int`; where the source adds or multiplies two of
  them the result is brought back to the two's-complement range of the type by
  `wrap32` or `wrap64`, which is what the compiled code does (the overflow itself is
  undefined in C++); an integer division that C++ leaves undefined has no result.  The
  counters of the receive engines are declared in a header that is not part of `src/`
  and are kept as unbounded integers.
* A C++ `double` is the type `Double` below: a finite binary value `m * 2 ^ e`,
  an infinity or a NaN, with every arithmetic result rounded to nearest-even on
  53 bits.
* `std::stoi` and `std::stod` throw; a throwing call is the `Except.error` branch.
* The process-wide token counter (`static unsigned char index`) is passed in and
  out explicitly.
-/

namespace NetSnoop

/-! ## Strings and the `std::stringstream` word extraction -/

/-- A byte string. -/
abbrev Str := List Char

/-- The C locale `isspace`: space, `\t`, `\n`, `\v`, `\f`, `\r`. -/
def isspace (c : Char) : Bool :=
  c.toNat == 32 || (9 ≤ c.toNat && c.toNat ≤ 13)

/-- Successive `ss >> word` extractions over a whole string: each extraction skips
white space and reads up to the next white space.  The second argument is the word
being read, reversed. -/
def splitWords : Str → Str → List Str
  | [], cur => if cur.isEmpty then [] else [cur.reverse]
  | c :: cs, cur =>
    if isspace c then
      (if cur.isEmpty then splitWords cs [] else cur.reverse :: splitWords cs [])
    else splitWords cs (c :: cur)

/-- The white-space separated words of a line, in order. -/
def words (s : Str) : List Str := splitWords s []

/-! ## `CommandArgs`: `std::map<std::string, std::string>` -/

/-- The argument map, as an association list with unique keys. -/
abbrev CommandArgs := List (Str × Str)

namespace CommandArgs

/-- Lookup, `args.find(key)`. -/
def find : CommandArgs → Str → Option Str
  | [], _ => none
  | (k, v) :: rest, key => if k = key then some v else find rest key

/-- Assignment `args[key] = value` (insert or overwrite). -/
def set : CommandArgs → Str → Str → CommandArgs
  | [], key, value => [(key, value)]
  | (k, v) :: rest, key, value =>
    if k = key then (k, value) :: rest else (k, v) :: set rest key value

/-- Read access `args[key]`: the stored value, or the empty string that `operator[]`
default-constructs for a missing key. -/
def get (args : CommandArgs) (key : Str) : Str := (find args key).getD []

end CommandArgs

/-! ## Integer conversions of the C and C++ libraries -/

/-- The value of the C++ `int` obtained from an integer by two's-complement wrap. -/
def wrap32 (n : Int) : Int := (n + 2147483648) % 4294967296 - 2147483648

/-- The value of the C++ `long long` obtained from an integer by two's-complement wrap. -/
def wrap64 (n : Int) : Int :=
  (n + 9223372036854775808) % 18446744073709551616 - 9223372036854775808

/-- Largest `int`. -/
def INT_MAX : Int := 2147483647

/-- Smallest `int`. -/
def INT_MIN : Int := -2147483648

/-- Largest `long long`. -/
def LLONG_MAX : Int := 9223372036854775807

/-- Smallest `long long`. -/
def LLONG_MIN : Int := -9223372036854775808

/-- The exceptions thrown by `std::stoi` and `std::stod`. -/
inductive Exn where
  | invalid_argument
  | out_of_range
  deriving DecidableEq, Repr

/-- The C locale `isdigit`. -/
def isdigit (c : Char) : Bool := 48 ≤ c.toNat && c.toNat ≤ 57

/-- Decimal digit value of a character (`0` for a non-digit). -/
def digitVal (c : Char) : Nat := c.toNat - 48

/-- Value of a run of decimal digits, most significant first. -/
def digitsVal (ds : Str) : Nat := ds.foldl (fun acc c => acc * 10 + digitVal c) 0

/-- The sign and digit run that `strtol(s, 0, 10)` consumes: leading white space, an
optional sign, then decimal digits.  Returns `none` when there is no digit (no
conversion), otherwise the signed value. -/
def strtolValue (s : Str) : Option Int :=
  let s1 := s.dropWhile isspace
  let neg := s1.head? == some '-'
  let s2 := if s1.head? == some '-' || s1.head? == some '+' then s1.tail else s1
  let ds := s2.takeWhile isdigit
  if ds.isEmpty then none
  else some (if neg then -(digitsVal ds : Int) else (digitsVal ds : Int))

/-- The function `std::stoi(str)`: `invalid_argument` when no conversion could be
performed, `out_of_range` when the value does not fit an `int`. -/
def stoi (s : Str) : Except Exn Int :=
  match strtolValue s with
  | none => .error .invalid_argument
  | some v => if v < INT_MIN ∨ INT_MAX < v then .error .out_of_range else .ok v

/-- The function `atoll(str)`, that is `strtoll(str, 0, 10)`: `0` when there is no
digit, saturation at the ends of the `long long` range. -/
def atoll (s : Str) : Int :=
  match strtolValue s with
  | none => 0
  | some v => max LLONG_MIN (min LLONG_MAX v)

/-- The function `atoi(str)`, that is `(int) strtol(str, 0, 10)` with a 64-bit `long`. -/
def atoi (s : Str) : Int := wrap32 (atoll s)

/-! ## The `double` type

A finite `double` is carried as `m * 2 ^ e`; the sign of a zero is not kept (no
code path below can observe it).  Every operation computes the exact result and
rounds it once, to nearest with ties to even on 53 bits, as IEEE 754 binary64
does, with gradual underflow below `2 ^ (-1022)` and overflow to infinity. -/

/-- A C++ `double`. -/
inductive Double where
  | fin (m : Int) (e : Int)
  | inf (neg : Bool)
  | nan
  deriving DecidableEq, Repr

/-- Quotient `a / b` rounded to the nearest natural number, ties to even. -/
def roundHalfEven (a b : Nat) : Nat :=
  if 2 * (a % b) < b then a / b
  else if b < 2 * (a % b) then a / b + 1
  else if (a / b) % 2 = 0 then a / b else a / b + 1

/-- Binary logarithm by halving, with fuel. -/
def log2Fuel : Nat → Nat → Nat
  | 0, _ => 0
  | fuel + 1, n => if n < 2 then 0 else log2Fuel fuel (n / 2) + 1

/-- The integer part of the binary logarithm of `n` (and `0` for `n = 0`). -/
def log2 (n : Nat) : Nat := log2Fuel n n

/-- The integer part of the binary logarithm of the positive ratio `a / d`. -/
def expo (a d : Nat) : Int :=
  if d * 2 ^ ((log2 a : Int) - (log2 d : Int)).toNat
      ≤ a * 2 ^ ((log2 d : Int) - (log2 a : Int)).toNat
  then (log2 a : Int) - (log2 d : Int)
  else (log2 a : Int) - (log2 d : Int) - 1

/-- The exponent of the unit in the last place used to round `(a / d) * 2 ^ k`:
53 significant bits, never below the subnormal exponent `-1074`. -/
def ulpExp (a d : Nat) (k : Int) : Int := max (expo a d + k - 52) (-1074)

/-- The significand `m` with `(a / d) * 2 ^ k` rounded to `m * 2 ^ (ulpExp a d k)`. -/
def roundMant (a d : Nat) (k : Int) : Nat :=
  roundHalfEven (a * 2 ^ (k - ulpExp a d k).toNat) (d * 2 ^ (ulpExp a d k - k).toNat)

/-- The `double` nearest to the exact value `(n / d) * 2 ^ k` (for `d > 0`). -/
def roundRatio (n : Int) (d : Nat) (k : Int) : Double :=
  if n = 0 then .fin 0 0
  else if 972 ≤ ulpExp n.natAbs d k ∨
      (ulpExp n.natAbs d k = 971 ∧ roundMant n.natAbs d k = 2 ^ 53) then .inf (decide (n < 0))
  else .fin (if n < 0 then -(roundMant n.natAbs d k : Int) else (roundMant n.natAbs d k : Int))
    (ulpExp n.natAbs d k)

namespace Double

/-- Conversion of an integer to `double` (exact for every 32-bit `int`). -/
def ofInt (n : Int) : Double := roundRatio n 1 0

/-- The exact value of a finite `double` (and `0` for an infinity or a NaN). -/
def toRat : Double → ℚ
  | fin m e => (m : ℚ) * (2 : ℚ) ^ e
  | _ => 0

/-- Sign change. -/
def neg : Double → Double
  | fin m e => fin (-m) e
  | inf b => inf (!b)
  | nan => nan

/-- The test `p != 0`. -/
def isNonZero : Double → Bool
  | fin m _ => m != 0
  | _ => true

/-- Multiplication of two `double`s. -/
def mul : Double → Double → Double
  | fin m1 e1, fin m2 e2 => roundRatio (m1 * m2) 1 (e1 + e2)
  | fin m _, inf b => if m = 0 then nan else inf (xor (decide (m < 0)) b)
  | inf b, fin m _ => if m = 0 then nan else inf (xor b (decide (m < 0)))
  | inf a, inf b => inf (xor a b)
  | _, _ => nan

/-- Division of two `double`s. -/
def div : Double → Double → Double
  | fin m1 e1, fin m2 e2 =>
    if m2 = 0 then (if m1 = 0 then nan else inf (decide (m1 < 0)))
    else roundRatio (if m2 < 0 then -m1 else m1) m2.natAbs (e1 - e2)
  | fin _ _, inf _ => fin 0 0
  | inf b, fin m _ => inf (xor b (decide (m < 0)))
  | _, _ => nan

/-- The function `ceil` of `<math.h>`. -/
def ceil : Double → Double
  | fin m e => if 0 ≤ e then fin m e else fin (-((-m) / 2 ^ (-e).toNat)) 0
  | d => d

/-- The integer part of a finite `double`, rounding toward zero. -/
def trunc (m e : Int) : Int :=
  if 0 ≤ e then m * 2 ^ e.toNat
  else if 0 ≤ m then m / 2 ^ (-e).toNat else -((-m) / 2 ^ (-e).toNat)

/-- Conversion `(int) d`: truncation toward zero.  For a value outside the range of
`int`, for an infinity and for a NaN the conversion is undefined in C++; the value
taken here is the one the x86-64 conversion instruction produces, `INT_MIN`. -/
def toInt : Double → Int
  | fin m e => if INT_MIN ≤ trunc m e ∧ trunc m e ≤ INT_MAX then trunc m e else INT_MIN
  | _ => INT_MIN

/-- Conversion `(int64_t) d`, as `toInt` with the 64-bit range. -/
def toInt64 : Double → Int
  | fin m e => if LLONG_MIN ≤ trunc m e ∧ trunc m e ≤ LLONG_MAX then trunc m e else LLONG_MIN
  | _ => LLONG_MIN

/-- The comparison `a >= b` of two `double`s (false when either is a NaN). -/
def ge : Double → Double → Bool
  | fin m1 e1, fin m2 e2 =>
    decide (m2 * 2 ^ (e2 - min e1 e2).toNat ≤ m1 * 2 ^ (e1 - min e1 e2).toNat)
  | fin _ _, inf b => b
  | inf b, fin _ _ => !b
  | inf a, inf b => !a || b
  | _, _ => false

end Double

/-! ## `strtod`, `std::stod` and `atof` -/

/-- The C locale `isxdigit`. -/
def isxdigit (c : Char) : Bool :=
  isdigit c || (97 ≤ c.toNat && c.toNat ≤ 102) || (65 ≤ c.toNat && c.toNat ≤ 70)

/-- Value of a hexadecimal digit. -/
def hexDigitVal (c : Char) : Nat :=
  if isdigit c then c.toNat - 48
  else if 97 ≤ c.toNat then c.toNat - 87 else c.toNat - 55

/-- Value of a run of hexadecimal digits, most significant first. -/
def hexDigitsVal (ds : Str) : Nat := ds.foldl (fun acc c => acc * 16 + hexDigitVal c) 0

/-- Character codes of a string with upper-case letters folded to lower case. -/
def lowerCodes (s : Str) : List Nat :=
  s.map (fun c => if 65 ≤ c.toNat ∧ c.toNat ≤ 90 then c.toNat + 32 else c.toNat)

/-- Whether `s` starts with the lower-case word `p`, letter case ignored. -/
def startsNoCase (s : Str) (p : String) : Bool :=
  lowerCodes (s.take p.length) == p.toList.map Char.toNat

/-- An optionally signed run of decimal digits at the head of `s`, as an exponent:
`0` when there is no digit. -/
def exponentVal (s : Str) : Int :=
  let neg := s.head? == some '-'
  let r := if s.head? == some '-' || s.head? == some '+' then s.tail else s
  if neg then -(digitsVal (r.takeWhile isdigit) : Int) else (digitsVal (r.takeWhile isdigit) : Int)

/-- The non-negative value `(n / d) * 2 ^ k` as `strtod` returns it, with the flag
"`errno` was set to `ERANGE`": on overflow, and on a result below the normal range
that is not exact. -/
def roundChecked (n d : Nat) (k : Int) : Double × Bool :=
  if n = 0 then (.fin 0 0, false)
  else
    (roundRatio n d k,
      (roundRatio n d k == .inf false) ||
      (decide (expo n d + k < -1022) &&
        (n * 2 ^ (k - ulpExp n d k).toNat) % (d * 2 ^ (ulpExp n d k - k).toNat) != 0))

/-- The decimal form of `strtod`: digits with an optional point and an optional
exponent.  `none` when there is no digit. -/
def strtodDecimal (s : Str) : Option (Double × Bool) :=
  let ip := s.takeWhile isdigit
  let r1 := s.dropWhile isdigit
  let fp := if r1.head? == some '.' then r1.tail.takeWhile isdigit else []
  let r2 := if r1.head? == some '.' then r1.tail.dropWhile isdigit else r1
  if ip.isEmpty && fp.isEmpty then none
  else
    let ex : Int := if r2.head? == some 'e' || r2.head? == some 'E' then exponentVal r2.tail else 0
    let p : Int := ex - (fp.length : Int)
    some (roundChecked (digitsVal (ip ++ fp) * 10 ^ p.toNat) (10 ^ (-p).toNat) 0)

/-- The hexadecimal form of `strtod`, for the text after `0x`.  `none` when there is
no hexadecimal digit. -/
def strtodHex (s : Str) : Option (Double × Bool) :=
  let ip := s.takeWhile isxdigit
  let r1 := s.dropWhile isxdigit
  let fp := if r1.head? == some '.' then r1.tail.takeWhile isxdigit else []
  let r2 := if r1.head? == some '.' then r1.tail.dropWhile isxdigit else r1
  if ip.isEmpty && fp.isEmpty then none
  else
    let ex : Int := if r2.head? == some 'p' || r2.head? == some 'P' then exponentVal r2.tail else 0
    some (roundChecked (hexDigitsVal (ip ++ fp)) 1 (ex - 4 * (fp.length : Int)))

/-- The unsigned part of `strtod`. -/
def strtodUnsigned (s : Str) : Option (Double × Bool) :=
  if startsNoCase s "inf" then some (.inf false, false)
  else if startsNoCase s "nan" then some (.nan, false)
  else if startsNoCase s "0x" then
    match strtodHex (s.drop 2) with
    | some r => some r
    | none => strtodDecimal s
  else strtodDecimal s

/-- The function `strtod(s, 0)`: leading white space, an optional sign, then an
infinity, a NaN, a hexadecimal or a decimal number.  Returns the value and whether
`errno` became `ERANGE`, or `none` when no conversion could be performed. -/
def strtod (s : Str) : Option (Double × Bool) :=
  let s1 := s.dropWhile isspace
  let neg := s1.head? == some '-'
  let s2 := if s1.head? == some '-' || s1.head? == some '+' then s1.tail else s1
  match strtodUnsigned s2 with
  | none => none
  | some (v, erange) => some (if neg then v.neg else v, erange)

/-- The function `std::stod(str)`: `invalid_argument` when no conversion could be
performed, `out_of_range` when `strtod` reports `ERANGE`. -/
def stod (s : Str) : Except Exn Double :=
  match strtod s with
  | none => .error .invalid_argument
  | some (v, erange) => if erange then .error .out_of_range else .ok v

/-- The function `atof(str)`, that is `strtod(str, 0)`: `0` when there is no conversion. -/
def atof (s : Str) : Double :=
  match strtod s with
  | none => .fin 0 0
  | some (v, _) => v

deriving instance DecidableEq for Except

/-! ## Commands (`src/command.h`) -/

/-- The constant `MAX_CMD_LENGTH`. -/
def MAX_CMD_LENGTH : Nat := 1024

/-- The constant `MAX_TOKEN_LENGTH`. -/
def MAX_TOKEN_LENGTH : Nat := 10

/-- The constant `VISIABLE_LATTERS`: the token alphabet. -/
def VISIABLE_LATTERS : Str :=
  "abcdefghijklmnopqrstuvwxyzABCDEFGHIJKLMNOPQRSTUVWXYZ0123456789".toList

/-- The class `Command`: the fields shared by every command. -/
structure Command where
  name : Str
  cmd : Str
  token : Char
  is_private : Bool
  is_multicast : Bool
  deriving DecidableEq, Repr

/-- The constructor `Command(name, cmd)`. -/
def Command.mk0 (name cmd : Str) : Command :=
  { name := name, cmd := cmd, token := '$', is_private := false, is_multicast := false }

/-- Whether `pat` occurs in `s`: `s.find(pat) != std::string::npos`. -/
def contains (s pat : Str) : Bool := s.tails.any (fun t => t.take pat.length == pat)

/-- The method `Command::GetCmd`: the command line, with ` token <c>` appended unless
the line already contains ` token` or the token is still the initial `$`. -/
def Command.GetCmd (c : Command) : Str :=
  if contains c.cmd " token".toList || c.token == '$' then c.cmd
  else c.cmd ++ " token ".toList ++ [c.token]

/-- The method `Command::UpdateToken` on the static counter `index` (an
`unsigned char`): the token drawn, and the counter after the post-increment. -/
def UpdateToken (index : Nat) : Char × Nat :=
  (VISIABLE_LATTERS.getD (index % (VISIABLE_LATTERS.length + 1 - 1)) '$', (index + 1) % 256)

/-- The constant `ECHO_DEFAULT_COUNT`. -/
def ECHO_DEFAULT_COUNT : Int := 5
/-- The constant `ECHO_DEFAULT_INTERVAL`, in microseconds. -/
def ECHO_DEFAULT_INTERVAL : Int := 200 * 1000
/-- The constant `ECHO_DEFAULT_SIZE`. -/
def ECHO_DEFAULT_SIZE : Int := 32
/-- The constant `ECHO_DEFAULT_WAIT`, in microseconds. -/
def ECHO_DEFAULT_WAIT : Int := 500 * 1000
/-- The constant `ECHO_DEFAULT_TIMEOUT`, in milliseconds. -/
def ECHO_DEFAULT_TIMEOUT : Int := 100
/-- The constant `ECHO_DEFAULT_SPEED`, in KByte/s. -/
def ECHO_DEFAULT_SPEED : Int := 0
/-- The constant `ECHO_DEFAULT_TIME`, in milliseconds. -/
def ECHO_DEFAULT_TIME : Int := 0 * 1000

/-- The constant `SEND_DEFAULT_COUNT`. -/
def SEND_DEFAULT_COUNT : Int := 100
/-- The constant `SEND_DEFAULT_INTERVAL`, in microseconds. -/
def SEND_DEFAULT_INTERVAL : Int := 0 * 1000
/-- The constant `SEND_DEFAULT_SIZE`. -/
def SEND_DEFAULT_SIZE : Int := 1472
/-- The constant `SEND_DEFAULT_WAIT`, in microseconds. -/
def SEND_DEFAULT_WAIT : Int := 500 * 1000
/-- The constant `SEND_DEFAULT_TIMEOUT`, in milliseconds. -/
def SEND_DEFAULT_TIMEOUT : Int := 100
/-- The constant `SEND_DEFAULT_SPEED`, in KByte/s. -/
def SEND_DEFAULT_SPEED : Int := 0
/-- The constant `SEND_DEFAULT_TIME`, in milliseconds. -/
def SEND_DEFAULT_TIME : Int := 3000

/-- An argument read as `args[key].empty() ? dflt : std::stoi(args[key])`. -/
def intArg (args : CommandArgs) (key : String) (dflt : Int) : Except Exn Int :=
  if (args.get key.toList).isEmpty then .ok dflt else stoi (args.get key.toList)

/-- The interval read as
`args["interval"].empty() ? dflt : std::stod(args["interval"]) * 1000`, converted to
the `int` member `interval_`. -/
def intervalArg (args : CommandArgs) (dflt : Int) : Except Exn Int :=
  if (args.get "interval".toList).isEmpty then .ok dflt
  else (stod (args.get "interval".toList)).map
    (fun d => (Double.mul d (Double.ofInt 1000)).toInt)

/-- The wait read as `args["wait"].empty() ? dflt : std::stoi(args["wait"]) * 1000`,
an `int` product. -/
def waitArg (args : CommandArgs) (dflt : Int) : Except Exn Int :=
  if (args.get "wait".toList).isEmpty then .ok dflt
  else (stoi (args.get "wait".toList)).map (fun w => wrap32 (w * 1000))

/-- The token after `if (!args["token"].empty()) token = args["token"].at(0);`. -/
def tokenArg (args : CommandArgs) (token : Char) : Char :=
  (args.get "token".toList).headD token

/-- The count `ceil((speed * 1024) * (time / 1000.0) / size_)` stored in the `int`
member `count_`; `speed * 1024` is an `int` product. -/
def countFromSpeed (speed time size : Int) : Int :=
  (Double.ceil
    (Double.div
      (Double.mul (Double.ofInt (wrap32 (speed * 1024)))
        (Double.div (Double.ofInt time) (Double.ofInt 1000)))
      (Double.ofInt size))).toInt

/-- The interval `1000000 / ((1.0 * speed * 1024) / size_)` stored in the `int`
member `interval_`; here the product is a `double` product. -/
def intervalFromSpeed (speed size : Int) : Int :=
  (Double.div (Double.ofInt 1000000)
    (Double.div
      (Double.mul (Double.mul (Double.ofInt 1) (Double.ofInt speed)) (Double.ofInt 1024))
      (Double.ofInt size))).toInt

/-- The count `time * 1000.0 / interval_` stored in the `int` member `count_`. -/
def countFromInterval (time interval : Int) : Int :=
  (Double.div (Double.mul (Double.ofInt time) (Double.ofInt 1000)) (Double.ofInt interval)).toInt

/-- The class `EchoCommand` (`ping`). -/
structure EchoCommand extends Command where
  count_ : Int
  interval_ : Int
  size_ : Int
  wait_ : Int
  timeout_ : Int
  deriving DecidableEq, Repr

/-- The constructor `EchoCommand(cmd)`, which draws a token; the member `timeout_`
is not initialised by the constructor and is given the value `0` here. -/
def EchoCommand.new (index : Nat) (cmd : Str) : EchoCommand × Nat :=
  ({ toCommand := { Command.mk0 "ping".toList cmd with token := (UpdateToken index).1 },
     count_ := ECHO_DEFAULT_COUNT, interval_ := ECHO_DEFAULT_INTERVAL,
     size_ := ECHO_DEFAULT_SIZE, wait_ := ECHO_DEFAULT_WAIT, timeout_ := 0 },
   (UpdateToken index).2)

/-- The method `EchoCommand::ResolveArgs`; it returns `true` whenever it returns. -/
def EchoCommand.ResolveArgs (c : EchoCommand) (args : CommandArgs) : Except Exn EchoCommand := do
  let count ← intArg args "count" ECHO_DEFAULT_COUNT
  let interval ← intervalArg args ECHO_DEFAULT_INTERVAL
  let size ← intArg args "size" ECHO_DEFAULT_SIZE
  let wait ← waitArg args ECHO_DEFAULT_WAIT
  let timeout ← intArg args "timeout" ECHO_DEFAULT_TIMEOUT
  let token := tokenArg args c.token
  let speed ← intArg args "speed" ECHO_DEFAULT_SPEED
  let time ← intArg args "time" ECHO_DEFAULT_TIME
  let size1 := if 0 < speed ∧ 0 < time then (if size = ECHO_DEFAULT_SIZE then 1472 else size) else size
  let count1 :=
    if 0 < speed ∧ 0 < time then countFromSpeed speed time size1
    else if 0 < interval ∧ 0 < time then countFromInterval time interval
    else count
  let interval1 := if 0 < speed ∧ 0 < time then intervalFromSpeed speed size1 else interval
  return { c with token := token, count_ := count1,
                  interval_ := if interval1 ≤ 0 then ECHO_DEFAULT_INTERVAL else interval1,
                  size_ := size1, wait_ := wait, timeout_ := timeout }

/-- The class `SendCommand`. -/
structure SendCommand extends Command where
  count_ : Int
  interval_ : Int
  size_ : Int
  wait_ : Int
  timeout_ : Int
  is_finished : Bool
  deriving DecidableEq, Repr

/-- The constructor `SendCommand(cmd)`, which draws a token. -/
def SendCommand.new (index : Nat) (cmd : Str) : SendCommand × Nat :=
  ({ toCommand := { Command.mk0 "send".toList cmd with token := (UpdateToken index).1 },
     count_ := SEND_DEFAULT_COUNT, interval_ := SEND_DEFAULT_INTERVAL,
     size_ := SEND_DEFAULT_SIZE, wait_ := SEND_DEFAULT_WAIT, timeout_ := SEND_DEFAULT_TIMEOUT,
     is_finished := false },
   (UpdateToken index).2)

/-- The method `SendCommand::ResolveArgs`; it returns `true` whenever it returns.
The statement `ASSERT(size_>=sizeof(DataHead))` only reports and changes no member. -/
def SendCommand.ResolveArgs (c : SendCommand) (args : CommandArgs) : Except Exn SendCommand := do
  let count ← intArg args "count" SEND_DEFAULT_COUNT
  let interval ← intervalArg args SEND_DEFAULT_INTERVAL
  let size ← intArg args "size" SEND_DEFAULT_SIZE
  let wait ← waitArg args SEND_DEFAULT_WAIT
  let timeout ← intArg args "timeout" SEND_DEFAULT_TIMEOUT
  let token := tokenArg args c.token
  let is_multicast := !(args.get "multicast".toList).isEmpty
  let speed ← intArg args "speed" SEND_DEFAULT_SPEED
  let time ← intArg args "time" SEND_DEFAULT_TIME
  let count1 :=
    if 0 < speed ∧ 0 < time then countFromSpeed speed time size
    else if 0 < interval ∧ 0 < time then countFromInterval time interval
    else count
  let interval1 := if 0 < speed ∧ 0 < time then intervalFromSpeed speed size else interval
  return { c with token := token, is_multicast := is_multicast, count_ := count1,
                  interval_ := interval1, size_ := size, wait_ := wait, timeout_ := timeout }

/-! ## `NetStat` and the `result` command -/

/-- The record `NetStat`, fields in declaration order.  The `int` and `long long`
members are integers; `loss` is the only `double`. -/
structure NetStat where
  delay : Int
  max_delay : Int
  min_delay : Int
  jitter : Int
  jitter_std : Int
  loss : Double
  send_packets : Int
  recv_packets : Int
  illegal_packets : Int
  reorder_packets : Int
  duplicate_packets : Int
  timeout_packets : Int
  send_bytes : Int
  recv_bytes : Int
  send_time : Int
  recv_time : Int
  send_speed : Int
  min_send_speed : Int
  max_send_speed : Int
  recv_speed : Int
  min_recv_speed : Int
  max_recv_speed : Int
  send_pps : Int
  recv_pps : Int
  recv_avg_speed : Int
  send_avg_speed : Int
  max_send_time : Int
  min_send_time : Int
  max_recv_time : Int
  min_recv_time : Int
  peers_count : Int
  peers_failed : Int
  deriving DecidableEq

/-- The value-initialised record `NetStat stat = {}`. -/
def NetStat.zero : NetStat :=
  { delay := 0, max_delay := 0, min_delay := 0, jitter := 0, jitter_std := 0,
    loss := .fin 0 0, send_packets := 0, recv_packets := 0, illegal_packets := 0,
    reorder_packets := 0, duplicate_packets := 0, timeout_packets := 0, send_bytes := 0,
    recv_bytes := 0, send_time := 0, recv_time := 0, send_speed := 0, min_send_speed := 0,
    max_send_speed := 0, recv_speed := 0, min_recv_speed := 0, max_recv_speed := 0,
    send_pps := 0, recv_pps := 0, recv_avg_speed := 0, send_avg_speed := 0,
    max_send_time := 0, min_send_time := 0, max_recv_time := 0, min_recv_time := 0,
    peers_count := 0, peers_failed := 0 }

/-- Decimal digits of a natural number, with fuel. -/
def showNatFuel : Nat → Nat → Str
  | 0, _ => []
  | fuel + 1, n =>
    if n < 10 then [Char.ofNat (48 + n)]
    else showNatFuel fuel (n / 10) ++ [Char.ofNat (48 + n % 10)]

/-- The text `ss << n` writes for a non-negative integer. -/
def showNat (n : Nat) : Str := showNatFuel (n + 1) n

/-- The text `ss << p` writes for an `int` or a `long long`. -/
def showInt (n : Int) : Str :=
  if n < 0 then '-' :: showNat n.natAbs else showNat n.natAbs

/-- The integer members in the order in which `ToString` writes them after `loss`:
the name, the value, and whether the member is a `long long` (otherwise an `int`). -/
def NetStat.intFields (s : NetStat) : List (String × Int × Bool) :=
  [("send_speed", s.send_speed, true), ("recv_speed", s.recv_speed, true),
   ("send_avg_speed", s.send_avg_speed, true), ("recv_avg_speed", s.recv_avg_speed, true),
   ("max_send_speed", s.max_send_speed, true), ("max_recv_speed", s.max_recv_speed, true),
   ("min_send_speed", s.min_send_speed, true), ("min_recv_speed", s.min_recv_speed, true),
   ("send_packets", s.send_packets, true), ("recv_packets", s.recv_packets, true),
   ("illegal_packets", s.illegal_packets, true), ("reorder_packets", s.reorder_packets, true),
   ("duplicate_packets", s.duplicate_packets, true),
   ("timeout_packets", s.timeout_packets, true),
   ("send_pps", s.send_pps, true), ("recv_pps", s.recv_pps, true),
   ("send_bytes", s.send_bytes, true), ("recv_bytes", s.recv_bytes, true),
   ("send_time", s.send_time, false), ("recv_time", s.recv_time, false),
   ("max_send_time", s.max_send_time, false), ("max_recv_time", s.max_recv_time, false),
   ("min_send_time", s.min_send_time, false), ("min_recv_time", s.min_recv_time, false),
   ("delay", s.delay, false), ("min_delay", s.min_delay, false),
   ("max_delay", s.max_delay, false), ("jitter", s.jitter, false),
   ("jitter_std", s.jitter_std, true),
   ("peers_count", s.peers_count, false), ("peers_failed", s.peers_failed, false)]

/-- One expansion of the macro `W(p)` of `ToString`:
`if (!istty || p != 0) ss << "p" " " << p << " "`, for a member whose text is `text`. -/
def writeField (istty : Bool) (name : String) (nonzero : Bool) (text : Str) : Str :=
  if !istty || nonzero then name.toList ++ [Char.ofNat 32] ++ text ++ [Char.ofNat 32] else []

/-- The method `NetStat::ToString`.  `istty` is the value of `isatty(fileno(stdout))`
and `fmt` is the text that the stream writes for a `double`. -/
def NetStat.ToString (fmt : Double → Str) (istty : Bool) (s : NetStat) : Str :=
  writeField istty "loss" s.loss.isNonZero (fmt s.loss) ++
  (s.intFields.map (fun f => writeField istty f.1 (f.2.1 != 0) (showInt f.2.1))).flatten

/-- The method `NetStat::FromCommandArgs`: `atof` for `loss`, `atoll` for the
`long long` members and `atoi` for the `int` members. -/
def NetStat.FromCommandArgs (args : CommandArgs) : NetStat :=
  { loss := atof (args.get "loss".toList),
    send_speed := atoll (args.get "send_speed".toList),
    recv_speed := atoll (args.get "recv_speed".toList),
    send_avg_speed := atoll (args.get "send_avg_speed".toList),
    recv_avg_speed := atoll (args.get "recv_avg_speed".toList),
    max_send_speed := atoll (args.get "max_send_speed".toList),
    max_recv_speed := atoll (args.get "max_recv_speed".toList),
    min_send_speed := atoll (args.get "min_send_speed".toList),
    min_recv_speed := atoll (args.get "min_recv_speed".toList),
    send_packets := atoll (args.get "send_packets".toList),
    recv_packets := atoll (args.get "recv_packets".toList),
    illegal_packets := atoll (args.get "illegal_packets".toList),
    reorder_packets := atoll (args.get "reorder_packets".toList),
    duplicate_packets := atoll (args.get "duplicate_packets".toList),
    timeout_packets := atoll (args.get "timeout_packets".toList),
    send_pps := atoll (args.get "send_pps".toList),
    recv_pps := atoll (args.get "recv_pps".toList),
    send_bytes := atoll (args.get "send_bytes".toList),
    recv_bytes := atoll (args.get "recv_bytes".toList),
    send_time := atoi (args.get "send_time".toList),
    recv_time := atoi (args.get "recv_time".toList),
    max_send_time := atoi (args.get "max_send_time".toList),
    max_recv_time := atoi (args.get "max_recv_time".toList),
    min_send_time := atoi (args.get "min_send_time".toList),
    min_recv_time := atoi (args.get "min_recv_time".toList),
    delay := atoi (args.get "delay".toList),
    min_delay := atoi (args.get "min_delay".toList),
    max_delay := atoi (args.get "max_delay".toList),
    jitter := atoi (args.get "jitter".toList),
    jitter_std := atoll (args.get "jitter_std".toList),
    peers_count := atoi (args.get "peers_count".toList),
    peers_failed := atoi (args.get "peers_failed".toList) }

/-- The class `ResultCommand`; `netstat` is the null pointer until `ResolveArgs` ran. -/
structure ResultCommand extends Command where
  netstat : Option NetStat
  deriving DecidableEq

/-- The method `ResultCommand::ResolveArgs`; it always returns `true`. -/
def ResultCommand.ResolveArgs (c : ResultCommand) (args : CommandArgs) : ResultCommand :=
  { c with netstat := some (NetStat.FromCommandArgs args) }

/-- The method `ResultCommand::Serialize` of a command made by `ResultCommand()`. -/
def ResultCommand.Serialize (fmt : Double → Str) (istty : Bool) (netstat : NetStat) : Str :=
  "result".toList ++ [Char.ofNat 32] ++ netstat.ToString fmt istty

/-- The enumeration `ModeCommand::ModeType`. -/
inductive ModeType where
  | None
  | UDP
  | Multicast
  deriving DecidableEq, Repr

/-- The class `ModeCommand`. -/
structure ModeCommand extends Command where
  mode_ : ModeType
  deriving DecidableEq, Repr

/-- The method `ModeCommand::ResolveArgs`: the command with `mode_` set, and the
returned flag `mode_ != ModeType::None`. -/
def ModeCommand.ResolveArgs (c : ModeCommand) (args : CommandArgs) : ModeCommand × Bool :=
  let m := if !(args.get "udp".toList).isEmpty then ModeType.UDP
    else if !(args.get "multicast".toList).isEmpty then ModeType.Multicast else ModeType.None
  ({ c with mode_ := m }, m != ModeType.None)

/-! ## `CommandFactory` -/

/-- A command of any registered class. -/
inductive AnyCommand where
  | echo (c : EchoCommand)
  | send (c : SendCommand)
  | ack (c : Command)
  | stop (c : Command)
  | result (c : ResultCommand)
  | mode (c : ModeCommand)
  deriving DecidableEq

/-- The classes a constructor can be registered for. -/
inductive CommandClass where
  | echo
  | send
  | ack
  | stop
  | result
  | mode
  deriving DecidableEq, Repr

/-- Modelled from the spec: the registrations, which are made in a source file that
is not part of `src/` (`Container()` is filled by one `CommandRegister` object per
command).  The spec lists the variants `Echo` (named `ping`), `Send`, `Ack`, `Stop`,
`Result` and `Mode`; the name of each is the one its class passes to `Command`, and
the second component is the `is_private` flag of the registration: the two
measurement commands are public, the four control messages are private. -/
def Container : List (Str × CommandClass × Bool) :=
  [("ping".toList, .echo, false), ("send".toList, .send, false),
   ("ack".toList, .ack, true), ("stop".toList, .stop, true),
   ("result".toList, .result, true), ("mode".toList, .mode, true)]

/-- The lookup `Container().find(name)`. -/
def Container.find (name : Str) : Option (CommandClass × Bool) :=
  (Container.find? (fun r => r.1 == name)).map (fun r => r.2)

/-- The argument loop of `CommandFactory::New` over the words that follow the name:
`while (ss >> key) { if (ss >> value) ... else ... }`.  The string `value` keeps its
last content when an extraction fails.  `none` is the `return NULL` of an
`ASSERT_RETURN` whose condition is false.

Modelled from the spec: the macro `ASSERT_RETURN(cond, result)` is defined in a
header that is not part of `src/`; following the spec ("rejecting ... duplicate
keys") it returns `result` when `cond` is false. -/
def parseArgs : List Str → CommandArgs → Str → Option CommandArgs
  | [], args, _ => some args
  | [key], args, value => if value.isEmpty then none else some (args.set key [])
  | key :: v :: rest, args, _ =>
    if (args.find key).isSome then none else parseArgs rest (args.set key v) v

/-- The method `CommandRegister<DerivedType>::NewCommand`: construct the command,
set `is_private`, resolve the arguments; the null pointer (`none`) when `ResolveArgs`
returns `false`.  The second component is the token counter afterwards. -/
def NewCommand (cls : CommandClass) (is_private : Bool) (index : Nat) (cmd : Str)
    (args : CommandArgs) : Except Exn (Option AnyCommand) × Nat :=
  match cls with
  | .echo =>
    (((EchoCommand.new index cmd).1.ResolveArgs args).map
        (fun c => some (.echo { c with is_private := is_private })),
      (EchoCommand.new index cmd).2)
  | .send =>
    (((SendCommand.new index cmd).1.ResolveArgs args).map
        (fun c => some (.send { c with is_private := is_private })),
      (SendCommand.new index cmd).2)
  | .ack => (.ok (some (.ack { Command.mk0 "ack".toList cmd with is_private := is_private })), index)
  | .stop =>
    (.ok (some (.stop { Command.mk0 "stop".toList cmd with is_private := is_private })), index)
  | .result =>
    (.ok (some (.result (ResultCommand.ResolveArgs
      { toCommand := { Command.mk0 "result".toList cmd with is_private := is_private },
        netstat := none } args))), index)
  | .mode =>
    let r := ModeCommand.ResolveArgs
      { toCommand := { Command.mk0 "mode".toList cmd with is_private := is_private },
        mode_ := .None } args
    (.ok (if r.2 then some (.mode r.1) else none), index)

/-- The method `CommandFactory::New`.  The result is an exception thrown by a number
conversion, the null pointer (`none`), or the command; the second component is the
token counter after the call. -/
def New (index : Nat) (cmd : Str) : Except Exn (Option AnyCommand) × Nat :=
  if ¬ cmd.length ≤ MAX_CMD_LENGTH - MAX_TOKEN_LENGTH then (.ok none, index)
  else
    match Container.find ((words cmd).headD []) with
    | none => (.ok none, index)
    | some (cls, is_private) =>
      match parseArgs (words cmd).tail [] [] with
      | none => (.ok none, index)
      | some args => NewCommand cls is_private index cmd args

/-! ## The agent-side receive engines (`src/command_receiver.cc`) -/

/-- The part of `Context` that the receivers change: whether the data descriptor
is in the read set and in the write set, and whether the control descriptor is in
the write set. -/
structure FdInterest where
  read_data : Bool
  write_data : Bool
  write_control : Bool
  deriving DecidableEq, Repr

/-- The class `EchoCommandReceiver`; `data_queue_` has its front at the head of the
list.  The two counters are unbounded integers (their declaration is in
`command_receiver.h`, which is not part of `src/`). -/
structure EchoCommandReceiver where
  send_count_ : Int
  recv_count_ : Int
  running_ : Bool
  is_stopping_ : Bool
  data_queue_ : List Str
  context_ : FdInterest
  deriving DecidableEq, Repr

namespace EchoCommandReceiver

/-- The constructor, on a channel whose context has the interests `ctx`. -/
def new (ctx : FdInterest) : EchoCommandReceiver :=
  { send_count_ := 0, recv_count_ := 0, running_ := false, is_stopping_ := false,
    data_queue_ := [], context_ := ctx }

/-- The method `EchoCommandReceiver::Start`; it returns `0`. -/
def Start (r : EchoCommandReceiver) : EchoCommandReceiver × Int :=
  ({ r with running_ := true, context_ := { r.context_ with read_data := true } }, 0)

/-- The method `EchoCommandReceiver::Stop`; it returns `0`. -/
def Stop (r : EchoCommandReceiver) : EchoCommandReceiver × Int :=
  ({ r with running_ := false,
            context_ := { read_data := false, write_data := false, write_control := true } }, 0)

/-- The loop of `Send` on the queue `q`: `ok i` tells whether the `i`-th call of
`data_sock_->Send` from now on succeeds.  Returns the datagrams written, the queue
left, and the value of `result` (`none` when no write was attempted, `-1` after a
failed write, otherwise the length reported by the last write). -/
def drain : List Str → (Nat → Bool) → List Str × List Str × Option Int
  | [], _ => ([], [], none)
  | buf :: q, ok =>
    if ok 0 then
      ((buf :: (drain q (fun i => ok (i + 1))).1),
       (drain q (fun i => ok (i + 1))).2.1,
       match (drain q (fun i => ok (i + 1))).2.2 with
       | none => some (buf.length : Int)
       | some r => some r)
    else ([], buf :: q, some (-1))

/-- The method `EchoCommandReceiver::Send`: the receiver afterwards, the datagrams
written to the data socket in order, and the returned value.  The statement
`ASSERT(data_queue_.size()>0)` only reports. -/
def Send (r : EchoCommandReceiver) (ok : Nat → Bool) : EchoCommandReceiver × List Str × Int :=
  ({ r with context_ := { r.context_ with write_data := false },
            send_count_ := r.send_count_ + ((drain r.data_queue_ ok).1.length : Int),
            data_queue_ := (drain r.data_queue_ ok).2.1 },
   (drain r.data_queue_ ok).1,
   ((drain r.data_queue_ ok).2.2).getD 0)

/-- The method `EchoCommandReceiver::Recv`.  `got` is what `data_sock_->Recv` did:
`none` for a negative result, otherwise the bytes stored in the buffer. -/
def Recv (r : EchoCommandReceiver) (got : Option Str) : EchoCommandReceiver × Int :=
  match got with
  | none => (r, -1)
  | some buf =>
    ({ r with data_queue_ := r.data_queue_ ++ [buf],
              context_ := { r.context_ with write_data := true },
              recv_count_ := r.recv_count_ + 1 }, 0)

/-- The record that `EchoCommandReceiver::SendPrivateCommand` fills in. -/
def reportStat (r : EchoCommandReceiver) : NetStat :=
  { NetStat.zero with recv_packets := r.recv_count_, send_packets := r.send_count_ }

/-- The method `EchoCommandReceiver::SendPrivateCommand`: the receiver afterwards,
the line handed to `control_sock_->Send`, and the returned value; `sent` is the
result of that call, `none` when it is negative. -/
def SendPrivateCommand (fmt : Double → Str) (istty : Bool) (r : EchoCommandReceiver)
    (sent : Option Nat) : EchoCommandReceiver × Str × Int :=
  ({ r with context_ := { r.context_ with write_control := false } },
   ResultCommand.Serialize fmt istty (reportStat r),
   match sent with
   | none => -1
   | some n => (n : Int))

end EchoCommandReceiver

/-- One call made on an echo receiver by the event loop, with what the socket does
during the call. -/
inductive EchoCall where
  | Start
  | Stop
  | Recv (got : Option Str)
  | Send (ok : Nat → Bool)

/-- An echo receiver together with everything it has written to its data socket. -/
structure EchoRun where
  receiver : EchoCommandReceiver
  wire : List Str

/-- The effect of one call. -/
def EchoRun.step (w : EchoRun) : EchoCall → EchoRun
  | .Start => { w with receiver := w.receiver.Start.1 }
  | .Stop => { w with receiver := w.receiver.Stop.1 }
  | .Recv got => { w with receiver := (w.receiver.Recv got).1 }
  | .Send ok => { receiver := (w.receiver.Send ok).1, wire := w.wire ++ (w.receiver.Send ok).2.1 }

/-- The effect of a sequence of calls. -/
def EchoRun.run (w : EchoRun) (calls : List EchoCall) : EchoRun := calls.foldl EchoRun.step w

/-- The datagrams that the successful `Recv` calls of a trace received, in order. -/
def delivered : List EchoCall → List Str
  | [] => []
  | .Recv (some buf) :: rest => buf :: delivered rest
  | _ :: rest => delivered rest

/-- Whether every socket operation of a trace succeeds. -/
def EchoCall.succeeds : EchoCall → Prop
  | .Recv got => got.isSome
  | .Send ok => ∀ i, ok i = true
  | _ => True

/-- The class `RecvCommandReceiver`.  Time points are readings of
`high_resolution_clock`, in nanoseconds. -/
structure RecvCommandReceiver where
  length_ : Int
  recv_count_ : Int
  recv_bytes_ : Int
  speed_ : Int
  min_speed_ : Int
  max_speed_ : Int
  running_ : Bool
  is_stopping_ : Bool
  start_ : Int
  stop_ : Int
  begin_ : Int
  end_ : Int
  token : Char
  context_ : FdInterest
  deriving DecidableEq, Repr

namespace RecvCommandReceiver

/-- The constructor, for a command whose token is `token`; the four time points are
default-constructed (the clock's epoch). -/
def new (token : Char) (ctx : FdInterest) : RecvCommandReceiver :=
  { length_ := 0, recv_count_ := 0, recv_bytes_ := 0, speed_ := 0, min_speed_ := -1,
    max_speed_ := 0, running_ := false, is_stopping_ := false,
    start_ := 0, stop_ := 0, begin_ := 0, end_ := 0, token := token, context_ := ctx }

/-- The method `RecvCommandReceiver::Start`, with the two clock readings it takes. -/
def Start (r : RecvCommandReceiver) (now1 now2 : Int) : RecvCommandReceiver × Int :=
  ({ r with context_ := { r.context_ with read_data := true },
            start_ := now1, begin_ := now2, running_ := true }, 0)

/-- The method `RecvCommandReceiver::Stop`. -/
def Stop (r : RecvCommandReceiver) : RecvCommandReceiver × Int :=
  ({ r with context_ := { read_data := false, write_data := false, write_control := true },
            running_ := false }, 0)

/-- The value `duration_cast<duration<double>>(t1 - t0).count()`: seconds as a
`double`. -/
def seconds (t1 t0 : Int) : Double :=
  Double.div (Double.ofInt (t1 - t0)) (Double.ofInt 1000000000)

/-- The method `RecvCommandReceiver::Recv`.  `got` is what `data_sock_->Recv` did:
`none` for a negative result, otherwise the bytes stored in `buf_`; `now1`, `now2`
and `now3` are the clock readings the method takes, in order. -/
def Recv (r : RecvCommandReceiver) (got : Option Str) (now1 now2 now3 : Int) :
    RecvCommandReceiver × Int :=
  match got with
  | none => (r, -1)
  | some buf =>
    let bytes := r.recv_bytes_ + (buf.length : Int)
    let speed := (Double.div (Double.ofInt bytes) (seconds now1 r.begin_)).toInt64
    if (seconds now1 r.begin_).ge (Double.ofInt 1) then
      ({ r with end_ := now1, stop_ := now2, recv_bytes_ := bytes,
                recv_count_ := r.recv_count_ + 1,
                min_speed_ := if r.min_speed_ = -1 then speed else min r.min_speed_ speed,
                max_speed_ := max r.max_speed_ speed,
                begin_ := now3 }, (buf.length : Int))
    else
      ({ r with end_ := now1, stop_ := now2, recv_bytes_ := bytes,
                recv_count_ := r.recv_count_ + 1 }, (buf.length : Int))

end RecvCommandReceiver

/-- The member `token` of the `DataHead` at the start of a datagram: the byte after
the 64-bit `timestamp`, the 16-bit `sequence` and the 16-bit `length`. -/
def headerToken (datagram : Str) : Option Char := datagram.get? 12

/-! ## Reading the results of `CommandFactory::New`, and a process parsing many lines -/

/-- The `SendCommand` that a call of `New` returned, if it returned one. -/
def sendOf (r : Except Exn (Option AnyCommand) × Nat) : Option SendCommand :=
  match r.1 with
  | .ok (some (.send c)) => some c
  | _ => none

/-- The `EchoCommand` that a call of `New` returned, if it returned one. -/
def echoOf (r : Except Exn (Option AnyCommand) × Nat) : Option EchoCommand :=
  match r.1 with
  | .ok (some (.echo c)) => some c
  | _ => none

/-- The `ResultCommand` that a call of `New` returned, if it returned one. -/
def resultOf (r : Except Exn (Option AnyCommand) × Nat) : Option ResultCommand :=
  match r.1 with
  | .ok (some (.result c)) => some c
  | _ => none

/-- The token of a measurement command (`ping` or `send`). -/
def measurementToken : AnyCommand → Option Char
  | .echo c => some c.token
  | .send c => some c.token
  | _ => none

/-- The token counter of a process that started with the counter at `index` and
passed the given lines to `New`, in order. -/
def indexAfter (index : Nat) (lines : List Str) : Nat :=
  lines.foldl (fun i l => (New i l).2) index

/-- Whether `New` constructs an `EchoCommand` or a `SendCommand` for the line: the
length check passes, the name is `ping` or `send`, and the argument loop completes. -/
def constructsMeasurement (cmd : Str) : Bool :=
  decide (cmd.length ≤ MAX_CMD_LENGTH - MAX_TOKEN_LENGTH) &&
  (match Container.find ((words cmd).headD []) with
   | some (.echo, _) => true
   | some (.send, _) => true
   | _ => false) &&
  (parseArgs (words cmd).tail [] []).isSome

/-! ## Vocabulary of the round-trip statement for `NetStat` -/

/-- A word as `ss >> w` can read it back: not empty and free of white space. -/
def IsWord (w : Str) : Prop := w ≠ [] ∧ ∀ c ∈ w, isspace c = false

/-- The text `key value key value ...` in which every word is followed by one space. -/
def pairsText (fs : List (Str × Str)) : Str :=
  (fs.map (fun kv => kv.1 ++ [Char.ofNat 32] ++ kv.2 ++ [Char.ofNat 32])).flatten

/-- A `NetStat` whose integer members lie in the ranges of their C++ types
(`long long` or `int`). -/
def NetStat.InRange (s : NetStat) : Prop :=
  ∀ f ∈ s.intFields,
    if f.2.2 = true then LLONG_MIN ≤ f.2.1 ∧ f.2.1 ≤ LLONG_MAX
    else INT_MIN ≤ f.2.1 ∧ f.2.1 ≤ INT_MAX

/-- What a stream writes for a `double`: one word of at most 24 characters (a sign,
17 significant digits, a point and an exponent of three digits at most). -/
def DoubleText (t : Str) : Prop := IsWord t ∧ t.length ≤ 24

/-- Every member of a `NetStat` as `ToString` treats it: its name, its text and
whether it differs from zero. -/
def NetStat.textFields (fmt : Double → Str) (s : NetStat) : List (Str × Str × Bool) :=
  ("loss".toList, fmt s.loss, s.loss.isNonZero) ::
    s.intFields.map (fun f => (f.1.toList, showInt f.2.1, f.2.1 != 0))

/-- The pairs that `ToString` writes. -/
def NetStat.written (fmt : Double → Str) (istty : Bool) (s : NetStat) : List (Str × Str) :=
  ((s.textFields fmt).filter (fun f => !istty || f.2.2)).map (fun f => (f.1, f.2.1))

/-! ## Vocabulary of the derivation bounds -/

/-- The `double` `x` is finite and its exact value is `q`. -/
def Double.HasValue (x : Double) (q : ℚ) : Prop :=
  ∃ m e, x = Double.fin m e ∧ (m : ℚ) * (2 : ℚ) ^ e = q

/-! ## Arithmetic on `NetStat`: `operator+=` and `operator/=` -/

/-- Addition of two `double`s. -/
def Double.add : Double → Double → Double
  | .fin m1 e1, .fin m2 e2 =>
    roundRatio (m1 * 2 ^ (e1 - min e1 e2).toNat + m2 * 2 ^ (e2 - min e1 e2).toNat) 1 (min e1 e2)
  | .fin _ _, .inf b => .inf b
  | .inf b, .fin _ _ => .inf b
  | .inf a, .inf b => if a = b then .inf a else .nan
  | _, _ => .nan

/-- The operator `NetStat::operator+=`, as the value of `*this` afterwards.  The macro
`INT(p)` is `p = p + stat.p` on an `int` or a `long long` (a sum that does not fit is
wrapped, which is what the compiled code does; the overflow itself is undefined in
C++), `DOU(p)` is the same statement on the `double`, `MAX(p)` is
`p = std::max(p, stat.p)` and `MIN(p)` is `p = std::min(p, stat.p)`. -/
def NetStat.add (a b : NetStat) : NetStat :=
  { loss := Double.add a.loss b.loss,
    send_speed := wrap64 (a.send_speed + b.send_speed),
    recv_speed := wrap64 (a.recv_speed + b.recv_speed),
    send_avg_speed := wrap64 (a.send_avg_speed + b.send_avg_speed),
    recv_avg_speed := wrap64 (a.recv_avg_speed + b.recv_avg_speed),
    max_send_speed := max a.max_send_speed b.max_send_speed,
    max_recv_speed := max a.max_recv_speed b.max_recv_speed,
    min_send_speed := min a.min_send_speed b.min_send_speed,
    min_recv_speed := min a.min_recv_speed b.min_recv_speed,
    send_packets := wrap64 (a.send_packets + b.send_packets),
    recv_packets := wrap64 (a.recv_packets + b.recv_packets),
    illegal_packets := wrap64 (a.illegal_packets + b.illegal_packets),
    reorder_packets := wrap64 (a.reorder_packets + b.reorder_packets),
    duplicate_packets := wrap64 (a.duplicate_packets + b.duplicate_packets),
    timeout_packets := wrap64 (a.timeout_packets + b.timeout_packets),
    send_pps := wrap64 (a.send_pps + b.send_pps),
    recv_pps := wrap64 (a.recv_pps + b.recv_pps),
    send_bytes := wrap64 (a.send_bytes + b.send_bytes),
    recv_bytes := wrap64 (a.recv_bytes + b.recv_bytes),
    delay := wrap32 (a.delay + b.delay),
    min_delay := min a.min_delay b.min_delay,
    max_delay := max a.max_delay b.max_delay,
    jitter := wrap32 (a.jitter + b.jitter),
    jitter_std := wrap64 (a.jitter_std + b.jitter_std),
    send_time := wrap32 (a.send_time + b.send_time),
    recv_time := wrap32 (a.recv_time + b.recv_time),
    max_send_time := max a.max_send_time b.max_send_time,
    max_recv_time := max a.max_recv_time b.max_recv_time,
    min_send_time := min a.min_send_time b.min_send_time,
    min_recv_time := min a.min_recv_time b.min_recv_time,
    peers_count := wrap32 (a.peers_count + b.peers_count),
    peers_failed := wrap32 (a.peers_failed + b.peers_failed) }

/-- The operator `NetStat::operator/=`, as the value of `*this` afterwards.  The macro
`INT(p)` is `p /= num` on an `int` or a `long long`: the quotient truncated toward
zero; `DOU(p)` is the same statement on the `double` (`num` is converted to
`double`); `MAX(p)` and `MIN(p)` are `p = p * 1`.  The result is `none` where a C++
integer division is undefined and the division instruction traps: for a zero divisor,
and for the divisor `-1` when a divided member holds the smallest value of its type,
whose quotient does not fit the type. -/
def NetStat.div (s : NetStat) (num : Int) : Option NetStat :=
  if num = 0 ∨
      (num = -1 ∧
        (s.send_speed = LLONG_MIN ∨ s.recv_speed = LLONG_MIN ∨
         s.send_avg_speed = LLONG_MIN ∨ s.recv_avg_speed = LLONG_MIN ∨
         s.send_packets = LLONG_MIN ∨ s.recv_packets = LLONG_MIN ∨
         s.illegal_packets = LLONG_MIN ∨ s.reorder_packets = LLONG_MIN ∨
         s.duplicate_packets = LLONG_MIN ∨ s.timeout_packets = LLONG_MIN ∨
         s.send_pps = LLONG_MIN ∨ s.recv_pps = LLONG_MIN ∨
         s.send_bytes = LLONG_MIN ∨ s.recv_bytes = LLONG_MIN ∨
         s.delay = INT_MIN ∨ s.jitter = INT_MIN ∨ s.jitter_std = LLONG_MIN ∨
         s.send_time = INT_MIN ∨ s.recv_time = INT_MIN ∨
         s.peers_count = INT_MIN ∨ s.peers_failed = INT_MIN)) then none
  else some
    { loss := Double.div s.loss (Double.ofInt num),
      send_speed := Int.tdiv s.send_speed num,
      recv_speed := Int.tdiv s.recv_speed num,
      send_avg_speed := Int.tdiv s.send_avg_speed num,
      recv_avg_speed := Int.tdiv s.recv_avg_speed num,
      max_send_speed := s.max_send_speed * 1,
      max_recv_speed := s.max_recv_speed * 1,
      min_send_speed := s.min_send_speed * 1,
      min_recv_speed := s.min_recv_speed * 1,
      send_packets := Int.tdiv s.send_packets num,
      recv_packets := Int.tdiv s.recv_packets num,
      illegal_packets := Int.tdiv s.illegal_packets num,
      reorder_packets := Int.tdiv s.reorder_packets num,
      duplicate_packets := Int.tdiv s.duplicate_packets num,
      timeout_packets := Int.tdiv s.timeout_packets num,
      send_pps := Int.tdiv s.send_pps num,
      recv_pps := Int.tdiv s.recv_pps num,
      send_bytes := Int.tdiv s.send_bytes num,
      recv_bytes := Int.tdiv s.recv_bytes num,
      delay := Int.tdiv s.delay num,
      min_delay := s.min_delay * 1,
      max_delay := s.max_delay * 1,
      jitter := Int.tdiv s.jitter num,
      jitter_std := Int.tdiv s.jitter_std num,
      send_time := Int.tdiv s.send_time num,
      recv_time := Int.tdiv s.recv_time num,
      max_send_time := s.max_send_time * 1,
      max_recv_time := s.max_recv_time * 1,
      min_send_time := s.min_send_time * 1,
      min_recv_time := s.min_recv_time * 1,
      peers_count := Int.tdiv s.peers_count num,
      peers_failed := Int.tdiv s.peers_failed num }

/-! ## Vocabulary of the statements on `NetStat` arithmetic -/

/-- Whether a member is one of the `max_*` members, by its name. -/
def isMaxName (name : String) : Bool := "max_".toList.isPrefixOf name.toList

/-- Whether a member is one of the `min_*` members, by its name. -/
def isMinName (name : String) : Bool := "min_".toList.isPrefixOf name.toList

/-- A list of integer members (name, value, whether `long long`) whose values lie in
the ranges of their C++ types. -/
def FieldsInRange (fs : List (String × Int × Bool)) : Prop :=
  ∀ f ∈ fs, if f.2.2 = true then LLONG_MIN ≤ f.2.1 ∧ f.2.1 ≤ LLONG_MAX
    else INT_MIN ≤ f.2.1 ∧ f.2.1 ≤ INT_MAX

/-- The member-by-member combination of two records that the claim on `operator+=`
describes: the maximum for a `max_*` member, the minimum for a `min_*` member, the
sum for every other member. -/
def elementwiseSum (a b : NetStat) : List (String × Int × Bool) :=
  List.zipWith
    (fun fa fb =>
      (fa.1,
       if isMaxName fa.1 then max fa.2.1 fb.2.1
       else if isMinName fa.1 then min fa.2.1 fb.2.1 else fa.2.1 + fb.2.1,
       fa.2.2))
    a.intFields b.intFields

/-- The same combination with the sums taken in the member's C++ type. -/
def elementwiseMachineSum (a b : NetStat) : List (String × Int × Bool) :=
  List.zipWith
    (fun fa fb =>
      (fa.1,
       if isMaxName fa.1 then max fa.2.1 fb.2.1
       else if isMinName fa.1 then min fa.2.1 fb.2.1
       else if fa.2.2 then wrap64 (fa.2.1 + fb.2.1) else wrap32 (fa.2.1 + fb.2.1),
       fa.2.2))
    a.intFields b.intFields

/-- The integer members that `operator+=` sums: those that are neither `max_*` nor
`min_*`, in the order of `intFields`. -/
def NetStat.summed (s : NetStat) : List Int :=
  (s.intFields.filter (fun f => !(isMaxName f.1 || isMinName f.1))).map (fun f => f.2.1)

/-- The member-by-member result that the claim on `operator/=` describes: a `max_*`
or `min_*` member is kept, every other integer member is divided, truncating toward
zero. -/
def elementwiseQuotient (s : NetStat) (num : Int) : List (String × Int × Bool) :=
  s.intFields.map
    (fun f => (f.1, if isMaxName f.1 || isMinName f.1 then f.2.1 else Int.tdiv f.2.1 num, f.2.2))

/-- A finite `double` given by a significand of at most 53 bits and an exponent in the
range of the format. -/
def Double.IsBinary64 (x : Double) : Prop :=
  ∃ m e, x = Double.fin m e ∧ |m| < 2 ^ 53 ∧ -1074 ≤ e ∧ e ≤ 971

/-! ## The coordinator (`src/net_snoop_server.cc`, `src/netsnoop.cc`)

The function `Command::CreateCommand`, which `NetSnoopServer` calls to parse a command
text, and the constant `ERR_ILLEGAL_PARAM` are declared in files that are not part of
`src/`; both are parameters below (`create` returns `none` for the null pointer). -/

/-- The part of the coordinator that the command path changes: the bytes waiting in
the command pipe (written at `pipefd_[1]`, read at `pipefd_[0]`), and, for every peer
of `context_->peers`, the arguments of its `SetCommand` calls so far, oldest first
(`none` is the null pointer). -/
structure ServerState where
  pipe : Str
  peers : List (List (Option AnyCommand))

namespace NetSnoopServer

/-- The method `NetSnoopServer::SendCommand`: the state afterwards and the value
returned.  The `write` puts the bytes of `cmd` into the pipe. -/
def SendCommand (create : Str → Option AnyCommand) (ERR_ILLEGAL_PARAM : Int)
    (s : ServerState) (cmd : Str) : ServerState × Int :=
  match create cmd with
  | none => (s, ERR_ILLEGAL_PARAM)
  | some _ => ({ s with pipe := s.pipe ++ cmd }, 0)

/-- The branch `if (FD_ISSET(pipefd_[0], &read_fdsets))` of one iteration of
`NetSnoopServer::Run`: when the pipe holds bytes, at most 64 of them are read, parsed
by `create` and handed to `SetCommand` of every peer (`ASSERT(command)` only
reports). -/
def readPipe (create : Str → Option AnyCommand) (s : ServerState) : ServerState :=
  if s.pipe.isEmpty then s
  else { pipe := s.pipe.drop 64,
         peers := s.peers.map (fun log => log ++ [create (s.pipe.take 64)]) }

end NetSnoopServer

/-- What happens on the command path of the coordinator: the console thread calls
`SendCommand` with a text, or the event loop runs an iteration. -/
inductive ServerEvent where
  | send (cmd : Str)
  | loop

/-- The state of the coordinator after a sequence of events. -/
def serverRun (create : Str → Option AnyCommand) (ERR_ILLEGAL_PARAM : Int) :
    ServerState → List ServerEvent → ServerState
  | s, [] => s
  | s, .send cmd :: es =>
    serverRun create ERR_ILLEGAL_PARAM
      (NetSnoopServer.SendCommand create ERR_ILLEGAL_PARAM s cmd).1 es
  | s, .loop :: es =>
    serverRun create ERR_ILLEGAL_PARAM (NetSnoopServer.readPipe create s) es

/-- The events that are not a `SendCommand` call with a text that `create` rejects. -/
def withoutRejected (create : Str → Option AnyCommand) (es : List ServerEvent) :
    List ServerEvent :=
  es.filter (fun e => match e with
    | .send cmd => (create cmd).isSome
    | .loop => true)

/-- One iteration of the console loop of `StartServer` (`src/netsnoop.cc`) for the
line `cmd`: the command given to `server.PushCommand`, if any, and the token counter
afterwards.  An empty line and the script lines `peers ...` and `sleep ...` push
nothing (`cmd.rfind(p, 0) == 0` tests whether `cmd` starts with `p`); any other line
is parsed by `CommandFactory::New`, and a null result is reported and not pushed.  An
exception thrown by `New` leaves the loop. -/
def consolePush (index : Nat) (cmd : Str) : Except Exn (Option AnyCommand) × Nat :=
  if cmd.isEmpty then (.ok none, index)
  else if "peers ".toList.isPrefixOf cmd then (.ok none, index)
  else if "sleep ".toList.isPrefixOf cmd then (.ok none, index)
  else New index cmd

/-! ## Vocabulary of the statement on unit conversion -/

/-- A run of decimal digits. -/
def IsDigits (s : Str) : Prop := ∀ c ∈ s, isdigit c = true

/-- A decimal number as a command line gives it: the digits `ip`, followed by a point
and the digits `fp` when `fp` is not empty. -/
def decimalText (ip fp : Str) : Str := if fp.isEmpty then ip else ip ++ '.' :: fp

/-- The exact value of the decimal number with integer digits `ip` and fraction
digits `fp`. -/
def decimalValue (ip fp : Str) : ℚ := (digitsVal (ip ++ fp) : ℚ) / 10 ^ fp.length

/-! ## The timeout of the event loop (`src/net_snoop_server.cc`, `src/command_sender.h`) -/

/-- The constant `INT32_MAX`. -/
def INT32_MAX : Int := 2147483647

/-- The member `timeout_` after `CommandSender::SetTimeout(timeout)`; it is the value
that `CommandSender::GetTimeout` returns. -/
def CommandSender.SetTimeout (timeout : Int) : Int := if timeout > 0 then timeout else -1

/-- The locals `time_millseconds`, `timeout` and `timeout_ptr` of
`NetSnoopServer::Run`; `timeout_ptr` is `false` for the null pointer and `true` for
`&timeout`. -/
structure SelectTimeout where
  time_millseconds : Int
  tv_sec : Int
  tv_nsec : Int
  timeout_ptr : Bool
  deriving DecidableEq, Repr

namespace NetSnoopServer

/-- The body of the loop `for (auto &peer : context_->peers)` that prepares the
timeout, for a peer whose `GetTimeout()` returns `t` (the member function `GetTimeout`
of a peer is declared in a file that is not part of `src/`; the value it returns in
this iteration is the input).  The products are `int` products. -/
def timeoutStep (s : SelectTimeout) (t : Int) : SelectTimeout :=
  if t > 0 ∧ s.time_millseconds > t then
    { time_millseconds := t,
      tv_sec := Int.tdiv t 1000,
      tv_nsec := wrap32 (wrap32 (Int.tmod t 1000 * 1000) * 1000),
      timeout_ptr := true }
  else s

/-- The locals after the statements `timeout_ptr = NULL; time_millseconds = INT32_MAX;`
and the loop over the peers, whose `GetTimeout()` values are `timeouts` in the order of
`context_->peers`; `timeout` holds `tv_sec` and `tv_nsec` before. -/
def prepareTimeout (tv_sec tv_nsec : Int) (timeouts : List Int) : SelectTimeout :=
  timeouts.foldl timeoutStep
    { time_millseconds := INT32_MAX, tv_sec := tv_sec, tv_nsec := tv_nsec, timeout_ptr := false }

/-- The timeout argument of `pselect` in an iteration of `NetSnoopServer::Run`: `none`
for the null pointer (the call blocks until a descriptor is ready), otherwise the
members `tv_sec` and `tv_nsec` of the `timespec` pointed to. -/
def selectTimeout (tv_sec tv_nsec : Int) (timeouts : List Int) : Option (Int × Int) :=
  if (prepareTimeout tv_sec tv_nsec timeouts).timeout_ptr then
    some ((prepareTimeout tv_sec tv_nsec timeouts).tv_sec,
          (prepareTimeout tv_sec tv_nsec timeouts).tv_nsec)
  else none

/-- What the loop over the peers maintains, after the peers whose timeouts are `l`:
`time_millseconds` is at most every positive timeout seen, and the pointer is set
exactly when `time_millseconds` is one of them, below `INT32_MAX`, with `timeout`
split from it. -/
def TimeoutInv (l : List Int) (s : SelectTimeout) : Prop :=
  s.time_millseconds ≤ INT32_MAX ∧
  (∀ x ∈ l, 0 < x → s.time_millseconds ≤ x) ∧
  (s.timeout_ptr = true → s.time_millseconds ∈ l ∧ 0 < s.time_millseconds ∧
    s.time_millseconds < INT32_MAX ∧ s.tv_sec = s.time_millseconds / 1000 ∧
    s.tv_nsec = s.time_millseconds % 1000 * 1000000) ∧
  (s.timeout_ptr = false → s.time_millseconds = INT32_MAX)

/-- The bytes that `read(pipefd_[0], &cmd[0], cmd.length())` stores in the 64-byte
string `cmd` of `NetSnoopServer::Run`, that is the text `cmd` after
`cmd.resize(result)`. -/
def pipeText (s : ServerState) : Str := s.pipe.take 64

end NetSnoopServer

/-! ## Vocabulary of the statement on accumulating into a zero record -/

/-- The `min_*` members of a record, by name, in the order of `intFields`. -/
def NetStat.minima (s : NetStat) : List (String × Int) :=
  (s.intFields.filter (fun f => isMinName f.1)).map (fun f => (f.1, f.2.1))

/-- The `max_*` members of a record, by name, in the order of `intFields`. -/
def NetStat.maxima (s : NetStat) : List (String × Int) :=
  (s.intFields.filter (fun f => isMaxName f.1)).map (fun f => (f.1, f.2.1))

/-! # Theorems

## Inversion lemmas for the command constructors -/

theorem Except_bind_eq_ok {ε α β : Type} (x : Except ε α) (f : α → Except ε β) (b : β) :
    (x >>= f) = .ok b ↔ ∃ a, x = .ok a ∧ f a = .ok b := by
  cases x with
  | error e => simp [bind, Except.bind]
  | ok a => simp [bind, Except.bind]

/-- What `SendCommand::ResolveArgs` stores when it returns. -/
theorem SendCommand_ResolveArgs_ok (c c1 : SendCommand) (args : CommandArgs)
    (h : c.ResolveArgs args = .ok c1) :
    ∃ count interval size wait timeout speed time,
      intArg args "count" SEND_DEFAULT_COUNT = .ok count ∧
      intervalArg args SEND_DEFAULT_INTERVAL = .ok interval ∧
      intArg args "size" SEND_DEFAULT_SIZE = .ok size ∧
      waitArg args SEND_DEFAULT_WAIT = .ok wait ∧
      intArg args "timeout" SEND_DEFAULT_TIMEOUT = .ok timeout ∧
      intArg args "speed" SEND_DEFAULT_SPEED = .ok speed ∧
      intArg args "time" SEND_DEFAULT_TIME = .ok time ∧
      c1 = { c with
        token := tokenArg args c.token,
        is_multicast := !(args.get "multicast".toList).isEmpty,
        count_ := if 0 < speed ∧ 0 < time then countFromSpeed speed time size
          else if 0 < interval ∧ 0 < time then countFromInterval time interval else count,
        interval_ := if 0 < speed ∧ 0 < time then intervalFromSpeed speed size else interval,
        size_ := size, wait_ := wait, timeout_ := timeout } := by
  unfold SendCommand.ResolveArgs at h
  simp only [Except_bind_eq_ok] at h
  obtain ⟨count, h1, interval, h2, size, h3, wait, h4, timeout, h5, speed, h6, time, h7, h8⟩ := h
  refine ⟨count, interval, size, wait, timeout, speed, time, h1, h2, h3, h4, h5, h6, h7, ?_⟩
  simp only [pure, Except.pure, Except.ok.injEq] at h8
  exact h8.symm

/-- The token that `SendCommand::ResolveArgs` leaves in the command. -/
theorem SendCommand_ResolveArgs_token (c c1 : SendCommand) (args : CommandArgs)
    (h : c.ResolveArgs args = .ok c1) : c1.token = tokenArg args c.token := by
  obtain ⟨_, _, _, _, _, _, _, _, _, _, _, _, _, _, h8⟩ := SendCommand_ResolveArgs_ok c c1 args h
  rw [h8]

/-- The token that `EchoCommand::ResolveArgs` leaves in the command. -/
theorem EchoCommand_ResolveArgs_token (c c1 : EchoCommand) (args : CommandArgs)
    (h : c.ResolveArgs args = .ok c1) : c1.token = tokenArg args c.token := by
  unfold EchoCommand.ResolveArgs at h
  simp only [Except_bind_eq_ok] at h
  obtain ⟨count, h1, interval, h2, size, h3, wait, h4, timeout, h5, speed, h6, time, h7, h8⟩ := h
  simp only [pure, Except.pure, Except.ok.injEq] at h8
  rw [← h8]

/-- The token counter moves by one, modulo 256, exactly when a measurement command
is constructed. -/
theorem New_index (index : Nat) (cmd : Str) :
    (New index cmd).2 = if constructsMeasurement cmd then (index + 1) % 256 else index := by
  unfold New constructsMeasurement
  by_cases hlen : cmd.length ≤ MAX_CMD_LENGTH - MAX_TOKEN_LENGTH
  · simp only [hlen, not_true_eq_false, if_false, decide_True, Bool.true_and]
    rcases hfind : Container.find ((words cmd).headD []) with _ | ⟨cls, p⟩
    · simp
    · rcases hargs : parseArgs (words cmd).tail [] [] with _ | args
      · cases cls <;> simp
      · cases cls <;> simp [NewCommand, EchoCommand.new, SendCommand.new, UpdateToken]
  · simp [hlen]

theorem indexAfter_eq (lines : List Str) :
    ∀ index, index < 256 →
      indexAfter index lines = (index + (lines.filter constructsMeasurement).length) % 256 := by
  induction lines with
  | nil => intro index h; simp [indexAfter]; omega
  | cons l ls ih =>
    intro index h
    have hstep : indexAfter index (l :: ls) = indexAfter (New index l).2 ls := by
      simp [indexAfter]
    rw [hstep, New_index]
    by_cases hc : constructsMeasurement l = true
    · rw [if_pos hc, ih _ (Nat.mod_lt _ (by norm_num)), List.filter_cons_of_pos hc]
      simp only [List.length_cons]
      omega
    · rw [if_neg hc, ih _ h, List.filter_cons_of_neg hc]

/-- A measurement command made from a line without a `token` argument carries the
token drawn by its constructor. -/
theorem New_token_of_no_token_arg (index : Nat) (cmd : Str) (c : AnyCommand) (t : Char) (i : Nat)
    (h : New index cmd = (.ok (some c), i)) (ht : measurementToken c = some t)
    (hno : ∀ args, parseArgs (words cmd).tail [] [] = some args →
      args.get "token".toList = []) :
    t = (UpdateToken index).1 := by
  unfold New at h
  by_cases hlen : cmd.length ≤ MAX_CMD_LENGTH - MAX_TOKEN_LENGTH
  · rw [if_neg (not_not.mpr hlen)] at h
    rcases hfind : Container.find ((words cmd).headD []) with _ | ⟨cls, p⟩
    · rw [hfind] at h; simp at h
    · rcases hargs : parseArgs (words cmd).tail [] [] with _ | args
      · rw [hfind, hargs] at h; simp at h
      · have hget := hno args hargs
        rw [hfind, hargs] at h
        cases cls with
        | echo =>
          simp only [NewCommand, Prod.mk.injEq] at h
          rcases hr : (EchoCommand.new index cmd).1.ResolveArgs args with e | c1
          · simp [hr, Except.map] at h
          · have htok := EchoCommand_ResolveArgs_token _ _ _ hr
            simp only [hr, Except.map, Except.ok.injEq, Option.some.injEq] at h
            rw [← h.1] at ht
            simp only [measurementToken, Option.some.injEq] at ht
            rw [← ht, htok, tokenArg, hget]
            simp [EchoCommand.new]
        | send =>
          simp only [NewCommand, Prod.mk.injEq] at h
          rcases hr : (SendCommand.new index cmd).1.ResolveArgs args with e | c1
          · simp [hr, Except.map] at h
          · have htok := SendCommand_ResolveArgs_token _ _ _ hr
            simp only [hr, Except.map, Except.ok.injEq, Option.some.injEq] at h
            rw [← h.1] at ht
            simp only [measurementToken, Option.some.injEq] at ht
            rw [← ht, htok, tokenArg, hget]
            simp [SendCommand.new]
        | ack =>
          simp only [NewCommand, Prod.mk.injEq, Except.ok.injEq, Option.some.injEq] at h
          rw [← h.1] at ht; simp [measurementToken] at ht
        | stop =>
          simp only [NewCommand, Prod.mk.injEq, Except.ok.injEq, Option.some.injEq] at h
          rw [← h.1] at ht; simp [measurementToken] at ht
        | result =>
          simp only [NewCommand, Prod.mk.injEq, Except.ok.injEq, Option.some.injEq] at h
          rw [← h.1] at ht; simp [measurementToken] at ht
        | mode =>
          simp only [NewCommand, Prod.mk.injEq, Except.ok.injEq] at h
          split at h
          · simp only [Option.some.injEq] at h
            rw [← h.1] at ht; simp [measurementToken] at ht
          · simp at h
  · rw [if_pos hlen] at h; simp at h

/-! ## C1: the wire form of a command is not always parsed back to the same command -/

set_option maxRecDepth 1000000 in
/-- C1 at failing inputs.  A coordinator whose counter is at 1 accepts
`send count 5 multicast` as a Send command with token `b` and `is_multicast` false;
its wire form is `send count 5 multicast token b`; an agent whose counter is at 0
parses that line to a Send command with token `a` and `is_multicast` true.
The line `ping count 1 tokens 1` gets token `b` from the same coordinator, its wire
form is the line itself (it contains the text ` token`), and the agent gives it token
`a`.  The 1010-byte line `ping` followed by 1006 blanks is accepted, its wire form
has 1018 bytes, and `New` returns NULL for it. -/
theorem C1_wire_form_reparsed_differently :
    (sendOf (New 1 "send count 5 multicast".toList)).map
        (fun c => (c.GetCmd, c.token, c.is_multicast))
      = some ("send count 5 multicast token b".toList, 'b', false) ∧
    (sendOf (New 0 "send count 5 multicast token b".toList)).map
        (fun c => (c.token, c.is_multicast))
      = some ('a', true) ∧
    (echoOf (New 1 "ping count 1 tokens 1".toList)).map (fun c => (c.GetCmd, c.token))
      = some ("ping count 1 tokens 1".toList, 'b') ∧
    (echoOf (New 0 "ping count 1 tokens 1".toList)).map (fun c => c.token) = some 'a' ∧
    (echoOf (New 0 ("ping".toList ++ List.replicate 1006 ' '))).map
        (fun c => (c.GetCmd.length, (New 0 c.GetCmd).1)) = some (1018, .ok none) := by
  decide

/-! ## C2: a serialised `NetStat` is parsed back

### Words of a line built from words -/

theorem splitWords_word (w : Str) :
    ∀ (cur rest : Str) (sp : Char), (∀ c ∈ w, isspace c = false) → isspace sp = true →
      (cur ≠ [] ∨ w ≠ []) →
      splitWords (w ++ sp :: rest) cur = (cur.reverse ++ w) :: splitWords rest [] := by
  induction w with
  | nil =>
    intro cur rest sp _ hsp hne
    have hcur : cur ≠ [] := by
      rcases hne with h | h
      · exact h
      · exact absurd rfl h
    cases cur with
    | nil => exact absurd rfl hcur
    | cons a cur => simp [splitWords, hsp]
  | cons c w ih =>
    intro cur rest sp hw hsp _
    have hc : isspace c = false := hw c (by simp)
    have := ih (c :: cur) rest sp (fun d hd => hw d (by simp [hd])) hsp (Or.inl (by simp))
    simp only [List.cons_append, splitWords, hc]
    simpa using this

theorem words_word (w rest : Str) (sp : Char) (hw : ∀ c ∈ w, isspace c = false)
    (hne : w ≠ []) (hsp : isspace sp = true) :
    words (w ++ sp :: rest) = w :: words rest := by
  have := splitWords_word w [] rest sp hw hsp (Or.inr hne)
  simpa [words] using this

theorem words_pairsText (fs : List (Str × Str))
    (h : ∀ kv ∈ fs, IsWord kv.1 ∧ IsWord kv.2) :
    words (pairsText fs) = (fs.map (fun kv => [kv.1, kv.2])).flatten := by
  induction fs with
  | nil => simp [pairsText, words, splitWords]
  | cons kv fs ih =>
    have hkv := h kv (by simp)
    have hsp : isspace (Char.ofNat 32) = true := by decide
    have ih1 := ih (fun x hx => h x (by simp [hx]))
    have e : pairsText (kv :: fs)
        = kv.1 ++ Char.ofNat 32 :: (kv.2 ++ Char.ofNat 32 :: pairsText fs) := by
      simp [pairsText]
    rw [e, words_word _ _ _ hkv.1.2 hkv.1.1 hsp, words_word _ _ _ hkv.2.2 hkv.2.1 hsp, ih1]
    simp

/-! ### The argument loop on a list of pairs with distinct keys -/

theorem find_eq_none_of_not_mem (args : CommandArgs) (key : Str)
    (h : key ∉ args.map Prod.fst) : CommandArgs.find args key = none := by
  induction args with
  | nil => simp [CommandArgs.find]
  | cons kv args ih =>
    obtain ⟨k, v⟩ := kv
    simp only [List.map_cons, List.mem_cons, not_or] at h
    simp only [CommandArgs.find]
    rw [if_neg (fun e => h.1 e.symm)]
    exact ih h.2

theorem set_of_not_mem (args : CommandArgs) (key value : Str)
    (h : key ∉ args.map Prod.fst) : CommandArgs.set args key value = args ++ [(key, value)] := by
  induction args with
  | nil => simp [CommandArgs.set]
  | cons kv args ih =>
    obtain ⟨k, v⟩ := kv
    simp only [List.map_cons, List.mem_cons, not_or] at h
    simp only [CommandArgs.set]
    rw [if_neg (fun e => h.1 e.symm), ih h.2]
    simp

theorem parseArgs_pairs (fs : List (Str × Str)) :
    ∀ (acc : CommandArgs) (value : Str), ((acc ++ fs).map Prod.fst).Nodup →
      parseArgs (fs.map (fun kv => [kv.1, kv.2])).flatten acc value = some (acc ++ fs) := by
  induction fs with
  | nil => intro acc value _; simp [parseArgs]
  | cons kv fs ih =>
    intro acc value hnd
    obtain ⟨k, v⟩ := kv
    have hk : k ∉ acc.map Prod.fst := by
      simp only [List.map_append, List.map_cons] at hnd
      have := (List.nodup_append.mp hnd).2.2
      intro hmem
      exact this hmem (by simp)
    have hnd1 : (((acc ++ [(k, v)]) ++ fs).map Prod.fst).Nodup := by
      simpa using hnd
    have := ih (acc ++ [(k, v)]) v hnd1
    have e : (((k, v) :: fs).map (fun kv : Str × Str => [kv.1, kv.2])).flatten
        = k :: v :: (fs.map (fun kv : Str × Str => [kv.1, kv.2])).flatten := by simp
    rw [e]
    simp only [parseArgs, find_eq_none_of_not_mem acc k hk, Option.isSome_none,
      Bool.false_eq_true, if_false, set_of_not_mem acc k v hk]
    rw [this]
    simp

theorem get_of_mem (args : CommandArgs) (key value : Str) (hnd : (args.map Prod.fst).Nodup)
    (h : (key, value) ∈ args) : CommandArgs.get args key = value := by
  induction args with
  | nil => simp at h
  | cons kv args ih =>
    obtain ⟨k, v⟩ := kv
    simp only [List.map_cons, List.nodup_cons] at hnd
    simp only [List.mem_cons, Prod.mk.injEq] at h
    rcases h with ⟨rfl, rfl⟩ | h
    · simp [CommandArgs.get, CommandArgs.find]
    · have hne : k ≠ key := by
        rintro rfl
        exact hnd.1 (List.mem_map_of_mem Prod.fst h)
      have := ih hnd.2 h
      simp only [CommandArgs.get, CommandArgs.find, if_neg hne] at this ⊢
      exact this

theorem get_of_not_mem (args : CommandArgs) (key : Str) (h : key ∉ args.map Prod.fst) :
    CommandArgs.get args key = [] := by
  simp [CommandArgs.get, find_eq_none_of_not_mem args key h]

/-! ### Decimal text of an integer -/

theorem digitChar_toNat (d : Nat) (h : d < 10) : (Char.ofNat (48 + d)).toNat = 48 + d := by
  interval_cases d <;> rfl

theorem digitChar_isdigit (d : Nat) (h : d < 10) : isdigit (Char.ofNat (48 + d)) = true := by
  simp [isdigit, digitChar_toNat d h]
  omega

theorem digitsVal_append (xs : Str) (c : Char) :
    digitsVal (xs ++ [c]) = digitsVal xs * 10 + digitVal c := by
  simp [digitsVal, List.foldl_append]

theorem showNatFuel_val (fuel : Nat) :
    ∀ n, n < fuel → digitsVal (showNatFuel fuel n) = n := by
  induction fuel with
  | zero => intro n h; omega
  | succ fuel ih =>
    intro n h
    by_cases hn : n < 10
    · simp [showNatFuel, hn, digitsVal, digitVal, digitChar_toNat n hn]
    · simp only [showNatFuel, if_neg hn]
      rw [digitsVal_append, ih (n / 10) (by omega)]
      simp only [digitVal, digitChar_toNat (n % 10) (Nat.mod_lt _ (by norm_num))]
      omega

theorem showNatFuel_digits (fuel : Nat) :
    ∀ n, ∀ c ∈ showNatFuel fuel n, isdigit c = true := by
  induction fuel with
  | zero => intro n c h; simp [showNatFuel] at h
  | succ fuel ih =>
    intro n c h
    by_cases hn : n < 10
    · simp only [showNatFuel, if_pos hn, List.mem_singleton] at h
      rw [h]; exact digitChar_isdigit n hn
    · simp only [showNatFuel, if_neg hn, List.mem_append, List.mem_singleton] at h
      rcases h with h | h
      · exact ih _ c h
      · rw [h]; exact digitChar_isdigit _ (Nat.mod_lt _ (by norm_num))

theorem showNatFuel_ne_nil (fuel n : Nat) : showNatFuel (fuel + 1) n ≠ [] := by
  by_cases hn : n < 10 <;> simp [showNatFuel, hn]

theorem showNatFuel_length (fuel : Nat) :
    ∀ n k, n < 10 ^ (k + 1) → (showNatFuel fuel n).length ≤ k + 1 := by
  induction fuel with
  | zero => intro n k _; simp [showNatFuel]
  | succ fuel ih =>
    intro n k h
    by_cases hn : n < 10
    · simp [showNatFuel, hn]
    · simp only [showNatFuel, if_neg hn, List.length_append, List.length_singleton]
      cases k with
      | zero => simp at h; omega
      | succ k =>
        have : n / 10 < 10 ^ (k + 1) := by
          rw [Nat.div_lt_iff_lt_mul (by norm_num)]
          calc n < 10 ^ (k + 1 + 1) := h
            _ = 10 ^ (k + 1) * 10 := by ring
        have := ih (n / 10) k this
        omega

theorem showNat_val (n : Nat) : digitsVal (showNat n) = n :=
  showNatFuel_val (n + 1) n (by omega)

theorem showNat_digits (n : Nat) : ∀ c ∈ showNat n, isdigit c = true :=
  showNatFuel_digits (n + 1) n

theorem showNat_ne_nil (n : Nat) : showNat n ≠ [] := showNatFuel_ne_nil n n

theorem isdigit_not_space (c : Char) (h : isdigit c = true) : isspace c = false := by
  simp only [isdigit, Bool.and_eq_true, decide_eq_true_eq] at h
  simp only [isspace, Bool.or_eq_false_iff, beq_eq_false_iff_ne, ne_eq, Bool.and_eq_false_iff,
    decide_eq_false_iff_not]
  omega

theorem showInt_isWord (v : Int) : IsWord (showInt v) := by
  unfold showInt IsWord
  split
  · refine ⟨by simp, ?_⟩
    intro c hc
    simp only [List.mem_cons] at hc
    rcases hc with rfl | hc
    · decide
    · exact isdigit_not_space c (showNat_digits _ c hc)
  · exact ⟨showNat_ne_nil _, fun c hc => isdigit_not_space c (showNat_digits _ c hc)⟩

theorem takeWhile_showNat (n : Nat) : (showNat n).takeWhile isdigit = showNat n := by
  rw [List.takeWhile_eq_self_iff]
  exact showNat_digits n

theorem strtolValue_showInt (v : Int) : strtolValue (showInt v) = some v := by
  unfold showInt
  by_cases hv : v < 0
  · rw [if_pos hv]
    have h1 : ('-' :: showNat v.natAbs).dropWhile isspace = '-' :: showNat v.natAbs := by
      rw [List.dropWhile_cons_of_neg (by decide)]
    simp only [strtolValue, h1, List.head?_cons, List.tail_cons, beq_self_eq_true, Bool.true_or,
      if_true, takeWhile_showNat, showNat_val]
    have : (showNat v.natAbs).isEmpty = false := by
      cases h : showNat v.natAbs with
      | nil => exact absurd h (showNat_ne_nil _)
      | cons a l => rfl
    simp only [this, Bool.false_eq_true, if_false, Option.some.injEq]
    omega
  · rw [if_neg hv]
    cases h : showNat v.natAbs with
    | nil => exact absurd h (showNat_ne_nil _)
    | cons a l =>
      have hda : isdigit a = true := showNat_digits v.natAbs a (by simp [h])
      have hsp : isspace a = false := isdigit_not_space a hda
      have hminus : (a == '-') = false := by
        rw [beq_eq_false_iff_ne]; rintro rfl; revert hda; decide
      have hplus : (a == '+') = false := by
        rw [beq_eq_false_iff_ne]; rintro rfl; revert hda; decide
      have h1 : (a :: l).dropWhile isspace = a :: l := by
        rw [List.dropWhile_cons_of_neg (by simp [hsp])]
      have h2 : (a :: l).takeWhile isdigit = a :: l := by
        rw [← h]; exact takeWhile_showNat _
      have h3 : digitsVal (a :: l) = v.natAbs := by rw [← h]; exact showNat_val _
      simp only [strtolValue, h1, List.head?_cons, Option.some_beq_some, hminus, hplus,
        Bool.or_self, Bool.false_eq_true, if_false, h2, List.isEmpty_cons, h3, Option.some.injEq]
      omega

theorem atoll_showInt (v : Int) (h : LLONG_MIN ≤ v ∧ v ≤ LLONG_MAX) : atoll (showInt v) = v := by
  simp only [atoll, strtolValue_showInt]
  omega

theorem atoi_showInt (v : Int) (h : INT_MIN ≤ v ∧ v ≤ INT_MAX) : atoi (showInt v) = v := by
  simp only [INT_MIN, INT_MAX] at h
  simp only [atoi, atoll, strtolValue_showInt, LLONG_MIN, LLONG_MAX, wrap32]
  omega

theorem atoll_nil : atoll [] = 0 := by decide

theorem atoi_nil : atoi [] = 0 := by decide

theorem showInt_length_ll (v : Int) (h : LLONG_MIN ≤ v ∧ v ≤ LLONG_MAX) :
    (showInt v).length ≤ 20 := by
  simp only [LLONG_MIN, LLONG_MAX] at h
  have hn : v.natAbs < 10 ^ (18 + 1) := by norm_num; omega
  have := showNatFuel_length (v.natAbs + 1) v.natAbs 18 hn
  unfold showInt showNat
  split <;> simp <;> omega

theorem showInt_length_int (v : Int) (h : INT_MIN ≤ v ∧ v ≤ INT_MAX) :
    (showInt v).length ≤ 11 := by
  simp only [INT_MIN, INT_MAX] at h
  have hn : v.natAbs < 10 ^ (9 + 1) := by norm_num; omega
  have := showNatFuel_length (v.natAbs + 1) v.natAbs 9 hn
  unfold showInt showNat
  split <;> simp <;> omega

/-! ### The line written by `Serialize` and its arguments -/

theorem flatten_map_if {α : Type} (l : List α) (p : α → Bool) (g : α → Str) :
    (l.map (fun x => if p x = true then g x else [])).flatten = ((l.filter p).map g).flatten := by
  induction l with
  | nil => simp
  | cons x l ih =>
    by_cases h : p x = true
    · simp [h, ih]
    · simp [h, ih]

theorem ToString_eq_pairsText (fmt : Double → Str) (istty : Bool) (s : NetStat) :
    s.ToString fmt istty = pairsText (s.written fmt istty) := by
  have h := flatten_map_if (s.textFields fmt) (fun f => !istty || f.2.2)
    (fun f => f.1 ++ [Char.ofNat 32] ++ f.2.1 ++ [Char.ofNat 32])
  simp only [pairsText, NetStat.written, List.map_map]
  rw [show ((fun kv : Str × Str => kv.1 ++ [Char.ofNat 32] ++ kv.2 ++ [Char.ofNat 32]) ∘
      fun f : Str × Str × Bool => (f.1, f.2.1))
      = fun f => f.1 ++ [Char.ofNat 32] ++ f.2.1 ++ [Char.ofNat 32] from rfl, ← h]
  simp [NetStat.ToString, NetStat.textFields, writeField, List.map_map, Function.comp_def]

theorem textFields_keys (fmt : Double → Str) (s : NetStat) :
    (s.textFields fmt).map (fun f => f.1) =
      ["loss", "send_speed", "recv_speed", "send_avg_speed", "recv_avg_speed",
       "max_send_speed", "max_recv_speed", "min_send_speed", "min_recv_speed",
       "send_packets", "recv_packets", "illegal_packets", "reorder_packets",
       "duplicate_packets", "timeout_packets", "send_pps", "recv_pps", "send_bytes",
       "recv_bytes", "send_time", "recv_time", "max_send_time", "max_recv_time",
       "min_send_time", "min_recv_time", "delay", "min_delay", "max_delay", "jitter",
       "jitter_std", "peers_count", "peers_failed"].map String.toList := by
  simp [NetStat.textFields, NetStat.intFields]

theorem textFields_keys_nodup (fmt : Double → Str) (s : NetStat) :
    ((s.textFields fmt).map (fun f => f.1)).Nodup := by
  rw [textFields_keys]
  decide

theorem textFields_keys_words (fmt : Double → Str) (s : NetStat) :
    ∀ f ∈ s.textFields fmt, IsWord f.1 := by
  intro f hf
  have hmem : f.1 ∈ (s.textFields fmt).map (fun f => f.1) := List.mem_map_of_mem _ hf
  rw [textFields_keys] at hmem
  revert hmem
  generalize f.1 = k
  unfold IsWord
  revert k
  decide

theorem written_keys_nodup (fmt : Double → Str) (istty : Bool) (s : NetStat) :
    ((s.written fmt istty).map Prod.fst).Nodup := by
  have h := textFields_keys_nodup fmt s
  have hsub : ((s.written fmt istty).map Prod.fst).Sublist ((s.textFields fmt).map (fun f => f.1)) := by
    simp only [NetStat.written, List.map_map]
    exact (List.filter_sublist _).map _
  exact h.sublist hsub

theorem written_words (fmt : Double → Str) (istty : Bool) (s : NetStat)
    (hfmt : ∀ d, DoubleText (fmt d)) :
    ∀ kv ∈ s.written fmt istty, IsWord kv.1 ∧ IsWord kv.2 := by
  intro kv hkv
  simp only [NetStat.written, List.mem_map, List.mem_filter] at hkv
  obtain ⟨f, ⟨hf, _⟩, rfl⟩ := hkv
  refine ⟨textFields_keys_words fmt s f hf, ?_⟩
  simp only [NetStat.textFields, List.mem_cons, List.mem_map] at hf
  rcases hf with rfl | ⟨g, _, rfl⟩
  · exact (hfmt _).1
  · exact showInt_isWord _

/-- The value that `FromCommandArgs` finds for a member: its text when the member
was written, the empty string otherwise. -/
theorem written_get (fmt : Double → Str) (istty : Bool) (s : NetStat)
    (f : Str × Str × Bool) (hf : f ∈ s.textFields fmt) :
    CommandArgs.get (s.written fmt istty) f.1 = if (!istty || f.2.2) = true then f.2.1 else [] := by
  by_cases hw : (!istty || f.2.2) = true
  · rw [if_pos hw]
    apply get_of_mem _ _ _ (written_keys_nodup fmt istty s)
    simp only [NetStat.written, List.mem_map, List.mem_filter]
    exact ⟨f, ⟨hf, hw⟩, rfl⟩
  · rw [if_neg hw]
    apply get_of_not_mem
    intro hmem
    simp only [NetStat.written, List.map_map, List.mem_map, List.mem_filter,
      Function.comp_apply] at hmem
    obtain ⟨g, ⟨hg, hgw⟩, hkey⟩ := hmem
    have := List.inj_on_of_nodup_map (textFields_keys_nodup fmt s) hg hf hkey
    rw [this] at hgw
    exact hw hgw

theorem written_get_int (fmt : Double → Str) (istty : Bool) (s : NetStat) (hs : s.InRange)
    (name : String) (v : Int) (ll : Bool) (hf : (name, v, ll) ∈ s.intFields) :
    (ll = true → atoll (CommandArgs.get (s.written fmt istty) name.toList) = v) ∧
    (ll = false → atoi (CommandArgs.get (s.written fmt istty) name.toList) = v) := by
  have hmem : (name.toList, showInt v, v != 0) ∈ s.textFields fmt := by
    simp only [NetStat.textFields, List.mem_cons, List.mem_map]
    exact Or.inr ⟨(name, v, ll), hf, rfl⟩
  have hget := written_get fmt istty s _ hmem
  have hr := hs _ hf
  simp only at hget hr
  by_cases hw : (!istty || v != 0) = true
  · rw [if_pos hw] at hget
    rw [hget]
    constructor
    · intro hl; rw [if_pos hl] at hr; exact atoll_showInt v hr
    · intro hl; rw [if_neg (by simp [hl])] at hr; exact atoi_showInt v hr
  · rw [if_neg hw] at hget
    rw [hget]
    have hv : v = 0 := by
      simp only [Bool.or_eq_true, Bool.not_eq_true', bne_iff_ne, ne_eq, not_or,
        Bool.not_eq_false, Decidable.not_not] at hw
      exact hw.2
    subst hv
    exact ⟨fun _ => atoll_nil, fun _ => atoi_nil⟩

theorem length_flatten_filter_le {α : Type} (l : List α) (p : α → Bool) (g : α → Str) :
    ((l.filter p).map g).flatten.length ≤ (l.map (fun x => (g x).length)).sum := by
  induction l with
  | nil => simp
  | cons x l ih =>
    by_cases h : p x = true
    · simp only [List.filter_cons_of_pos h, List.map_cons, List.flatten_cons, List.length_append,
        List.sum_cons]
      omega
    · simp only [List.filter_cons_of_neg h, List.map_cons, List.sum_cons]
      omega

theorem intFields_bound_sum (s : NetStat) :
    (s.intFields.map (fun f => f.1.length + 2 + (if f.2.2 = true then 20 else 11))).sum = 932 := by
  simp only [NetStat.intFields, List.map_cons, List.map_nil, if_true, Bool.false_eq_true, if_false,
    List.sum_cons, List.sum_nil]
  decide

theorem written_length (fmt : Double → Str) (istty : Bool) (s : NetStat) (hs : s.InRange)
    (hfmt : ∀ d, DoubleText (fmt d)) : (pairsText (s.written fmt istty)).length ≤ 962 := by
  have h1 := length_flatten_filter_le (s.textFields fmt) (fun f => !istty || f.2.2)
    (fun f => f.1 ++ [Char.ofNat 32] ++ f.2.1 ++ [Char.ofNat 32])
  have h2 : pairsText (s.written fmt istty) =
      (((s.textFields fmt).filter (fun f => !istty || f.2.2)).map
        (fun f => f.1 ++ [Char.ofNat 32] ++ f.2.1 ++ [Char.ofNat 32])).flatten := by
    simp [pairsText, NetStat.written, List.map_map, Function.comp_def]
  rw [h2]
  refine le_trans h1 ?_
  have h3 : (s.intFields.map (fun f => (f.1.toList ++ [Char.ofNat 32] ++ showInt f.2.1 ++
      [Char.ofNat 32]).length)).sum ≤
      (s.intFields.map (fun f => f.1.length + 2 + (if f.2.2 = true then 20 else 11))).sum := by
    apply List.sum_le_sum
    intro f hf
    have hr := hs f hf
    have hname : f.1.toList.length = f.1.length := rfl
    simp only [List.length_append, List.length_singleton, hname]
    by_cases hl : f.2.2 = true
    · rw [if_pos hl] at hr ⊢
      have := showInt_length_ll _ hr
      omega
    · rw [if_neg hl] at hr ⊢
      have := showInt_length_int _ hr
      omega
  rw [intFields_bound_sum] at h3
  have h4 := (hfmt s.loss).2
  simp only [NetStat.textFields, List.map_cons, List.sum_cons, List.map_map, Function.comp_def,
    List.length_append, List.length_singleton] at h3 ⊢
  have h5 : "loss".toList.length = 4 := by decide
  omega

/-- C2: for every `NetStat` whose members are within the ranges of their C++ types,
and whatever text the stream writes for `loss` (one word), the line
`ResultCommand::Serialize(s)` is accepted by `CommandFactory::New` as a Result
command whose `netstat` equals `s` in every member except `loss`; this holds when
`ToString` writes every member (`istty` false) and when it omits the zero members
(`istty` true). -/
theorem C2_result_round_trip (fmt : Double → Str) (istty : Bool) (s : NetStat) (index : Nat)
    (hs : s.InRange) (hfmt : ∀ d, DoubleText (fmt d)) :
    ∃ c l, resultOf (New index (ResultCommand.Serialize fmt istty s)) = some c ∧
      c.netstat = some { s with loss := l } := by
  have hline : ResultCommand.Serialize fmt istty s
      = "result".toList ++ Char.ofNat 32 :: pairsText (s.written fmt istty) := by
    simp [ResultCommand.Serialize, ToString_eq_pairsText]
  have hwords : words (ResultCommand.Serialize fmt istty s)
      = "result".toList :: ((s.written fmt istty).map (fun kv => [kv.1, kv.2])).flatten := by
    rw [hline, words_word _ _ _ (by decide) (by decide) (by decide),
      words_pairsText _ (written_words fmt istty s hfmt)]
  have hlen : (ResultCommand.Serialize fmt istty s).length ≤ MAX_CMD_LENGTH - MAX_TOKEN_LENGTH := by
    have := written_length fmt istty s hs hfmt
    have h6 : "result".toList.length = 6 := by decide
    rw [hline]
    simp only [List.length_append, List.length_cons, h6, MAX_CMD_LENGTH, MAX_TOKEN_LENGTH]
    omega
  have hargs : parseArgs (words (ResultCommand.Serialize fmt istty s)).tail [] []
      = some (s.written fmt istty) := by
    rw [hwords, List.tail_cons]
    have := parseArgs_pairs (s.written fmt istty) [] []
      (by simpa using written_keys_nodup fmt istty s)
    simpa using this
  have hfind : Container.find ((words (ResultCommand.Serialize fmt istty s)).headD [])
      = some (.result, true) := by
    rw [hwords]
    show Container.find "result".toList = some (.result, true)
    decide
  have hnew : New index (ResultCommand.Serialize fmt istty s)
      = (.ok (some (.result (ResultCommand.ResolveArgs
          { toCommand := { Command.mk0 "result".toList (ResultCommand.Serialize fmt istty s)
                             with is_private := true },
            netstat := none } (s.written fmt istty)))), index) := by
    unfold New
    rw [if_neg (not_not.mpr hlen), hfind]
    simp only [hargs, NewCommand]
  refine ⟨ResultCommand.ResolveArgs
      { toCommand := { Command.mk0 "result".toList (ResultCommand.Serialize fmt istty s)
                         with is_private := true },
        netstat := none } (s.written fmt istty),
    atof (CommandArgs.get (s.written fmt istty) "loss".toList), ?_, ?_⟩
  · rw [hnew]; rfl
  · have hg := written_get_int fmt istty s hs
    simp only [ResultCommand.ResolveArgs, Option.some.injEq, NetStat.FromCommandArgs,
      NetStat.mk.injEq]
    refine ⟨?_, ?_, ?_, ?_, ?_, ?_, ?_, ?_, ?_, ?_, ?_, ?_, ?_, ?_, ?_, ?_, ?_, ?_, ?_, ?_, ?_,
      ?_, ?_, ?_, ?_, ?_, ?_, ?_, ?_, ?_, ?_, ?_⟩
    · exact (hg "delay" s.delay false (by simp [NetStat.intFields])).2 rfl
    · exact (hg "max_delay" s.max_delay false (by simp [NetStat.intFields])).2 rfl
    · exact (hg "min_delay" s.min_delay false (by simp [NetStat.intFields])).2 rfl
    · exact (hg "jitter" s.jitter false (by simp [NetStat.intFields])).2 rfl
    · exact (hg "jitter_std" s.jitter_std true (by simp [NetStat.intFields])).1 rfl
    · trivial
    · exact (hg "send_packets" s.send_packets true (by simp [NetStat.intFields])).1 rfl
    · exact (hg "recv_packets" s.recv_packets true (by simp [NetStat.intFields])).1 rfl
    · exact (hg "illegal_packets" s.illegal_packets true (by simp [NetStat.intFields])).1 rfl
    · exact (hg "reorder_packets" s.reorder_packets true (by simp [NetStat.intFields])).1 rfl
    · exact (hg "duplicate_packets" s.duplicate_packets true (by simp [NetStat.intFields])).1 rfl
    · exact (hg "timeout_packets" s.timeout_packets true (by simp [NetStat.intFields])).1 rfl
    · exact (hg "send_bytes" s.send_bytes true (by simp [NetStat.intFields])).1 rfl
    · exact (hg "recv_bytes" s.recv_bytes true (by simp [NetStat.intFields])).1 rfl
    · exact (hg "send_time" s.send_time false (by simp [NetStat.intFields])).2 rfl
    · exact (hg "recv_time" s.recv_time false (by simp [NetStat.intFields])).2 rfl
    · exact (hg "send_speed" s.send_speed true (by simp [NetStat.intFields])).1 rfl
    · exact (hg "min_send_speed" s.min_send_speed true (by simp [NetStat.intFields])).1 rfl
    · exact (hg "max_send_speed" s.max_send_speed true (by simp [NetStat.intFields])).1 rfl
    · exact (hg "recv_speed" s.recv_speed true (by simp [NetStat.intFields])).1 rfl
    · exact (hg "min_recv_speed" s.min_recv_speed true (by simp [NetStat.intFields])).1 rfl
    · exact (hg "max_recv_speed" s.max_recv_speed true (by simp [NetStat.intFields])).1 rfl
    · exact (hg "send_pps" s.send_pps true (by simp [NetStat.intFields])).1 rfl
    · exact (hg "recv_pps" s.recv_pps true (by simp [NetStat.intFields])).1 rfl
    · exact (hg "recv_avg_speed" s.recv_avg_speed true (by simp [NetStat.intFields])).1 rfl
    · exact (hg "send_avg_speed" s.send_avg_speed true (by simp [NetStat.intFields])).1 rfl
    · exact (hg "max_send_time" s.max_send_time false (by simp [NetStat.intFields])).2 rfl
    · exact (hg "min_send_time" s.min_send_time false (by simp [NetStat.intFields])).2 rfl
    · exact (hg "max_recv_time" s.max_recv_time false (by simp [NetStat.intFields])).2 rfl
    · exact (hg "min_recv_time" s.min_recv_time false (by simp [NetStat.intFields])).2 rfl
    · exact (hg "peers_count" s.peers_count false (by simp [NetStat.intFields])).2 rfl
    · exact (hg "peers_failed" s.peers_failed false (by simp [NetStat.intFields])).2 rfl

/-- Witness for C2: a record with a loss of one half, a negative delay and two
counters, written with the zero members omitted. -/
theorem C2_result_round_trip_witness :
    NetStat.InRange { NetStat.zero with loss := .fin 1 (-1), delay := -7, recv_packets := 3,
                                        send_bytes := 4416 } ∧
    (∀ d : Double, DoubleText (if d.isNonZero then "0.5".toList else "0".toList)) ∧
    ∃ c l, resultOf (New 0 (ResultCommand.Serialize
        (fun d => if d.isNonZero then "0.5".toList else "0".toList) true
        { NetStat.zero with loss := .fin 1 (-1), delay := -7, recv_packets := 3,
                            send_bytes := 4416 })) = some c ∧
      c.netstat = some { ({ NetStat.zero with loss := .fin 1 (-1), delay := -7,
                                               recv_packets := 3, send_bytes := 4416 } : NetStat)
                         with loss := l } :=
  ⟨by unfold NetStat.InRange; decide,
   by intro d; unfold DoubleText IsWord; split <;> decide,
   C2_result_round_trip (fun d => if d.isNonZero then "0.5".toList else "0".toList) true
     { NetStat.zero with loss := .fin 1 (-1), delay := -7, recv_packets := 3, send_bytes := 4416 } 0
     (by unfold NetStat.InRange; decide)
     (by intro d; unfold DoubleText IsWord; dsimp only; split <;> decide)⟩

/-! ## Rounding to `double`: error bounds -/

theorem roundHalfEven_err (a b : Nat) (hb : 0 < b) :
    |((roundHalfEven a b : Nat) : ℚ) - (a : ℚ) / b| ≤ 1 / 2 := by
  have hbq : (0 : ℚ) < b := by exact_mod_cast hb
  have hdm : (a : ℚ) = (b : ℚ) * ((a / b : Nat) : ℚ) + ((a % b : Nat) : ℚ) := by
    exact_mod_cast (Nat.div_add_mod a b).symm
  have hr : (a : ℚ) / b = ((a / b : Nat) : ℚ) + ((a % b : Nat) : ℚ) / b := by
    field_simp
    linarith [hdm]
  have hrlt : ((a % b : Nat) : ℚ) < b := by exact_mod_cast Nat.mod_lt a hb
  have hr0 : (0 : ℚ) ≤ ((a % b : Nat) : ℚ) := by positivity
  rw [hr, abs_le]
  unfold roundHalfEven
  by_cases h1 : 2 * (a % b) < b
  · rw [if_pos h1]
    have h1q : (2 : ℚ) * ((a % b : Nat) : ℚ) < b := by exact_mod_cast h1
    have : ((a % b : Nat) : ℚ) / b < 1 / 2 := by
      rw [div_lt_div_iff₀ hbq (by norm_num)]; linarith
    have : 0 ≤ ((a % b : Nat) : ℚ) / b := by positivity
    constructor <;> linarith
  · rw [if_neg h1]
    by_cases h2 : b < 2 * (a % b)
    · rw [if_pos h2]
      have h2q : (b : ℚ) < 2 * ((a % b : Nat) : ℚ) := by exact_mod_cast h2
      have : 1 / 2 < ((a % b : Nat) : ℚ) / b := by
        rw [div_lt_div_iff₀ (by norm_num) hbq]; linarith
      have : ((a % b : Nat) : ℚ) / b < 1 := by
        rw [div_lt_one hbq]; exact hrlt
      push_cast
      constructor <;> linarith
    · rw [if_neg h2]
      have heq : 2 * (a % b) = b := by omega
      have heqq : (2 : ℚ) * ((a % b : Nat) : ℚ) = b := by exact_mod_cast heq
      have : ((a % b : Nat) : ℚ) / b = 1 / 2 := by
        rw [div_eq_div_iff (ne_of_gt hbq) (by norm_num)]; linarith
      split
      · constructor <;> linarith
      · push_cast
        constructor <;> linarith

theorem roundHalfEven_exact (a b : Nat) (hb : 0 < b) (h : b ∣ a) :
    roundHalfEven a b = a / b := by
  have : a % b = 0 := Nat.mod_eq_zero_of_dvd h
  simp [roundHalfEven, this, hb]

theorem log2Fuel_spec (fuel : Nat) :
    ∀ n, n ≤ fuel → 1 ≤ n → 2 ^ log2Fuel fuel n ≤ n ∧ n < 2 ^ (log2Fuel fuel n + 1) := by
  induction fuel with
  | zero => intro n h1 h2; omega
  | succ fuel ih =>
    intro n h1 h2
    by_cases hn : n < 2
    · simp only [log2Fuel, if_pos hn]
      constructor <;> simp <;> omega
    · simp only [log2Fuel, if_neg hn]
      have := ih (n / 2) (by omega) (by omega)
      constructor
      · calc 2 ^ (log2Fuel fuel (n / 2) + 1) = 2 ^ log2Fuel fuel (n / 2) * 2 := by ring
          _ ≤ (n / 2) * 2 := Nat.mul_le_mul_right 2 this.1
          _ ≤ n := Nat.div_mul_le_self n 2
      · have h3 : n / 2 + 1 ≤ 2 ^ (log2Fuel fuel (n / 2) + 1) := this.2
        calc n < (n / 2 + 1) * 2 := by omega
          _ ≤ 2 ^ (log2Fuel fuel (n / 2) + 1) * 2 := Nat.mul_le_mul_right 2 h3
          _ = 2 ^ (log2Fuel fuel (n / 2) + 1 + 1) := by ring

theorem log2_spec (n : Nat) (h : 1 ≤ n) : 2 ^ log2 n ≤ n ∧ n < 2 ^ (log2 n + 1) :=
  log2Fuel_spec n n (le_refl n) h

theorem two_zpow_toNat (z : Int) :
    (2 : ℚ) ^ z.toNat / (2 : ℚ) ^ (-z).toNat = (2 : ℚ) ^ z := by
  rcases le_total 0 z with h | h
  · have h1 : (-z).toNat = 0 := by omega
    have h2 : (z.toNat : Int) = z := Int.toNat_of_nonneg h
    rw [h1, pow_zero, div_one, ← zpow_natCast, h2]
  · have h1 : z.toNat = 0 := by omega
    have h2 : ((-z).toNat : Int) = -z := Int.toNat_of_nonneg (by omega)
    rw [h1, pow_zero, ← zpow_natCast, h2, zpow_neg, one_div, inv_inv]

/-- The exponent `expo a d` is the integer part of the binary logarithm of `a / d`. -/
theorem expo_spec (a d : Nat) (ha : 0 < a) (hd : 0 < d) :
    (2 : ℚ) ^ expo a d ≤ (a : ℚ) / d ∧ (a : ℚ) / d < (2 : ℚ) ^ (expo a d + 1) := by
  have hdq : (0 : ℚ) < d := by exact_mod_cast hd
  have haq : (0 : ℚ) < a := by exact_mod_cast ha
  obtain ⟨ha1, ha2⟩ := log2_spec a ha
  obtain ⟨hd1, hd2⟩ := log2_spec d hd
  have ha1q : (2 : ℚ) ^ (log2 a : Int) ≤ a := by rw [zpow_natCast]; exact_mod_cast ha1
  have ha2q : (a : ℚ) < (2 : ℚ) ^ ((log2 a : Int) + 1) := by
    rw [show ((log2 a : Int) + 1) = ((log2 a + 1 : Nat) : Int) by push_cast; ring, zpow_natCast]
    exact_mod_cast ha2
  have hd1q : (2 : ℚ) ^ (log2 d : Int) ≤ d := by rw [zpow_natCast]; exact_mod_cast hd1
  have hd2q : (d : ℚ) < (2 : ℚ) ^ ((log2 d : Int) + 1) := by
    rw [show ((log2 d : Int) + 1) = ((log2 d + 1 : Nat) : Int) by push_cast; ring, zpow_natCast]
    exact_mod_cast hd2
  have h2 : (0 : ℚ) < 2 := by norm_num
  have key : (d * 2 ^ ((log2 a : Int) - (log2 d : Int)).toNat
      ≤ a * 2 ^ ((log2 d : Int) - (log2 a : Int)).toNat) ↔
      (2 : ℚ) ^ ((log2 a : Int) - (log2 d : Int)) ≤ (a : ℚ) / d := by
    have hp1 : (0 : ℚ) < 2 ^ ((log2 d : Int) - (log2 a : Int)).toNat := by positivity
    rw [← two_zpow_toNat, show -((log2 a : Int) - (log2 d : Int)) = (log2 d : Int) - log2 a by ring,
      div_le_div_iff₀ hp1 hdq]
    constructor
    · intro h
      have : ((d * 2 ^ ((log2 a : Int) - (log2 d : Int)).toNat : Nat) : ℚ)
          ≤ ((a * 2 ^ ((log2 d : Int) - (log2 a : Int)).toNat : Nat) : ℚ) := by exact_mod_cast h
      push_cast at this
      linarith
    · intro h
      have : ((d * 2 ^ ((log2 a : Int) - (log2 d : Int)).toNat : Nat) : ℚ)
          ≤ ((a * 2 ^ ((log2 d : Int) - (log2 a : Int)).toNat : Nat) : ℚ) := by
        push_cast
        linarith
      exact_mod_cast this
  unfold expo
  by_cases hc : d * 2 ^ ((log2 a : Int) - (log2 d : Int)).toNat
      ≤ a * 2 ^ ((log2 d : Int) - (log2 a : Int)).toNat
  · rw [if_pos hc]
    refine ⟨key.mp hc, ?_⟩
    rw [div_lt_iff₀ hdq]
    calc (a : ℚ) < (2 : ℚ) ^ ((log2 a : Int) + 1) := ha2q
      _ = (2 : ℚ) ^ ((log2 a : Int) - (log2 d : Int) + 1) * (2 : ℚ) ^ (log2 d : Int) := by
          rw [← zpow_add₀ (by norm_num)]; congr 1; ring
      _ ≤ (2 : ℚ) ^ ((log2 a : Int) - (log2 d : Int) + 1) * d :=
          mul_le_mul_of_nonneg_left hd1q (le_of_lt (zpow_pos h2 _))
  · rw [if_neg hc]
    have hlt : (a : ℚ) / d < (2 : ℚ) ^ ((log2 a : Int) - (log2 d : Int)) := by
      rw [← not_le]; exact fun h => hc (key.mpr h)
    have hlt1 : (a : ℚ) / d < (2 : ℚ) ^ ((log2 a : Int) - (log2 d : Int) - 1 + 1) := by
      rw [show (log2 a : Int) - log2 d - 1 + 1 = (log2 a : Int) - log2 d by ring]
      exact hlt
    refine ⟨?_, hlt1⟩
    rw [le_div_iff₀ hdq]
    calc (2 : ℚ) ^ ((log2 a : Int) - (log2 d : Int) - 1) * d
        ≤ (2 : ℚ) ^ ((log2 a : Int) - (log2 d : Int) - 1) * (2 : ℚ) ^ ((log2 d : Int) + 1) :=
          mul_le_mul_of_nonneg_left (le_of_lt hd2q) (le_of_lt (zpow_pos h2 _))
      _ = (2 : ℚ) ^ (log2 a : Int) := by
          rw [← zpow_add₀ (by norm_num)]; congr 1; ring
      _ ≤ a := ha1q

theorem ulpExp_ge (a d : Nat) (k : Int) : -1074 ≤ ulpExp a d k := le_max_right _ _

/-- The exact value that `roundMant` rounds: `(a / d) * 2 ^ (k - ulpExp a d k)`. -/
theorem roundMant_err (a d : Nat) (k : Int) (hd : 0 < d) :
    |((roundMant a d k : Nat) : ℚ) - (a : ℚ) / d * (2 : ℚ) ^ (k - ulpExp a d k)| ≤ 1 / 2 := by
  have hpos : 0 < d * 2 ^ (ulpExp a d k - k).toNat := Nat.mul_pos hd (by positivity)
  have h := roundHalfEven_err (a * 2 ^ (k - ulpExp a d k).toNat) (d * 2 ^ (ulpExp a d k - k).toNat) hpos
  have hdq : (d : ℚ) ≠ 0 := by exact_mod_cast (ne_of_gt hd)
  have e : (((a * 2 ^ (k - ulpExp a d k).toNat : Nat) : ℚ)) /
      ((d * 2 ^ (ulpExp a d k - k).toNat : Nat) : ℚ)
      = (a : ℚ) / d * (2 : ℚ) ^ (k - ulpExp a d k) := by
    rw [← two_zpow_toNat (k - ulpExp a d k), show -(k - ulpExp a d k) = ulpExp a d k - k by ring]
    push_cast
    field_simp
  rw [e] at h
  exact h

theorem roundMant_exact (a d : Nat) (k : Int) (hd : 0 < d) (z : Nat)
    (hz : (a : ℚ) / d * (2 : ℚ) ^ (k - ulpExp a d k) = z) : roundMant a d k = z := by
  have h := roundMant_err a d k hd
  rw [hz, abs_le] at h
  have h1 : ((roundMant a d k : Nat) : ℚ) < (z : ℚ) + 1 := by linarith
  have h2 : (z : ℚ) - 1 < ((roundMant a d k : Nat) : ℚ) := by linarith
  have h3 : roundMant a d k < z + 1 := by exact_mod_cast h1
  have h4 : (z : ℚ) < ((roundMant a d k : Nat) : ℚ) + 1 := by linarith
  have h5 : z < roundMant a d k + 1 := by exact_mod_cast h4
  omega

theorem natAbs_cast_abs (n : Int) : ((n.natAbs : Nat) : ℚ) = |(n : ℚ)| := by
  rw [Nat.cast_natAbs, Int.cast_abs]

/-- Bracketing of the magnitude of `(n / d) * 2 ^ k` by powers of two. -/
theorem expo_bracket (n : Int) (d : Nat) (k : Int) (hn : n ≠ 0) (hd : 0 < d) :
    (2 : ℚ) ^ (expo n.natAbs d + k) ≤ |(n : ℚ) / d * (2 : ℚ) ^ k| ∧
    |(n : ℚ) / d * (2 : ℚ) ^ k| < (2 : ℚ) ^ (expo n.natAbs d + k + 1) := by
  have ha : 0 < n.natAbs := Int.natAbs_pos.mpr hn
  obtain ⟨h1, h2⟩ := expo_spec n.natAbs d ha hd
  have hk : (0 : ℚ) < (2 : ℚ) ^ k := zpow_pos (by norm_num) _
  have hdq : (0 : ℚ) < d := by exact_mod_cast hd
  have habs : |(n : ℚ) / d * (2 : ℚ) ^ k| = (n.natAbs : ℚ) / d * (2 : ℚ) ^ k := by
    rw [abs_mul, abs_div, abs_of_pos hk, abs_of_pos hdq, natAbs_cast_abs]
  rw [habs]
  constructor
  · rw [zpow_add₀ (by norm_num)]
    exact mul_le_mul_of_nonneg_right h1 (le_of_lt hk)
  · rw [show expo n.natAbs d + k + 1 = (expo n.natAbs d + 1) + k by ring, zpow_add₀ (by norm_num)]
    exact mul_lt_mul_of_pos_right h2 hk

theorem roundRatio_fin (n : Int) (d : Nat) (k : Int) (hn : n ≠ 0)
    (hov : ulpExp n.natAbs d k ≤ 970) :
    roundRatio n d k =
      .fin (if n < 0 then -(roundMant n.natAbs d k : Int) else (roundMant n.natAbs d k : Int))
        (ulpExp n.natAbs d k) := by
  unfold roundRatio
  rw [if_neg hn, if_neg]
  omega

/-- The value of `roundRatio n d k` differs from `(n / d) * 2 ^ k` by at most half a
unit in the last place. -/
theorem roundRatio_half_ulp (n : Int) (d : Nat) (k : Int) (hn : n ≠ 0) (hd : 0 < d)
    (hov : ulpExp n.natAbs d k ≤ 970) :
    ∃ r, (roundRatio n d k).HasValue r ∧
      |r - (n : ℚ) / d * (2 : ℚ) ^ k| ≤ (2 : ℚ) ^ (ulpExp n.natAbs d k) / 2 := by
  have hu : (0 : ℚ) < (2 : ℚ) ^ (ulpExp n.natAbs d k) := zpow_pos (by norm_num) _
  have herr := roundMant_err n.natAbs d k hd
  have hsplit : (2 : ℚ) ^ k = (2 : ℚ) ^ (k - ulpExp n.natAbs d k) * (2 : ℚ) ^ (ulpExp n.natAbs d k) := by
    rw [← zpow_add₀ (by norm_num)]; congr 1; ring
  rw [roundRatio_fin n d k hn hov]
  refine ⟨_, ⟨_, _, rfl, rfl⟩, ?_⟩
  have key : ∀ m : ℚ, |m - (n.natAbs : ℚ) / d * (2 : ℚ) ^ (k - ulpExp n.natAbs d k)| ≤ 1 / 2 →
      |m * (2 : ℚ) ^ (ulpExp n.natAbs d k) - (n.natAbs : ℚ) / d * (2 : ℚ) ^ k|
        ≤ (2 : ℚ) ^ (ulpExp n.natAbs d k) / 2 := by
    intro m hm
    have : m * (2 : ℚ) ^ (ulpExp n.natAbs d k) - (n.natAbs : ℚ) / d * (2 : ℚ) ^ k
        = (m - (n.natAbs : ℚ) / d * (2 : ℚ) ^ (k - ulpExp n.natAbs d k))
          * (2 : ℚ) ^ (ulpExp n.natAbs d k) := by
      rw [hsplit]; ring
    rw [this, abs_mul, abs_of_pos hu]
    calc |m - (n.natAbs : ℚ) / d * (2 : ℚ) ^ (k - ulpExp n.natAbs d k)| * (2 : ℚ) ^ ulpExp n.natAbs d k
        ≤ 1 / 2 * (2 : ℚ) ^ ulpExp n.natAbs d k := mul_le_mul_of_nonneg_right hm (le_of_lt hu)
      _ = (2 : ℚ) ^ ulpExp n.natAbs d k / 2 := by ring
  have h := key _ herr
  by_cases hneg : n < 0
  · rw [if_pos hneg]
    have hnq : (n : ℚ) = -(n.natAbs : ℚ) := by
      rw [natAbs_cast_abs, abs_of_neg (by exact_mod_cast hneg)]; ring
    rw [hnq]
    push_cast
    rw [show -((roundMant n.natAbs d k : Nat) : ℚ) * (2 : ℚ) ^ ulpExp n.natAbs d k
        - -(n.natAbs : ℚ) / d * (2 : ℚ) ^ k
        = -(((roundMant n.natAbs d k : Nat) : ℚ) * (2 : ℚ) ^ ulpExp n.natAbs d k
          - (n.natAbs : ℚ) / d * (2 : ℚ) ^ k) by ring, abs_neg]
    exact h
  · rw [if_neg hneg]
    have hnq : (n : ℚ) = (n.natAbs : ℚ) := by
      rw [natAbs_cast_abs, abs_of_nonneg (by exact_mod_cast (not_lt.mp hneg))]
    rw [hnq]
    push_cast
    exact h

/-- Relative error of one rounding in the normal range: at most `2 ^ (-53)`. -/
theorem roundRatio_rel (n : Int) (d : Nat) (k : Int) (hn : n ≠ 0) (hd : 0 < d)
    (hlo : (2 : ℚ) ^ (-1022 : Int) ≤ |(n : ℚ) / d * (2 : ℚ) ^ k|)
    (hhi : |(n : ℚ) / d * (2 : ℚ) ^ k| < (2 : ℚ) ^ (1023 : Int)) :
    ∃ r, (roundRatio n d k).HasValue r ∧
      |r - (n : ℚ) / d * (2 : ℚ) ^ k| ≤ |(n : ℚ) / d * (2 : ℚ) ^ k| * (2 : ℚ) ^ (-53 : Int) := by
  obtain ⟨hb1, hb2⟩ := expo_bracket n d k hn hd
  have h2 : (1 : ℚ) < 2 := by norm_num
  have he1 : expo n.natAbs d + k < 1023 :=
    (zpow_lt_zpow_iff_right₀ h2).mp (lt_of_le_of_lt hb1 hhi)
  have he2 : -1022 < expo n.natAbs d + k + 1 :=
    (zpow_lt_zpow_iff_right₀ h2).mp (lt_of_le_of_lt hlo hb2)
  have hu : ulpExp n.natAbs d k = expo n.natAbs d + k - 52 := by
    unfold ulpExp; omega
  obtain ⟨r, hr, herr⟩ := roundRatio_half_ulp n d k hn hd (by omega)
  refine ⟨r, hr, le_trans herr ?_⟩
  rw [hu]
  calc (2 : ℚ) ^ (expo n.natAbs d + k - 52) / 2
      = (2 : ℚ) ^ (expo n.natAbs d + k) * (2 : ℚ) ^ (-53 : Int) := by
        rw [← zpow_add₀ (by norm_num), div_eq_iff (by norm_num)]
        rw [show ((2 : ℚ) ^ (expo n.natAbs d + k + -53)) * 2
          = (2 : ℚ) ^ (expo n.natAbs d + k + -53) * (2 : ℚ) ^ (1 : Int) by norm_num,
          ← zpow_add₀ (by norm_num)]
        congr 1; ring
    _ ≤ |(n : ℚ) / d * (2 : ℚ) ^ k| * (2 : ℚ) ^ (-53 : Int) :=
        mul_le_mul_of_nonneg_right hb1 (le_of_lt (zpow_pos (by norm_num) _))

theorem two_zpow_neg_toNat (u : Int) (hu : u ≤ 0) :
    (2 : ℚ) ^ (-u) = ((2 ^ (-u).toNat : Nat) : ℚ) := by
  have h : ((-u).toNat : Int) = -u := Int.toNat_of_nonneg (by omega)
  rw [Nat.cast_pow, ← zpow_natCast, h]
  norm_num

/-- A quotient whose exact value is an integer below `2 ^ 53` in magnitude is not
changed by the rounding. -/
theorem roundRatio_exact (n : Int) (d : Nat) (k : Int) (hd : 0 < d) (z : Int)
    (hq : (n : ℚ) / d * (2 : ℚ) ^ k = z) (hz : |z| < 2 ^ 53) :
    (roundRatio n d k).HasValue z := by
  by_cases hn : n = 0
  · subst hn
    have hz0 : z = 0 := by
      have : (z : ℚ) = 0 := by rw [← hq]; simp
      exact_mod_cast this
    subst hz0
    exact ⟨0, 0, by simp [roundRatio], by simp⟩
  have hdq : (0 : ℚ) < d := by exact_mod_cast hd
  have hk : (0 : ℚ) < (2 : ℚ) ^ k := zpow_pos (by norm_num) _
  have hz0 : z ≠ 0 := by
    intro h
    rw [h] at hq
    have hnq : (n : ℚ) ≠ 0 := by exact_mod_cast hn
    have : (n : ℚ) / d * (2 : ℚ) ^ k ≠ 0 :=
      mul_ne_zero (div_ne_zero hnq (ne_of_gt hdq)) (ne_of_gt hk)
    exact this (by rw [hq]; simp)
  obtain ⟨hb1, hb2⟩ := expo_bracket n d k hn hd
  rw [hq] at hb1 hb2
  have h2 : (1 : ℚ) < 2 := by norm_num
  have hz1 : (1 : ℚ) ≤ |(z : ℚ)| := by
    have : (1 : Int) ≤ |z| := Int.one_le_abs hz0
    exact_mod_cast this
  have hz53 : |(z : ℚ)| < (2 : ℚ) ^ (53 : Int) := by
    have : ((|z| : Int) : ℚ) < ((2 ^ 53 : Int) : ℚ) := by exact_mod_cast hz
    rw [Int.cast_abs] at this
    rw [show ((53 : Int)) = ((53 : Nat) : Int) by norm_num, zpow_natCast]
    exact_mod_cast this
  have he1 : expo n.natAbs d + k < 53 :=
    (zpow_lt_zpow_iff_right₀ h2).mp (lt_of_le_of_lt hb1 hz53)
  have he2 : (0 : Int) < expo n.natAbs d + k + 1 := by
    have : (2 : ℚ) ^ (0 : Int) < (2 : ℚ) ^ (expo n.natAbs d + k + 1) := by
      rw [zpow_zero]; exact lt_of_le_of_lt hz1 hb2
    exact (zpow_lt_zpow_iff_right₀ h2).mp this
  have hu : ulpExp n.natAbs d k = expo n.natAbs d + k - 52 := by
    unfold ulpExp; omega
  have hu0 : ulpExp n.natAbs d k ≤ 0 := by omega
  have habs : (n.natAbs : ℚ) / d * (2 : ℚ) ^ k = (z.natAbs : ℚ) := by
    rw [natAbs_cast_abs, natAbs_cast_abs, ← hq, abs_mul, abs_div, abs_of_pos hk, abs_of_pos hdq]
  have hm : roundMant n.natAbs d k = z.natAbs * 2 ^ (-ulpExp n.natAbs d k).toNat := by
    apply roundMant_exact n.natAbs d k hd
    rw [show k - ulpExp n.natAbs d k = k + -ulpExp n.natAbs d k by ring, zpow_add₀ (by norm_num),
      ← mul_assoc, habs, two_zpow_neg_toNat _ hu0]
    push_cast
    ring
  have hval : ((z.natAbs * 2 ^ (-ulpExp n.natAbs d k).toNat : Nat) : ℚ)
      * (2 : ℚ) ^ ulpExp n.natAbs d k = (z.natAbs : ℚ) := by
    rw [Nat.cast_mul, ← two_zpow_neg_toNat _ hu0, mul_assoc, ← zpow_add₀ (by norm_num)]
    simp
  rw [roundRatio_fin n d k hn (by omega), hm]
  refine ⟨_, _, rfl, ?_⟩
  have hsign : (n < 0) ↔ (z < 0) := by
    have hq' : (z : ℚ) = (n : ℚ) * ((2 : ℚ) ^ k / d) := by rw [← hq]; ring
    have hpos : (0 : ℚ) < (2 : ℚ) ^ k / d := div_pos hk hdq
    constructor
    · intro h
      have : (z : ℚ) < 0 := by
        rw [hq']; exact mul_neg_of_neg_of_pos (by exact_mod_cast h) hpos
      exact_mod_cast this
    · intro h
      by_contra hc
      have hn0 : (0 : ℚ) ≤ n := by exact_mod_cast (not_lt.mp hc)
      have : (0 : ℚ) ≤ z := by rw [hq']; exact mul_nonneg hn0 (le_of_lt hpos)
      have : (0 : Int) ≤ z := by exact_mod_cast this
      omega
  by_cases hneg : n < 0
  · rw [if_pos hneg]
    have hzneg := hsign.mp hneg
    rw [Int.cast_neg, Int.cast_natCast, neg_mul, hval, natAbs_cast_abs,
      abs_of_neg (by exact_mod_cast hzneg)]
    ring
  · rw [if_neg hneg]
    have hzpos : ¬ z < 0 := fun h => hneg (hsign.mpr h)
    rw [Int.cast_natCast, hval, natAbs_cast_abs,
      abs_of_nonneg (by exact_mod_cast (not_lt.mp hzpos))]

/-- Every integer below `2 ^ 53` in magnitude, in particular every `int`, converts to
`double` exactly. -/
theorem ofInt_value (n : Int) (h : |n| < 2 ^ 53) : (Double.ofInt n).HasValue n := by
  apply roundRatio_exact n 1 0 (by norm_num) n _ h
  simp

theorem hasValue_unique (x : Double) (p q : ℚ) (hp : x.HasValue p) (hq : x.HasValue q) :
    p = q := by
  obtain ⟨m, e, h1, h2⟩ := hp
  obtain ⟨m', e', h1', h2'⟩ := hq
  rw [h1] at h1'
  cases h1'
  rw [← h2, ← h2']

/-! ### The operations on `double` values -/

theorem mul_rel (x y : Double) (p q : ℚ) (hx : x.HasValue p) (hy : y.HasValue q)
    (hlo : (2 : ℚ) ^ (-1022 : Int) ≤ |p * q|) (hhi : |p * q| < (2 : ℚ) ^ (1023 : Int)) :
    ∃ r, (Double.mul x y).HasValue r ∧ |r - p * q| ≤ |p * q| * (2 : ℚ) ^ (-53 : Int) := by
  obtain ⟨m1, e1, rfl, h1⟩ := hx
  obtain ⟨m2, e2, rfl, h2⟩ := hy
  have hval : ((m1 * m2 : Int) : ℚ) / (1 : Nat) * (2 : ℚ) ^ (e1 + e2) = p * q := by
    rw [← h1, ← h2, zpow_add₀ (by norm_num)]; push_cast; ring
  have hne : m1 * m2 ≠ 0 := by
    intro h
    rw [h] at hval
    have : p * q = 0 := by rw [← hval]; simp
    rw [this, abs_zero] at hlo
    exact absurd hlo (not_le.mpr (zpow_pos (by norm_num) _))
  have := roundRatio_rel (m1 * m2) 1 (e1 + e2) hne (by norm_num) (by rw [hval]; exact hlo)
    (by rw [hval]; exact hhi)
  rw [hval] at this
  exact this

theorem mul_exact (x y : Double) (p q : ℚ) (z : Int) (hx : x.HasValue p) (hy : y.HasValue q)
    (hz : p * q = z) (hb : |z| < 2 ^ 53) : (Double.mul x y).HasValue z := by
  obtain ⟨m1, e1, rfl, h1⟩ := hx
  obtain ⟨m2, e2, rfl, h2⟩ := hy
  have hval : ((m1 * m2 : Int) : ℚ) / (1 : Nat) * (2 : ℚ) ^ (e1 + e2) = z := by
    rw [← hz, ← h1, ← h2, zpow_add₀ (by norm_num)]; push_cast; ring
  exact roundRatio_exact (m1 * m2) 1 (e1 + e2) (by norm_num) z hval hb

theorem div_value_eq (m1 m2 e1 e2 : Int) (hm2 : m2 ≠ 0) :
    (((if m2 < 0 then -m1 else m1 : Int)) : ℚ) / (m2.natAbs : Nat) * (2 : ℚ) ^ (e1 - e2)
      = ((m1 : ℚ) * (2 : ℚ) ^ e1) / ((m2 : ℚ) * (2 : ℚ) ^ e2) := by
  have h2 : ((2 : ℚ) ^ e2) ≠ 0 := ne_of_gt (zpow_pos (by norm_num) _)
  have hm2q : (m2 : ℚ) ≠ 0 := by exact_mod_cast hm2
  rw [zpow_sub₀ (by norm_num), natAbs_cast_abs]
  by_cases hneg : m2 < 0
  · rw [if_pos hneg, abs_of_neg (by exact_mod_cast hneg)]
    push_cast
    field_simp
  · rw [if_neg hneg, abs_of_nonneg (by exact_mod_cast (not_lt.mp hneg))]
    field_simp

theorem div_rel (x y : Double) (p q : ℚ) (hx : x.HasValue p) (hy : y.HasValue q)
    (hlo : (2 : ℚ) ^ (-1022 : Int) ≤ |p / q|) (hhi : |p / q| < (2 : ℚ) ^ (1023 : Int)) :
    ∃ r, (Double.div x y).HasValue r ∧ |r - p / q| ≤ |p / q| * (2 : ℚ) ^ (-53 : Int) := by
  obtain ⟨m1, e1, rfl, h1⟩ := hx
  obtain ⟨m2, e2, rfl, h2⟩ := hy
  have hpq : p / q ≠ 0 := by
    intro h
    rw [h, abs_zero] at hlo
    exact absurd hlo (not_le.mpr (zpow_pos (by norm_num) _))
  have hq0 : q ≠ 0 := fun h => hpq (by rw [h, div_zero])
  have hp0 : p ≠ 0 := fun h => hpq (by rw [h, zero_div])
  have hm2 : m2 ≠ 0 := by
    rintro rfl
    apply hq0; rw [← h2]; simp
  have hm1 : m1 ≠ 0 := by
    rintro rfl
    apply hp0; rw [← h1]; simp
  have hval := div_value_eq m1 m2 e1 e2 hm2
  rw [h1, h2] at hval
  have hn : (if m2 < 0 then -m1 else m1) ≠ 0 := by split <;> omega
  have := roundRatio_rel (if m2 < 0 then -m1 else m1) m2.natAbs (e1 - e2) hn
    (Int.natAbs_pos.mpr hm2) (by rw [hval]; exact hlo) (by rw [hval]; exact hhi)
  rw [hval] at this
  simp only [Double.div, if_neg hm2]
  exact this

theorem div_exact (x y : Double) (p q : ℚ) (z : Int) (hx : x.HasValue p) (hy : y.HasValue q)
    (hq : q ≠ 0) (hz : p / q = z) (hb : |z| < 2 ^ 53) : (Double.div x y).HasValue z := by
  obtain ⟨m1, e1, rfl, h1⟩ := hx
  obtain ⟨m2, e2, rfl, h2⟩ := hy
  have hm2 : m2 ≠ 0 := by
    rintro rfl
    apply hq; rw [← h2]; simp
  have hval := div_value_eq m1 m2 e1 e2 hm2
  rw [h1, h2, hz] at hval
  simp only [Double.div, if_neg hm2]
  exact roundRatio_exact _ m2.natAbs (e1 - e2) (Int.natAbs_pos.mpr hm2) z hval hb

theorem ceil_value (x : Double) (p : ℚ) (hx : x.HasValue p) :
    (Double.ceil x).HasValue (⌈p⌉ : Int) := by
  obtain ⟨m, e, rfl, h⟩ := hx
  simp only [Double.ceil]
  by_cases he : 0 ≤ e
  · rw [if_pos he]
    refine ⟨m, e, rfl, ?_⟩
    have he' : ((e.toNat : Nat) : Int) = e := Int.toNat_of_nonneg he
    have hp : p = ((m * 2 ^ e.toNat : Int) : ℚ) := by
      rw [← h, Int.cast_mul, Int.cast_pow, ← zpow_natCast, he']; norm_num
    rw [h, hp, Int.ceil_intCast]
  · rw [if_neg he]
    refine ⟨_, 0, rfl, ?_⟩
    have he' : (((-e).toNat : Nat) : Int) = -e := Int.toNat_of_nonneg (by omega)
    have hp : p = (m : ℚ) / ((2 ^ (-e).toNat : Nat) : ℚ) := by
      rw [← h, Nat.cast_pow, ← zpow_natCast, he', zpow_neg]
      simp [div_eq_mul_inv]
    have hfl : ⌊-p⌋ = (-m) / ((2 ^ (-e).toNat : Nat) : Int) := by
      rw [hp, ← neg_div, ← Int.cast_neg, Rat.floor_intCast_div_natCast]
    have hceil : ⌈p⌉ = -((-m) / 2 ^ (-e).toNat) := by
      have := Int.floor_neg (a := p)
      rw [hfl] at this
      push_cast at this
      omega
    rw [zpow_zero, mul_one, hceil]

/-- The conversion `(int) x` of a non-negative value within the range of `int` is
its integer part. -/
theorem toInt_value (x : Double) (p : ℚ) (hx : x.HasValue p) (hp0 : 0 ≤ p)
    (hmax : ⌊p⌋ ≤ INT_MAX) : x.toInt = ⌊p⌋ := by
  obtain ⟨m, e, rfl, h⟩ := hx
  have hm0 : 0 ≤ m := by
    by_contra hc
    have hmq : (m : ℚ) < 0 := by exact_mod_cast (not_le.mp hc)
    have : (m : ℚ) * (2 : ℚ) ^ e < 0 := mul_neg_of_neg_of_pos hmq (zpow_pos (by norm_num) _)
    linarith
  have htr : Double.trunc m e = ⌊p⌋ := by
    unfold Double.trunc
    by_cases he : 0 ≤ e
    · rw [if_pos he]
      have he' : ((e.toNat : Nat) : Int) = e := Int.toNat_of_nonneg he
      have hp : p = ((m * 2 ^ e.toNat : Int) : ℚ) := by
        rw [← h, Int.cast_mul, Int.cast_pow, ← zpow_natCast, he']; norm_num
      rw [hp, Int.floor_intCast]
    · rw [if_neg he, if_pos hm0]
      have he' : (((-e).toNat : Nat) : Int) = -e := Int.toNat_of_nonneg (by omega)
      have hp : p = (m : ℚ) / ((2 ^ (-e).toNat : Nat) : ℚ) := by
        rw [← h, Nat.cast_pow, ← zpow_natCast, he', zpow_neg]
        simp [div_eq_mul_inv]
      rw [hp, Rat.floor_intCast_div_natCast]
      push_cast
      rfl
  have hfl0 : 0 ≤ ⌊p⌋ := Int.floor_nonneg.mpr hp0
  simp only [Double.toInt, htr]
  rw [if_pos]
  constructor
  · simp only [INT_MIN]; omega
  · exact hmax

/-! ### The two derived quantities -/

theorem u53 : (2 : ℚ) ^ (-53 : Int) = 1 / 2 ^ 53 := by
  rw [zpow_neg, show ((53 : Int)) = ((53 : Nat) : Int) by norm_num, zpow_natCast, one_div]

theorem in_range (v : ℚ) (h1 : 1 / 2 ^ 64 ≤ v) (h2 : v ≤ 2 ^ 64) :
    (2 : ℚ) ^ (-1022 : Int) ≤ |v| ∧ |v| < (2 : ℚ) ^ (1023 : Int) := by
  have hv : 0 < v := lt_of_lt_of_le (by positivity) h1
  rw [abs_of_pos hv]
  have e1 : (1 : ℚ) / 2 ^ 64 = (2 : ℚ) ^ (-64 : Int) := by
    rw [zpow_neg, show ((64 : Int)) = ((64 : Nat) : Int) by norm_num, zpow_natCast, one_div]
  have e2 : (2 : ℚ) ^ 64 = (2 : ℚ) ^ (64 : Int) := by
    rw [show ((64 : Int)) = ((64 : Nat) : Int) by norm_num, zpow_natCast]
  constructor
  · calc (2 : ℚ) ^ (-1022 : Int) ≤ (2 : ℚ) ^ (-64 : Int) :=
        zpow_le_zpow_right₀ (by norm_num) (by norm_num)
      _ = 1 / 2 ^ 64 := e1.symm
      _ ≤ v := h1
  · calc v ≤ 2 ^ 64 := h2
      _ = (2 : ℚ) ^ (64 : Int) := e2
      _ < (2 : ℚ) ^ (1023 : Int) := zpow_lt_zpow_right₀ (by norm_num) (by norm_num)

theorem rel_bounds (r q : ℚ) (hq : 0 ≤ q) (h : |r - q| ≤ |q| * (2 : ℚ) ^ (-53 : Int)) :
    q * (1 - 1 / 2 ^ 53) ≤ r ∧ r ≤ q * (1 + 1 / 2 ^ 53) := by
  rw [abs_of_nonneg hq, u53, abs_le] at h
  constructor <;> linarith [h.1, h.2]

/-- One rounded operation on a positive value between `lo` and `hi`: the result is
positive and lies between `lo / 2` and `2 * hi`. -/
theorem rel_range (r q lo hi : ℚ) (hlo : 0 < lo) (h1 : lo ≤ q) (h2 : q ≤ hi)
    (b1 : q * (1 - 1 / 2 ^ 53) ≤ r) (b2 : r ≤ q * (1 + 1 / 2 ^ 53)) :
    lo / 2 ≤ r ∧ r ≤ 2 * hi := by
  have hq : 0 < q := lt_of_lt_of_le hlo h1
  have e1 : q * (1 / 2) ≤ q * (1 - 1 / 2 ^ 53) :=
    mul_le_mul_of_nonneg_left (by norm_num) (le_of_lt hq)
  have e2 : q * (1 + 1 / 2 ^ 53) ≤ q * 2 :=
    mul_le_mul_of_nonneg_left (by norm_num) (le_of_lt hq)
  constructor <;> linarith

/-- Three roundings in a row move a positive product/quotient by a relative error of
at most `2 ^ (-51)`. -/
theorem chain3 (q r1 r2 r3 a b : ℚ) (hq : 0 < q) (ha : 0 < a) (hb : 0 < b)
    (l1 : q * (1 - 1 / 2 ^ 53) ≤ r1) (h1 : r1 ≤ q * (1 + 1 / 2 ^ 53))
    (l2 : a * r1 * (1 - 1 / 2 ^ 53) ≤ r2) (h2 : r2 ≤ a * r1 * (1 + 1 / 2 ^ 53))
    (l3 : r2 / b * (1 - 1 / 2 ^ 53) ≤ r3) (h3 : r3 ≤ r2 / b * (1 + 1 / 2 ^ 53)) :
    a * q / b * (1 - 1 / 2 ^ 51) ≤ r3 ∧ r3 ≤ a * q / b * (1 + 1 / 2 ^ 51) := by
  have hm : (0 : ℚ) ≤ 1 - 1 / 2 ^ 53 := by norm_num
  have hp : (0 : ℚ) ≤ 1 + 1 / 2 ^ 53 := by norm_num
  have hbinv : (0 : ℚ) ≤ 1 / b := by positivity
  constructor
  · have s1 : a * (q * (1 - 1 / 2 ^ 53)) * (1 - 1 / 2 ^ 53) ≤ r2 :=
      le_trans (mul_le_mul_of_nonneg_right (mul_le_mul_of_nonneg_left l1 (le_of_lt ha)) hm) l2
    have s2 : a * (q * (1 - 1 / 2 ^ 53)) * (1 - 1 / 2 ^ 53) / b * (1 - 1 / 2 ^ 53) ≤ r3 :=
      le_trans (mul_le_mul_of_nonneg_right
        (div_le_div_of_nonneg_right s1 (le_of_lt hb)) hm) l3
    have s3 : a * q / b * (1 - 1 / 2 ^ 51)
        ≤ a * (q * (1 - 1 / 2 ^ 53)) * (1 - 1 / 2 ^ 53) / b * (1 - 1 / 2 ^ 53) := by
      have e : a * (q * (1 - 1 / 2 ^ 53)) * (1 - 1 / 2 ^ 53) / b * (1 - 1 / 2 ^ 53)
          = a * q / b * ((1 - 1 / 2 ^ 53) ^ 3) := by field_simp; ring
      rw [e]
      exact mul_le_mul_of_nonneg_left (by norm_num) (by positivity)
    exact le_trans s3 s2
  · have s1 : r2 ≤ a * (q * (1 + 1 / 2 ^ 53)) * (1 + 1 / 2 ^ 53) :=
      le_trans h2 (mul_le_mul_of_nonneg_right (mul_le_mul_of_nonneg_left h1 (le_of_lt ha)) hp)
    have s2 : r3 ≤ a * (q * (1 + 1 / 2 ^ 53)) * (1 + 1 / 2 ^ 53) / b * (1 + 1 / 2 ^ 53) :=
      le_trans h3 (mul_le_mul_of_nonneg_right
        (div_le_div_of_nonneg_right s1 (le_of_lt hb)) hp)
    have s3 : a * (q * (1 + 1 / 2 ^ 53)) * (1 + 1 / 2 ^ 53) / b * (1 + 1 / 2 ^ 53)
        ≤ a * q / b * (1 + 1 / 2 ^ 51) := by
      have e : a * (q * (1 + 1 / 2 ^ 53)) * (1 + 1 / 2 ^ 53) / b * (1 + 1 / 2 ^ 53)
          = a * q / b * ((1 + 1 / 2 ^ 53) ^ 3) := by field_simp; ring
      rw [e]
      exact mul_le_mul_of_nonneg_left (by norm_num) (by positivity)
    exact le_trans s2 s3

theorem mul_range (a b alo ahi blo bhi : ℚ) (h1 : 0 < alo) (h2 : alo ≤ a) (h3 : a ≤ ahi)
    (h4 : 0 < blo) (h5 : blo ≤ b) (h6 : b ≤ bhi) : alo * blo ≤ a * b ∧ a * b ≤ ahi * bhi := by
  have ha : 0 < a := lt_of_lt_of_le h1 h2
  have hb : 0 < b := lt_of_lt_of_le h4 h5
  exact ⟨mul_le_mul h2 h5 (le_of_lt h4) (le_of_lt ha),
    mul_le_mul h3 h6 (le_of_lt hb) (le_trans (le_of_lt ha) h3)⟩

theorem div_range (a b alo ahi blo bhi : ℚ) (h1 : 0 < alo) (h2 : alo ≤ a) (h3 : a ≤ ahi)
    (h4 : 0 < blo) (h5 : blo ≤ b) (h6 : b ≤ bhi) : alo / bhi ≤ a / b ∧ a / b ≤ ahi / blo := by
  have ha : 0 < a := lt_of_lt_of_le h1 h2
  have hb : 0 < b := lt_of_lt_of_le h4 h5
  exact ⟨div_le_div₀ (le_of_lt ha) h2 hb h6,
    div_le_div₀ (le_trans (le_of_lt ha) h3) h3 h4 h5⟩

/-- The `double` whose ceiling is the derived count lies within the relative error
`2 ^ (-51)` of the exact quotient `speed * 1024 * time / (1000 * size)`. -/
theorem countFromSpeed_spec (speed time size : Int)
    (hs : 0 < speed) (hS : speed * 1024 ≤ INT_MAX) (ht : 0 < time) (ht2 : time ≤ INT_MAX)
    (hz : 0 < size) (hz2 : size ≤ INT_MAX)
    (hfit : speed * 1024 * time ≤ 1000 * size * (INT_MAX - 1)) :
    ∃ x : ℚ, countFromSpeed speed time size = ⌈x⌉ ∧ 0 < x ∧
      ((speed * 1024 * time : Int) : ℚ) / ((1000 * size : Int) : ℚ) * (1 - 1 / 2 ^ 51) ≤ x ∧
      x ≤ ((speed * 1024 * time : Int) : ℚ) / ((1000 * size : Int) : ℚ) * (1 + 1 / 2 ^ 51) := by
  simp only [INT_MAX] at hS ht2 hz2 hfit
  have hwrap : wrap32 (speed * 1024) = speed * 1024 := by unfold wrap32; omega
  have hSlo : (1024 : ℚ) ≤ ((speed * 1024 : Int) : ℚ) := by
    exact_mod_cast (by omega : (1024 : Int) ≤ speed * 1024)
  have hShi : ((speed * 1024 : Int) : ℚ) ≤ 2147483647 := by exact_mod_cast hS
  have hSq : (0 : ℚ) < ((speed * 1024 : Int) : ℚ) := by linarith
  have htlo : (1 : ℚ) ≤ (time : ℚ) := by exact_mod_cast (by omega : (1 : Int) ≤ time)
  have hthi : (time : ℚ) ≤ 2147483647 := by exact_mod_cast ht2
  have hzlo : (1 : ℚ) ≤ (size : ℚ) := by exact_mod_cast (by omega : (1 : Int) ≤ size)
  have hzhi : (size : ℚ) ≤ 2147483647 := by exact_mod_cast hz2
  have hz0 : (0 : ℚ) < (size : ℚ) := by linarith
  have vS := ofInt_value (speed * 1024) (by rw [abs_of_pos (by omega)]; omega)
  have vt := ofInt_value time (by rw [abs_of_pos ht]; omega)
  have v1000 := ofInt_value 1000 (by norm_num)
  have vz := ofInt_value size (by rw [abs_of_pos hz]; omega)
  -- time / 1000.0
  have hT := div_range (time : ℚ) ((1000 : Int) : ℚ) 1 2147483647 1000 1000 (by norm_num) htlo hthi
    (by norm_num) (by norm_num) (by norm_num)
  have hT0 : (0 : ℚ) < (time : ℚ) / ((1000 : Int) : ℚ) := lt_of_lt_of_le (by norm_num) hT.1
  have rT := in_range _ (le_trans (by norm_num) hT.1) (le_trans hT.2 (by norm_num))
  obtain ⟨r1, hr1, e1⟩ := div_rel _ _ _ _ vt v1000 rT.1 rT.2
  obtain ⟨b1lo, b1hi⟩ := rel_bounds _ _ (le_of_lt hT0) e1
  have g1 := rel_range _ _ _ _ (by norm_num) hT.1 hT.2 b1lo b1hi
  have hr10 : 0 < r1 := lt_of_lt_of_le (by norm_num) g1.1
  -- (speed * 1024) * (time / 1000.0)
  have hP := mul_range _ r1 1024 2147483647 _ _ (by norm_num) hSlo hShi (by norm_num) g1.1 g1.2
  have hP0 : (0 : ℚ) < ((speed * 1024 : Int) : ℚ) * r1 := lt_of_lt_of_le (by norm_num) hP.1
  have rP := in_range _ (le_trans (by norm_num) hP.1) (le_trans hP.2 (by norm_num))
  obtain ⟨r2, hr2, e2⟩ := mul_rel _ _ _ _ vS hr1 rP.1 rP.2
  obtain ⟨b2lo, b2hi⟩ := rel_bounds _ _ (le_of_lt hP0) e2
  have g2 := rel_range _ _ _ _ (by norm_num) hP.1 hP.2 b2lo b2hi
  -- ... / size_
  have hQ := div_range r2 (size : ℚ) _ _ 1 2147483647 (by norm_num) g2.1 g2.2 (by norm_num)
    hzlo hzhi
  have hQ0 : (0 : ℚ) < r2 / (size : ℚ) := lt_of_lt_of_le (by norm_num) hQ.1
  have rQ := in_range _ (le_trans (by norm_num) hQ.1) (le_trans hQ.2 (by norm_num))
  obtain ⟨r3, hr3, e3⟩ := div_rel _ _ _ _ hr2 vz rQ.1 rQ.2
  obtain ⟨b3lo, b3hi⟩ := rel_bounds _ _ (le_of_lt hQ0) e3
  -- the accumulated bounds
  have hchain := chain3 _ r1 r2 r3 _ _ hT0 hSq hz0 b1lo b1hi b2lo b2hi b3lo b3hi
  have hE : ((speed * 1024 * time : Int) : ℚ) / ((1000 * size : Int) : ℚ)
      = ((speed * 1024 : Int) : ℚ) * ((time : ℚ) / ((1000 : Int) : ℚ)) / (size : ℚ) := by
    push_cast; field_simp
  have hE0 : (0 : ℚ) < ((speed * 1024 : Int) : ℚ) * ((time : ℚ) / ((1000 : Int) : ℚ)) / (size : ℚ) :=
    div_pos (mul_pos hSq hT0) hz0
  have hEhi : ((speed * 1024 : Int) : ℚ) * ((time : ℚ) / ((1000 : Int) : ℚ)) / (size : ℚ)
      ≤ 2147483646 := by
    rw [← hE, div_le_iff₀ (by exact_mod_cast (by omega : (0 : Int) < 1000 * size))]
    have : ((speed * 1024 * time : Int) : ℚ) ≤ ((1000 * size * (2147483647 - 1) : Int) : ℚ) := by
      exact_mod_cast hfit
    push_cast at this ⊢
    linarith
  have hr30 : 0 < r3 :=
    lt_of_lt_of_le (mul_pos hE0 (by norm_num)) hchain.1
  -- ceil and the conversion to int
  have vc := ceil_value _ _ hr3
  have hceil0 : (0 : ℚ) ≤ ((⌈r3⌉ : Int) : ℚ) := by
    have : (0 : Int) ≤ ⌈r3⌉ := Int.ceil_nonneg (le_of_lt hr30)
    exact_mod_cast this
  have hceilmax : ⌈r3⌉ ≤ 2147483647 := by
    rw [Int.ceil_le]
    have h1 := mul_le_mul_of_nonneg_right hEhi (show (0 : ℚ) ≤ 1 + 1 / 2 ^ 51 by norm_num)
    have h2 : (2147483646 : ℚ) * (1 + 1 / 2 ^ 51) ≤ 2147483647 := by norm_num
    push_cast
    exact le_trans hchain.2 (le_trans h1 h2)
  have hconv := toInt_value _ _ vc hceil0 (by rw [Int.floor_intCast]; exact hceilmax)
  rw [Int.floor_intCast] at hconv
  refine ⟨r3, ?_, hr30, ?_, ?_⟩
  · unfold countFromSpeed
    rw [hwrap]
    exact hconv
  · rw [hE]; exact hchain.1
  · rw [hE]; exact hchain.2

/-- A rounded quotient by a rounded divisor: relative error at most `2 ^ (-51)`. -/
theorem chain_div (q r1 r2 c : ℚ) (hq : 0 < q) (hc : 0 < c)
    (l1 : q * (1 - 1 / 2 ^ 53) ≤ r1) (h1 : r1 ≤ q * (1 + 1 / 2 ^ 53))
    (l2 : c / r1 * (1 - 1 / 2 ^ 53) ≤ r2) (h2 : r2 ≤ c / r1 * (1 + 1 / 2 ^ 53)) :
    c / q * (1 - 1 / 2 ^ 51) ≤ r2 ∧ r2 ≤ c / q * (1 + 1 / 2 ^ 51) := by
  have hm : (0 : ℚ) < 1 - 1 / 2 ^ 53 := by norm_num
  have hp : (0 : ℚ) < 1 + 1 / 2 ^ 53 := by norm_num
  have hqm : 0 < q * (1 - 1 / 2 ^ 53) := mul_pos hq hm
  have hr1 : 0 < r1 := lt_of_lt_of_le hqm l1
  have hcq : 0 ≤ c / q := le_of_lt (div_pos hc hq)
  constructor
  · have s1 : c / (q * (1 + 1 / 2 ^ 53)) ≤ c / r1 :=
      div_le_div_of_nonneg_left (le_of_lt hc) hr1 h1
    have s2 : c / (q * (1 + 1 / 2 ^ 53)) * (1 - 1 / 2 ^ 53) ≤ r2 :=
      le_trans (mul_le_mul_of_nonneg_right s1 (le_of_lt hm)) l2
    have e : c / (q * (1 + 1 / 2 ^ 53)) * (1 - 1 / 2 ^ 53)
        = c / q * ((1 - 1 / 2 ^ 53) / (1 + 1 / 2 ^ 53)) := by field_simp; ring
    rw [e] at s2
    exact le_trans (mul_le_mul_of_nonneg_left (by norm_num) hcq) s2
  · have s1 : c / r1 ≤ c / (q * (1 - 1 / 2 ^ 53)) :=
      div_le_div_of_nonneg_left (le_of_lt hc) hqm l1
    have s2 : r2 ≤ c / (q * (1 - 1 / 2 ^ 53)) * (1 + 1 / 2 ^ 53) :=
      le_trans h2 (mul_le_mul_of_nonneg_right s1 (le_of_lt hp))
    have e : c / (q * (1 - 1 / 2 ^ 53)) * (1 + 1 / 2 ^ 53)
        = c / q * ((1 + 1 / 2 ^ 53) / (1 - 1 / 2 ^ 53)) := by field_simp; ring
    rw [e] at s2
    exact le_trans s2 (mul_le_mul_of_nonneg_left (by norm_num) hcq)

/-- The `double` whose integer part is the derived interval lies within the relative
error `2 ^ (-51)` of the exact quotient `1000000 * size / (speed * 1024)`. -/
theorem intervalFromSpeed_spec (speed size : Int)
    (hs : 0 < speed) (hS : speed * 1024 ≤ INT_MAX) (hz : 0 < size) (hz2 : size ≤ INT_MAX)
    (hfit : 1000000 * size ≤ speed * 1024 * (INT_MAX - 1)) :
    ∃ y : ℚ, intervalFromSpeed speed size = ⌊y⌋ ∧ 0 < y ∧
      ((1000000 * size : Int) : ℚ) / ((speed * 1024 : Int) : ℚ) * (1 - 1 / 2 ^ 51) ≤ y ∧
      y ≤ ((1000000 * size : Int) : ℚ) / ((speed * 1024 : Int) : ℚ) * (1 + 1 / 2 ^ 51) := by
  simp only [INT_MAX] at hS hz2 hfit
  have hSlo : (1024 : ℚ) ≤ ((speed * 1024 : Int) : ℚ) := by
    exact_mod_cast (by omega : (1024 : Int) ≤ speed * 1024)
  have hShi : ((speed * 1024 : Int) : ℚ) ≤ 2147483647 := by exact_mod_cast hS
  have hSq : (0 : ℚ) < ((speed * 1024 : Int) : ℚ) := by linarith
  have hzlo : (1 : ℚ) ≤ (size : ℚ) := by exact_mod_cast (by omega : (1 : Int) ≤ size)
  have hzhi : (size : ℚ) ≤ 2147483647 := by exact_mod_cast hz2
  have hz0 : (0 : ℚ) < (size : ℚ) := by linarith
  have v1 := ofInt_value 1 (by norm_num)
  have vs := ofInt_value speed (by rw [abs_of_pos hs]; omega)
  have v1024 := ofInt_value 1024 (by norm_num)
  have vz := ofInt_value size (by rw [abs_of_pos hz]; omega)
  have vM := ofInt_value 1000000 (by norm_num)
  -- 1.0 * speed * 1024 is exact
  have p1 := mul_exact _ _ _ _ speed v1 vs (by push_cast; ring) (by rw [abs_of_pos hs]; omega)
  have p2 := mul_exact _ _ _ _ (speed * 1024) p1 v1024 (by push_cast; ring)
    (by rw [abs_of_pos (by omega)]; omega)
  -- ... / size_
  have hQ := div_range ((speed * 1024 : Int) : ℚ) (size : ℚ) 1024 2147483647 1 2147483647
    (by norm_num) hSlo hShi (by norm_num) hzlo hzhi
  have hQ0 : (0 : ℚ) < ((speed * 1024 : Int) : ℚ) / (size : ℚ) := lt_of_lt_of_le (by norm_num) hQ.1
  have rQ := in_range _ (le_trans (by norm_num) hQ.1) (le_trans hQ.2 (by norm_num))
  obtain ⟨r1, hr1, e1⟩ := div_rel _ _ _ _ p2 vz rQ.1 rQ.2
  obtain ⟨b1lo, b1hi⟩ := rel_bounds _ _ (le_of_lt hQ0) e1
  have g1 := rel_range _ _ _ _ (by norm_num) hQ.1 hQ.2 b1lo b1hi
  -- 1000000 / ...
  have hI := div_range ((1000000 : Int) : ℚ) r1 1000000 1000000 _ _ (by norm_num) (by norm_num)
    (by norm_num) (by norm_num) g1.1 g1.2
  have hI0 : (0 : ℚ) < ((1000000 : Int) : ℚ) / r1 := lt_of_lt_of_le (by norm_num) hI.1
  have rI := in_range _ (le_trans (by norm_num) hI.1) (le_trans hI.2 (by norm_num))
  obtain ⟨r2, hr2, e2⟩ := div_rel _ _ _ _ vM hr1 rI.1 rI.2
  obtain ⟨b2lo, b2hi⟩ := rel_bounds _ _ (le_of_lt hI0) e2
  have hchain := chain_div _ r1 r2 _ hQ0 (by norm_num) b1lo b1hi b2lo b2hi
  have hE : ((1000000 * size : Int) : ℚ) / ((speed * 1024 : Int) : ℚ)
      = ((1000000 : Int) : ℚ) / (((speed * 1024 : Int) : ℚ) / (size : ℚ)) := by
    push_cast; field_simp
  have hE0 : (0 : ℚ) < ((1000000 : Int) : ℚ) / (((speed * 1024 : Int) : ℚ) / (size : ℚ)) :=
    div_pos (by norm_num) hQ0
  have hEhi : ((1000000 : Int) : ℚ) / (((speed * 1024 : Int) : ℚ) / (size : ℚ)) ≤ 2147483646 := by
    rw [← hE, div_le_iff₀ hSq]
    have : ((1000000 * size : Int) : ℚ) ≤ ((speed * 1024 * (2147483647 - 1) : Int) : ℚ) := by
      exact_mod_cast hfit
    push_cast at this ⊢
    linarith
  have hr20 : 0 < r2 := lt_of_lt_of_le (mul_pos hE0 (by norm_num)) hchain.1
  have hmax : ⌊r2⌋ ≤ INT_MAX := by
    have h1 := mul_le_mul_of_nonneg_right hEhi (show (0 : ℚ) ≤ 1 + 1 / 2 ^ 51 by norm_num)
    have h2 : (2147483646 : ℚ) * (1 + 1 / 2 ^ 51) ≤ 2147483647 := by norm_num
    have h3 : r2 ≤ 2147483647 := le_trans hchain.2 (le_trans h1 h2)
    have h4 : ((⌊r2⌋ : Int) : ℚ) ≤ r2 := Int.floor_le r2
    have : ((⌊r2⌋ : Int) : ℚ) ≤ ((2147483647 : Int) : ℚ) := by push_cast; linarith
    simp only [INT_MAX]
    exact_mod_cast this
  refine ⟨r2, ?_, hr20, ?_, ?_⟩
  · unfold intervalFromSpeed
    exact toInt_value _ _ hr2 (le_of_lt hr20) hmax
  · rw [hE]; exact hchain.1
  · rw [hE]; exact hchain.2

theorem stoi_range (s : Str) (v : Int) (h : stoi s = .ok v) : INT_MIN ≤ v ∧ v ≤ INT_MAX := by
  unfold stoi at h
  split at h
  · cases h
  · split at h
    · cases h
    · cases h
      constructor <;> omega

theorem intArg_range (args : CommandArgs) (key : String) (dflt v : Int)
    (hd : INT_MIN ≤ dflt ∧ dflt ≤ INT_MAX) (h : intArg args key dflt = .ok v) :
    INT_MIN ≤ v ∧ v ≤ INT_MAX := by
  unfold intArg at h
  split at h
  · cases h; exact hd
  · exact stoi_range _ _ h

/-- The count and the interval that `SendCommand::ResolveArgs` stores when the line
gives a positive speed and a positive time. -/
theorem SendCommand_ResolveArgs_speed (c c1 : SendCommand) (args : CommandArgs)
    (speed time size : Int)
    (hspeed : intArg args "speed" SEND_DEFAULT_SPEED = .ok speed)
    (htime : intArg args "time" SEND_DEFAULT_TIME = .ok time)
    (hsize : intArg args "size" SEND_DEFAULT_SIZE = .ok size)
    (hs : 0 < speed) (ht : 0 < time) (h : c.ResolveArgs args = .ok c1) :
    c1.count_ = countFromSpeed speed time size ∧ c1.interval_ = intervalFromSpeed speed size := by
  obtain ⟨count, interval, size', wait, timeout, speed', time', _, _, h3, _, _, h6, h7, h8⟩ :=
    SendCommand_ResolveArgs_ok c c1 args h
  rw [hsize] at h3; cases h3
  rw [hspeed] at h6; cases h6
  rw [htime] at h7; cases h7
  rw [h8]
  simp [hs, ht]

/-- The integer arithmetic behind the duration bound: with `count = ⌈x⌉` and
`interval = ⌊y⌋`, where `x` and `y` are within `2 ^ (-51)` of exact quantities whose
product is `m`. -/
theorem duration_core (E I x y : ℚ) (m : Int) (hE : 0 < E) (hI : 0 < I)
    (hEI : E * I = m) (hm : (m : ℚ) ≤ 2 ^ 41) (hEmax : E ≤ 2 ^ 31)
    (hx1 : E * (1 - 1 / 2 ^ 51) ≤ x) (hx2 : x ≤ E * (1 + 1 / 2 ^ 51))
    (hy0 : 0 < y) (hy1 : I * (1 - 1 / 2 ^ 51) ≤ y) (hy2 : y ≤ I * (1 + 1 / 2 ^ 51)) :
    -⌈x⌉ ≤ ⌈x⌉ * ⌊y⌋ - m ∧ ⌈x⌉ * ⌊y⌋ - m ≤ ⌊y⌋ := by
  have hc1 : x ≤ ((⌈x⌉ : Int) : ℚ) := Int.le_ceil x
  have hc2 : ((⌈x⌉ : Int) : ℚ) < x + 1 := Int.ceil_lt_add_one x
  have hi1 : ((⌊y⌋ : Int) : ℚ) ≤ y := Int.floor_le y
  have hi2 : y < ((⌊y⌋ : Int) : ℚ) + 1 := Int.lt_floor_add_one y
  have hi0 : (0 : ℚ) ≤ ((⌊y⌋ : Int) : ℚ) := by
    have : (0 : Int) ≤ ⌊y⌋ := Int.floor_nonneg.mpr (le_of_lt hy0)
    exact_mod_cast this
  set c : ℚ := ((⌈x⌉ : Int) : ℚ) with hc
  set i : ℚ := ((⌊y⌋ : Int) : ℚ) with hi
  have hEη : 0 ≤ E * (1 / 2 ^ 51) := by positivity
  -- the products that occur
  have k1 : E * (1 / 2 ^ 51) * i ≤ E * (1 / 2 ^ 51) * (I * (1 + 1 / 2 ^ 51)) :=
    mul_le_mul_of_nonneg_left (le_trans hi1 hy2) hEη
  have k2 : E * (1 / 2 ^ 51) * (I * (1 + 1 / 2 ^ 51)) = (m : ℚ) * (1 / 2 ^ 51) * (1 + 1 / 2 ^ 51) := by
    rw [← hEI]; ring
  have k3 : (c - E) * i ≤ (1 + E * (1 / 2 ^ 51)) * i :=
    mul_le_mul_of_nonneg_right (by linarith) hi0
  have k4 : -(E * (1 / 2 ^ 51)) * i ≤ (c - E) * i :=
    mul_le_mul_of_nonneg_right (by linarith) hi0
  have k5 : E * (i - I) ≤ E * (I * (1 / 2 ^ 51)) :=
    mul_le_mul_of_nonneg_left (by linarith) (le_of_lt hE)
  have k6 : E * (-(1 + I * (1 / 2 ^ 51))) ≤ E * (i - I) :=
    mul_le_mul_of_nonneg_left (by linarith) (le_of_lt hE)
  have k7 : E * (I * (1 / 2 ^ 51)) = (m : ℚ) * (1 / 2 ^ 51) := by rw [← hEI]; ring
  have kid : c * i - (m : ℚ) = (c - E) * i + E * (i - I) := by rw [← hEI]; ring
  have hm0 : (0 : ℚ) ≤ (m : ℚ) := by rw [← hEI]; positivity
  have small1 : (m : ℚ) * (1 / 2 ^ 51) * (1 + 1 / 2 ^ 51) ≤ 1 / 4 := by
    have : (m : ℚ) * (1 / 2 ^ 51) * (1 + 1 / 2 ^ 51) ≤ 2 ^ 41 * (1 / 2 ^ 51) * (1 + 1 / 2 ^ 51) := by
      apply mul_le_mul_of_nonneg_right (mul_le_mul_of_nonneg_right hm (by norm_num)) (by norm_num)
    linarith [show (2 : ℚ) ^ 41 * (1 / 2 ^ 51) * (1 + 1 / 2 ^ 51) ≤ 1 / 4 by norm_num]
  have small2 : (m : ℚ) * (1 / 2 ^ 51) ≤ 1 / 4 := by
    have : (m : ℚ) * (1 / 2 ^ 51) ≤ 2 ^ 41 * (1 / 2 ^ 51) :=
      mul_le_mul_of_nonneg_right hm (by norm_num)
    linarith [show (2 : ℚ) ^ 41 * (1 / 2 ^ 51) ≤ 1 / 4 by norm_num]
  have small3 : E * (1 / 2 ^ 51) ≤ 1 / 4 := by
    have : E * (1 / 2 ^ 51) ≤ 2 ^ 31 * (1 / 2 ^ 51) :=
      mul_le_mul_of_nonneg_right hEmax (by norm_num)
    linarith [show (2 : ℚ) ^ 31 * (1 / 2 ^ 51) ≤ 1 / 4 by norm_num]
  have up : c * i - (m : ℚ) < i + 1 := by
    rw [kid]
    have : (1 + E * (1 / 2 ^ 51)) * i = i + E * (1 / 2 ^ 51) * i := by ring
    linarith
  have lo : -c - 1 < c * i - (m : ℚ) := by
    rw [kid]
    have e1 : -(E * (1 / 2 ^ 51)) * i = -(E * (1 / 2 ^ 51) * i) := by ring
    have e2 : E * (-(1 + I * (1 / 2 ^ 51))) = -E - E * (I * (1 / 2 ^ 51)) := by ring
    have e3 : E ≤ c + E * (1 / 2 ^ 51) := by linarith
    linarith
  constructor
  · have : ((-⌈x⌉ - 1 : Int) : ℚ) < ((⌈x⌉ * ⌊y⌋ - m : Int) : ℚ) := by
      push_cast; exact lo
    have : -⌈x⌉ - 1 < ⌈x⌉ * ⌊y⌋ - m := by exact_mod_cast this
    omega
  · have : ((⌈x⌉ * ⌊y⌋ - m : Int) : ℚ) < ((⌊y⌋ + 1 : Int) : ℚ) := by
      push_cast; exact up
    have : ⌈x⌉ * ⌊y⌋ - m < ⌊y⌋ + 1 := by exact_mod_cast this
    omega

theorem exact_count_le (speed time size : Int) (hz : 0 < size)
    (hfit : speed * 1024 * time ≤ 1000 * size * (INT_MAX - 1)) :
    ((speed * 1024 * time : Int) : ℚ) / ((1000 * size : Int) : ℚ) ≤ 2147483646 := by
  simp only [INT_MAX] at hfit
  rw [div_le_iff₀ (by exact_mod_cast (by omega : (0 : Int) < 1000 * size))]
  have : ((speed * 1024 * time : Int) : ℚ) ≤ ((1000 * size * (2147483647 - 1) : Int) : ℚ) := by
    exact_mod_cast hfit
  push_cast at this ⊢
  linarith

theorem exact_count_pos (speed time size : Int) (hs : 0 < speed) (ht : 0 < time) (hz : 0 < size) :
    0 < ((speed * 1024 * time : Int) : ℚ) / ((1000 * size : Int) : ℚ) := by
  have h1 : (0 : ℚ) < ((speed * 1024 * time : Int) : ℚ) := by
    exact_mod_cast (by positivity : 0 < speed * 1024 * time)
  have h2 : (0 : ℚ) < ((1000 * size : Int) : ℚ) := by
    exact_mod_cast (by positivity : 0 < 1000 * size)
  exact div_pos h1 h2

/-! ## C3: the derived count and interval -/

set_option maxRecDepth 100000 in
/-- C3, as stated, is false.  For `send speed 25 time 35 size 16` the exact quotient
`25 * 1024 * 35 / (1000 * 16)` is the integer 56, and the code stores the count 57;
for `send speed 25 time 35 size 48` the exact quotient `1000000 * 48 / (25 * 1024)`
is the integer 1875, and the code stores the interval 1874. -/
theorem C3_double_rounding_is_visible :
    (25 * 1024 * 35 : Int) = 56 * (1000 * 16) ∧
    (sendOf (New 0 "send speed 25 time 35 size 16".toList)).map (fun c => c.count_) = some 57 ∧
    (1000000 * 48 : Int) = 1875 * (25 * 1024) ∧
    (sendOf (New 0 "send speed 25 time 35 size 48".toList)).map (fun c => c.interval_)
      = some 1874 := by
  decide

/-- C3, amended: for a send line giving `speed > 0`, `time > 0` and `size > 0`, with
`speed * 1024` and the two exact quotients below `INT_MAX`, `ResolveArgs` stores a
count that differs from `ceil(speed*1024*time / (1000*size))` by at most one and an
interval that differs from `floor(1000000*size / (speed*1024))` by at most one,
whatever `count` and `interval` arguments the line also carries. -/
theorem C3_derivation_within_one (c c1 : SendCommand) (args : CommandArgs)
    (speed time size : Int)
    (hspeed : intArg args "speed" SEND_DEFAULT_SPEED = .ok speed)
    (htime : intArg args "time" SEND_DEFAULT_TIME = .ok time)
    (hsize : intArg args "size" SEND_DEFAULT_SIZE = .ok size)
    (hs : 0 < speed) (ht : 0 < time) (hz : 0 < size)
    (hS : speed * 1024 ≤ INT_MAX)
    (hcount : speed * 1024 * time ≤ 1000 * size * (INT_MAX - 1))
    (hinterval : 1000000 * size ≤ speed * 1024 * (INT_MAX - 1))
    (h : c.ResolveArgs args = .ok c1) :
    |c1.count_ - ⌈((speed * 1024 * time : Int) : ℚ) / ((1000 * size : Int) : ℚ)⌉| ≤ 1 ∧
    |c1.interval_ - ⌊((1000000 * size : Int) : ℚ) / ((speed * 1024 : Int) : ℚ)⌋| ≤ 1 := by
  obtain ⟨hc, hi⟩ := SendCommand_ResolveArgs_speed c c1 args speed time size hspeed htime hsize
    hs ht h
  have ht2 := (intArg_range args "time" _ time (by decide) htime).2
  have hz2 := (intArg_range args "size" _ size (by decide) hsize).2
  obtain ⟨x, hx, _, hx1, hx2⟩ := countFromSpeed_spec speed time size hs hS ht ht2 hz hz2 hcount
  obtain ⟨y, hy, _, hy1, hy2⟩ := intervalFromSpeed_spec speed size hs hS hz hz2 hinterval
  have hE := exact_count_le speed time size hz hcount
  have hE0 := exact_count_pos speed time size hs ht hz
  have hI : ((1000000 * size : Int) : ℚ) / ((speed * 1024 : Int) : ℚ) ≤ 2147483646 := by
    simp only [INT_MAX] at hinterval
    rw [div_le_iff₀ (by exact_mod_cast (by omega : (0 : Int) < speed * 1024))]
    have : ((1000000 * size : Int) : ℚ) ≤ ((speed * 1024 * (2147483647 - 1) : Int) : ℚ) := by
      exact_mod_cast hinterval
    push_cast at this ⊢
    linarith
  have hI0 : 0 < ((1000000 * size : Int) : ℚ) / ((speed * 1024 : Int) : ℚ) := by
    have h1 : (0 : ℚ) < ((1000000 * size : Int) : ℚ) := by
      exact_mod_cast (by positivity : 0 < 1000000 * size)
    have h2 : (0 : ℚ) < ((speed * 1024 : Int) : ℚ) := by
      exact_mod_cast (by positivity : 0 < speed * 1024)
    exact div_pos h1 h2
  rw [hc, hx, hi, hy]
  set E := ((speed * 1024 * time : Int) : ℚ) / ((1000 * size : Int) : ℚ)
  set I := ((1000000 * size : Int) : ℚ) / ((speed * 1024 : Int) : ℚ)
  have hEs : E * (1 / 2 ^ 51) ≤ 1 := by
    have := mul_le_mul_of_nonneg_right hE (show (0 : ℚ) ≤ 1 / 2 ^ 51 by norm_num)
    linarith [show (2147483646 : ℚ) * (1 / 2 ^ 51) ≤ 1 by norm_num]
  have hIs : I * (1 / 2 ^ 51) ≤ 1 := by
    have := mul_le_mul_of_nonneg_right hI (show (0 : ℚ) ≤ 1 / 2 ^ 51 by norm_num)
    linarith [show (2147483646 : ℚ) * (1 / 2 ^ 51) ≤ 1 by norm_num]
  constructor
  · rw [abs_le]
    constructor
    · have : ⌈E - 1⌉ ≤ ⌈x⌉ := Int.ceil_le_ceil (by linarith)
      rw [Int.ceil_sub_one] at this
      omega
    · have : ⌈x⌉ ≤ ⌈E + 1⌉ := Int.ceil_le_ceil (by linarith)
      rw [Int.ceil_add_one] at this
      omega
  · rw [abs_le]
    constructor
    · have : ⌊I - 1⌋ ≤ ⌊y⌋ := Int.floor_le_floor (by linarith)
      rw [Int.floor_sub_one] at this
      omega
    · have : ⌊y⌋ ≤ ⌊I + 1⌋ := Int.floor_le_floor (by linarith)
      rw [Int.floor_add_one] at this
      omega

set_option maxRecDepth 100000 in
/-- Witness for C3 amended: `send speed 500 time 3000 size 1472 count 7 interval 3`
resolves to the count 1044 and the interval 2875. -/
theorem C3_derivation_within_one_witness :
    |({ (SendCommand.new 0 []).1 with count_ := 1044, interval_ := 2875 } : SendCommand).count_
        - ⌈((500 * 1024 * 3000 : Int) : ℚ) / ((1000 * 1472 : Int) : ℚ)⌉| ≤ 1 ∧
    |({ (SendCommand.new 0 []).1 with count_ := 1044, interval_ := 2875 } : SendCommand).interval_
        - ⌊((1000000 * 1472 : Int) : ℚ) / ((500 * 1024 : Int) : ℚ)⌋| ≤ 1 :=
  C3_derivation_within_one (SendCommand.new 0 []).1
    { (SendCommand.new 0 []).1 with count_ := 1044, interval_ := 2875 }
    [("speed".toList, "500".toList), ("time".toList, "3000".toList),
     ("size".toList, "1472".toList), ("count".toList, "7".toList),
     ("interval".toList, "3".toList)]
    500 3000 1472 (by decide) (by decide) (by decide) (by decide) (by decide) (by decide)
    (by decide) (by decide) (by decide) (by decide)

/-! ## C4: the volume bound -/

set_option maxRecDepth 100000 in
/-- C4, as stated, is false: for `send speed 2097152 time 1000 size 1472` the `int`
product `speed * 1024` wraps to `-2147483648`, the count stored is `-1458888`, and
`count * size` is below `speed * 1024 * time / 1000 - size`. -/
theorem C4_speed_product_overflows :
    (sendOf (New 0 "send speed 2097152 time 1000 size 1472".toList)).map
        (fun c => (c.count_, c.size_)) = some (-1458888, 1472) ∧
    (-1458888 : Int) * 1472 < 2097152 * 1024 * 1000 / 1000 - 1472 := by
  decide

/-- C4, amended: for a send line giving `size > 0`, `speed > 0` and `time > 0`, with
`speed * 1024` and the exact quotient `speed*1024*time / (1000*size)` below
`INT_MAX`, the count stored by `ResolveArgs` satisfies
`count * size ≥ speed*1024*time/1000 - size` (with the exact, unrounded quotient). -/
theorem C4_volume_bound (c c1 : SendCommand) (args : CommandArgs) (speed time size : Int)
    (hspeed : intArg args "speed" SEND_DEFAULT_SPEED = .ok speed)
    (htime : intArg args "time" SEND_DEFAULT_TIME = .ok time)
    (hsize : intArg args "size" SEND_DEFAULT_SIZE = .ok size)
    (hs : 0 < speed) (ht : 0 < time) (hz : 0 < size)
    (hS : speed * 1024 ≤ INT_MAX)
    (hcount : speed * 1024 * time ≤ 1000 * size * (INT_MAX - 1))
    (h : c.ResolveArgs args = .ok c1) :
    ((speed * 1024 * time : Int) : ℚ) / 1000 - (size : ℚ) ≤ (c1.count_ : ℚ) * (size : ℚ) := by
  obtain ⟨hc, _⟩ := SendCommand_ResolveArgs_speed c c1 args speed time size hspeed htime hsize
    hs ht h
  have ht2 := (intArg_range args "time" _ time (by decide) htime).2
  have hz2 := (intArg_range args "size" _ size (by decide) hsize).2
  obtain ⟨x, hx, _, hx1, _⟩ := countFromSpeed_spec speed time size hs hS ht ht2 hz hz2 hcount
  have hE := exact_count_le speed time size hz hcount
  have hzq : (0 : ℚ) < (size : ℚ) := by exact_mod_cast hz
  have hEsize : ((speed * 1024 * time : Int) : ℚ) / ((1000 * size : Int) : ℚ) * (size : ℚ)
      = ((speed * 1024 * time : Int) : ℚ) / 1000 := by
    push_cast; field_simp; ring
  rw [hc, hx]
  set E := ((speed * 1024 * time : Int) : ℚ) / ((1000 * size : Int) : ℚ)
  have hEs : E * (1 / 2 ^ 51) ≤ 1 := by
    have := mul_le_mul_of_nonneg_right hE (show (0 : ℚ) ≤ 1 / 2 ^ 51 by norm_num)
    linarith [show (2147483646 : ℚ) * (1 / 2 ^ 51) ≤ 1 by norm_num]
  have h1 : E - 1 ≤ ((⌈x⌉ : Int) : ℚ) := by
    have := Int.le_ceil x
    linarith
  have h2 := mul_le_mul_of_nonneg_right h1 (le_of_lt hzq)
  rw [← hEsize]
  linarith

set_option maxRecDepth 100000 in
/-- Witness for C4 amended: `send speed 500 time 3000 size 1472`, count 1044. -/
theorem C4_volume_bound_witness :
    ((500 * 1024 * 3000 : Int) : ℚ) / 1000 - ((1472 : Int) : ℚ)
      ≤ ((({ (SendCommand.new 0 []).1 with count_ := 1044, interval_ := 2875 } :
            SendCommand).count_ : Int) : ℚ) * ((1472 : Int) : ℚ) :=
  C4_volume_bound (SendCommand.new 0 []).1
    { (SendCommand.new 0 []).1 with count_ := 1044, interval_ := 2875 }
    [("speed".toList, "500".toList), ("time".toList, "3000".toList),
     ("size".toList, "1472".toList)]
    500 3000 1472 (by decide) (by decide) (by decide) (by decide) (by decide) (by decide)
    (by decide) (by decide) (by decide)

/-! ## C5: the duration bound -/

set_option maxRecDepth 100000 in
/-- C5, as stated, is false: `send speed 1000 time 30000 size 1472` resolves to the
count 20870 and the interval 1437, and `|20870 * 1437 - 30000 * 1000| = 9810` is not
below 1437. -/
theorem C5_duration_off_by_more_than_interval :
    (sendOf (New 0 "send speed 1000 time 30000 size 1472".toList)).map
        (fun c => (c.count_, c.interval_)) = some (20870, 1437) ∧
    ¬ (|(20870 : Int) * 1437 - 30000 * 1000| < 1437) := by
  decide

/-- C5, amended: for a send line giving `size > 0`, `speed > 0` and `time > 0`, with
`speed * 1024` and the two exact quotients below `INT_MAX`, the stored count and
interval satisfy `-count ≤ count * interval_us - time * 1000 ≤ interval_us`. -/
theorem C5_duration_bound (c c1 : SendCommand) (args : CommandArgs) (speed time size : Int)
    (hspeed : intArg args "speed" SEND_DEFAULT_SPEED = .ok speed)
    (htime : intArg args "time" SEND_DEFAULT_TIME = .ok time)
    (hsize : intArg args "size" SEND_DEFAULT_SIZE = .ok size)
    (hs : 0 < speed) (ht : 0 < time) (hz : 0 < size)
    (hS : speed * 1024 ≤ INT_MAX)
    (hcount : speed * 1024 * time ≤ 1000 * size * (INT_MAX - 1))
    (hinterval : 1000000 * size ≤ speed * 1024 * (INT_MAX - 1))
    (h : c.ResolveArgs args = .ok c1) :
    -c1.count_ ≤ c1.count_ * c1.interval_ - time * 1000 ∧
    c1.count_ * c1.interval_ - time * 1000 ≤ c1.interval_ := by
  obtain ⟨hc, hi⟩ := SendCommand_ResolveArgs_speed c c1 args speed time size hspeed htime hsize
    hs ht h
  have ht2 := (intArg_range args "time" _ time (by decide) htime).2
  have hz2 := (intArg_range args "size" _ size (by decide) hsize).2
  obtain ⟨x, hx, _, hx1, hx2⟩ := countFromSpeed_spec speed time size hs hS ht ht2 hz hz2 hcount
  obtain ⟨y, hy, hy0, hy1, hy2⟩ := intervalFromSpeed_spec speed size hs hS hz hz2 hinterval
  have hE := exact_count_le speed time size hz hcount
  have hE0 := exact_count_pos speed time size hs ht hz
  have hSq : (0 : ℚ) < ((speed * 1024 : Int) : ℚ) := by
    exact_mod_cast (by positivity : 0 < speed * 1024)
  have hzq : (0 : ℚ) < (size : ℚ) := by exact_mod_cast hz
  have hI0 : 0 < ((1000000 * size : Int) : ℚ) / ((speed * 1024 : Int) : ℚ) := by
    have h1 : (0 : ℚ) < ((1000000 * size : Int) : ℚ) := by
      exact_mod_cast (by positivity : 0 < 1000000 * size)
    exact div_pos h1 hSq
  have hEI : ((speed * 1024 * time : Int) : ℚ) / ((1000 * size : Int) : ℚ)
      * (((1000000 * size : Int) : ℚ) / ((speed * 1024 : Int) : ℚ)) = ((time * 1000 : Int) : ℚ) := by
    have hsq : (speed : ℚ) ≠ 0 := by exact_mod_cast (ne_of_gt hs)
    push_cast
    field_simp
    ring
  have hm : ((time * 1000 : Int) : ℚ) ≤ 2 ^ 41 := by
    simp only [INT_MAX] at ht2
    have : ((time * 1000 : Int) : ℚ) ≤ ((2147483647 * 1000 : Int) : ℚ) := by
      exact_mod_cast (by omega : time * 1000 ≤ 2147483647 * 1000)
    push_cast at this ⊢
    linarith [show (2147483647 * 1000 : ℚ) ≤ 2 ^ 41 by norm_num]
  have := duration_core _ _ x y (time * 1000) hE0 hI0 hEI hm
    (le_trans hE (by norm_num)) hx1 hx2 hy0 hy1 hy2
  rw [hc, hx, hi, hy]
  exact this

set_option maxRecDepth 100000 in
/-- Witness for C5 amended: `send speed 1000 time 30000 size 1472` resolves to the
count 20870 and the interval 1437. -/
theorem C5_duration_bound_witness :
    -({ (SendCommand.new 0 []).1 with count_ := 20870, interval_ := 1437 } : SendCommand).count_
      ≤ ({ (SendCommand.new 0 []).1 with count_ := 20870, interval_ := 1437 } : SendCommand).count_
        * ({ (SendCommand.new 0 []).1 with count_ := 20870, interval_ := 1437 } :
            SendCommand).interval_ - 30000 * 1000 ∧
    ({ (SendCommand.new 0 []).1 with count_ := 20870, interval_ := 1437 } : SendCommand).count_
        * ({ (SendCommand.new 0 []).1 with count_ := 20870, interval_ := 1437 } :
            SendCommand).interval_ - 30000 * 1000
      ≤ ({ (SendCommand.new 0 []).1 with count_ := 20870, interval_ := 1437 } :
            SendCommand).interval_ :=
  C5_duration_bound (SendCommand.new 0 []).1
    { (SendCommand.new 0 []).1 with count_ := 20870, interval_ := 1437 }
    [("speed".toList, "1000".toList), ("time".toList, "30000".toList),
     ("size".toList, "1472".toList)]
    1000 30000 1472 (by decide) (by decide) (by decide) (by decide) (by decide) (by decide)
    (by decide) (by decide) (by decide) (by decide)

/-! ## C6: the count derived for `send speed 500 time 3000 size 1472` -/

set_option maxRecDepth 100000 in
theorem send_500_3000_1472_count (index : Nat) :
    (sendOf (New index "send speed 500 time 3000 size 1472".toList)).map (fun c => c.count_)
      = some 1044 := by
  rfl

/-- C6, as stated, is false: whatever the token counter, the line
`send speed 500 time 3000 size 1472` does not parse to a Send command whose count
is 1020. -/
theorem C6_count_is_not_1020 :
    ¬ ∃ index c, sendOf (New index "send speed 500 time 3000 size 1472".toList) = some c ∧
      c.count_ = 1020 := by
  rintro ⟨index, c, hc, h⟩
  have := send_500_3000_1472_count index
  rw [hc] at this
  simp only [Option.map_some', Option.some.injEq] at this
  omega

/-- C6, amended: the line `send speed 500 time 3000 size 1472` parses to a Send
command whose count is 1044, the ceiling of `500 * 1024 * 3 / 1472`. -/
theorem C6_count_is_1044 (index : Nat) :
    ∃ c, sendOf (New index "send speed 500 time 3000 size 1472".toList) = some c ∧
      c.count_ = 1044 := by
  have := send_500_3000_1472_count index
  rcases h : sendOf (New index "send speed 500 time 3000 size 1472".toList) with _ | c
  · rw [h] at this; simp at this
  · rw [h] at this
    exact ⟨c, rfl, by simpa using this⟩

/-! ## C7: tokens are drawn round-robin, on an 8-bit counter -/

set_option maxRecDepth 1000000 in
/-- C7, as stated, is false: after 256 `ping` lines (commands number 0 to 255) the
next `ping`, command number 256, carries the token `a`, while character number
`256 mod 62 = 8` of the alphabet is `i`. -/
theorem C7_token_after_256_commands :
    ((List.replicate 256 "ping".toList).filter constructsMeasurement).length = 256 ∧
    (echoOf (New (indexAfter 0 (List.replicate 256 "ping".toList)) "ping".toList)).map
      (fun c => c.token) = some 'a' ∧
    VISIABLE_LATTERS.getD (256 % 62) '$' = 'i' := by
  decide

/-- C7, amended: the measurement command constructed after `k` earlier ones in the
same process, from a line without a `token` argument, has the token at position
`(k mod 256) mod 62` of the alphabet: the counter is an `unsigned char`. -/
theorem C7_token_round_robin_mod_256 (lines : List Str) (cmd : Str) (c : AnyCommand)
    (t : Char) (i : Nat)
    (h : New (indexAfter 0 lines) cmd = (.ok (some c), i))
    (ht : measurementToken c = some t)
    (hno : ∀ args, parseArgs (words cmd).tail [] [] = some args →
      args.get "token".toList = []) :
    t = VISIABLE_LATTERS.getD (((lines.filter constructsMeasurement).length % 256) % 62) '$' := by
  have := New_token_of_no_token_arg _ _ _ _ _ h ht hno
  rw [this, indexAfter_eq lines 0 (by norm_num)]
  simp [UpdateToken, VISIABLE_LATTERS]

set_option maxRecDepth 100000 in
/-- Witness for C7 amended: the third `ping` of a process gets the token `c`. -/
theorem C7_token_round_robin_mod_256_witness :
    'c' = VISIABLE_LATTERS.getD
      (((["ping".toList, "send count 3".toList].filter constructsMeasurement).length % 256) % 62)
      '$' :=
  C7_token_round_robin_mod_256 ["ping".toList, "send count 3".toList] "ping".toList
    (.echo { toCommand := { name := "ping".toList, cmd := "ping".toList, token := 'c',
                            is_private := false, is_multicast := false },
             count_ := 5, interval_ := 200000, size_ := 32, wait_ := 500000, timeout_ := 100 })
    'c' 3 (by decide) (by decide) (by
      intro args h
      have : parseArgs (words "ping".toList).tail [] [] = some [] := by decide
      rw [this] at h
      cases h
      decide)

/-! ## C8: the receive engines count a datagram whatever its token -/

set_option maxRecDepth 100000 in
/-- C8 at a failing input.  A datagram of 16 bytes whose header token is `b` reaches
the receive engines of a command whose token is `a`: `RecvCommandReceiver::Recv`
moves `recv_count_` from 0 to 1 and `recv_bytes_` from 0 to 16, and
`EchoCommandReceiver::Recv` moves `recv_count_` from 0 to 1. -/
theorem C8_foreign_token_is_counted :
    headerToken "012345670101b...".toList = some 'b' ∧
    (RecvCommandReceiver.new 'a' ⟨true, false, false⟩).token = 'a' ∧
    ((RecvCommandReceiver.new 'a' ⟨true, false, false⟩).Recv
        (some "012345670101b...".toList) 5 6 7).1.recv_count_ = 1 ∧
    ((RecvCommandReceiver.new 'a' ⟨true, false, false⟩).Recv
        (some "012345670101b...".toList) 5 6 7).1.recv_bytes_ = 16 ∧
    ((EchoCommandReceiver.new ⟨true, false, false⟩).Recv
        (some "012345670101b...".toList)).1.recv_count_ = 1 := by
  decide

/-! ## C9 and C10: the echo receiver -/

theorem drain_all_ok (q : List Str) :
    ∀ ok : Nat → Bool, (∀ i, ok i = true) → (EchoCommandReceiver.drain q ok).1 = q ∧
      (EchoCommandReceiver.drain q ok).2.1 = [] := by
  induction q with
  | nil => intro ok _; simp [EchoCommandReceiver.drain]
  | cons buf q ih =>
    intro ok h
    have := ih (fun i => ok (i + 1)) (fun i => h (i + 1))
    simp [EchoCommandReceiver.drain, h 0, this.1, this.2]

theorem drain_split (q : List Str) :
    ∀ ok : Nat → Bool,
      q = (EchoCommandReceiver.drain q ok).1 ++ (EchoCommandReceiver.drain q ok).2.1 := by
  induction q with
  | nil => intro ok; simp [EchoCommandReceiver.drain]
  | cons buf q ih =>
    intro ok
    by_cases h : ok 0 = true
    · have := ih (fun i => ok (i + 1))
      simp only [EchoCommandReceiver.drain, h, if_true, List.cons_append]
      rw [← this]
    · simp [EchoCommandReceiver.drain, h]

theorem delivered_append (xs ys : List EchoCall) :
    delivered (xs ++ ys) = delivered xs ++ delivered ys := by
  induction xs with
  | nil => simp [delivered]
  | cons c xs ih =>
    cases c with
    | Recv got => cases got <;> simp [delivered, ih]
    | Start => simp [delivered, ih]
    | Stop => simp [delivered, ih]
    | Send ok => simp [delivered, ih]

/-- Whatever the sockets do, what was received is what was written followed by what
is still queued. -/
theorem echo_run_queue (calls : List EchoCall) :
    ∀ (w : EchoRun) (seen : List Str), seen = w.wire ++ w.receiver.data_queue_ →
      seen ++ delivered calls = (w.run calls).wire ++ (w.run calls).receiver.data_queue_ := by
  induction calls with
  | nil => intro w seen h; simp [EchoRun.run, delivered, h]
  | cons c calls ih =>
    intro w seen h
    have hrun : w.run (c :: calls) = (w.step c).run calls := by simp [EchoRun.run]
    rw [hrun]
    cases c with
    | Start =>
      have := ih (w.step .Start) seen (by simpa [EchoRun.step, EchoCommandReceiver.Start] using h)
      simpa [delivered] using this
    | Stop =>
      have := ih (w.step .Stop) seen (by simpa [EchoRun.step, EchoCommandReceiver.Stop] using h)
      simpa [delivered] using this
    | Recv got =>
      cases got with
      | none =>
        have := ih (w.step (.Recv none)) seen
          (by simpa [EchoRun.step, EchoCommandReceiver.Recv] using h)
        simpa [delivered] using this
      | some buf =>
        have := ih (w.step (.Recv (some buf))) (seen ++ [buf])
          (by simp [EchoRun.step, EchoCommandReceiver.Recv, h])
        simpa [delivered] using this
    | Send ok =>
      have := ih (w.step (.Send ok)) seen (by
        simp only [EchoRun.step, EchoCommandReceiver.Send, List.append_assoc]
        rw [← drain_split]
        exact h)
      simpa [delivered] using this

/-- The two counters count the datagrams received and the datagrams written. -/
theorem echo_run_counts (calls : List EchoCall) :
    ∀ (w : EchoRun) (n : Nat), w.receiver.recv_count_ = (n : Int) →
      w.receiver.send_count_ = (w.wire.length : Int) →
      (w.run calls).receiver.recv_count_ = ((n + (delivered calls).length : Nat) : Int) ∧
      (w.run calls).receiver.send_count_ = ((w.run calls).wire.length : Int) := by
  induction calls with
  | nil => intro w n h1 h2; simp [EchoRun.run, delivered, h1, h2]
  | cons c calls ih =>
    intro w n h1 h2
    have hrun : w.run (c :: calls) = (w.step c).run calls := by simp [EchoRun.run]
    rw [hrun]
    cases c with
    | Start =>
      have := ih (w.step .Start) n (by simpa [EchoRun.step, EchoCommandReceiver.Start] using h1)
        (by simpa [EchoRun.step, EchoCommandReceiver.Start] using h2)
      simpa [delivered] using this
    | Stop =>
      have := ih (w.step .Stop) n (by simpa [EchoRun.step, EchoCommandReceiver.Stop] using h1)
        (by simpa [EchoRun.step, EchoCommandReceiver.Stop] using h2)
      simpa [delivered] using this
    | Recv got =>
      cases got with
      | none =>
        have := ih (w.step (.Recv none)) n
          (by simpa [EchoRun.step, EchoCommandReceiver.Recv] using h1)
          (by simpa [EchoRun.step, EchoCommandReceiver.Recv] using h2)
        simpa [delivered] using this
      | some buf =>
        have := ih (w.step (.Recv (some buf))) (n + 1)
          (by simp [EchoRun.step, EchoCommandReceiver.Recv, h1])
          (by simpa [EchoRun.step, EchoCommandReceiver.Recv] using h2)
        simp only [delivered, List.length_cons]
        rw [show n + ((delivered calls).length + 1) = n + 1 + (delivered calls).length by omega]
        exact this
    | Send ok =>
      have := ih (w.step (.Send ok)) n
        (by simpa [EchoRun.step, EchoCommandReceiver.Send] using h1)
        (by simp [EchoRun.step, EchoCommandReceiver.Send, h2])
      simpa [delivered] using this

/-- C9: in every trace of calls on an echo receiver in which every socket operation
succeeds, the datagrams written to the data socket are a leading part of the
datagrams received, byte for byte and in arrival order, and they are all of them
whenever the last call is a `Send`. -/
theorem C9_echo_replies_verbatim_in_order (ctx : FdInterest) (calls : List EchoCall)
    (hok : ∀ c ∈ calls, c.succeeds) :
    (∃ rest, delivered calls =
        (EchoRun.run ⟨EchoCommandReceiver.new ctx, []⟩ calls).wire ++ rest) ∧
    (∀ before ok, calls = before ++ [EchoCall.Send ok] →
      (EchoRun.run ⟨EchoCommandReceiver.new ctx, []⟩ calls).wire = delivered calls) := by
  have hq := echo_run_queue calls ⟨EchoCommandReceiver.new ctx, []⟩ []
    (by simp [EchoCommandReceiver.new])
  simp only [List.nil_append] at hq
  refine ⟨⟨_, hq⟩, ?_⟩
  intro before ok hcalls
  have hall : ∀ i, ok i = true := by
    have := hok (EchoCall.Send ok) (by simp [hcalls])
    simpa [EchoCall.succeeds] using this
  have hempty : (EchoRun.run ⟨EchoCommandReceiver.new ctx, []⟩ calls).receiver.data_queue_
      = [] := by
    rw [hcalls]
    simp only [EchoRun.run, List.foldl_append, List.foldl_cons, List.foldl_nil, EchoRun.step,
      EchoCommandReceiver.Send]
    exact (drain_all_ok _ ok hall).2
  rw [hq, hempty, List.append_nil]

/-- Witness for C9: two datagrams are received, then echoed by one `Send`. -/
theorem C9_echo_replies_verbatim_in_order_witness :
    (∃ rest, delivered [.Recv (some "ab".toList), .Recv (some "c".toList), .Send (fun _ => true)] =
        (EchoRun.run ⟨EchoCommandReceiver.new ⟨true, false, false⟩, []⟩
          [.Recv (some "ab".toList), .Recv (some "c".toList), .Send (fun _ => true)]).wire
          ++ rest) ∧
    (∀ before ok,
      [EchoCall.Recv (some "ab".toList), .Recv (some "c".toList), .Send (fun _ => true)]
        = before ++ [EchoCall.Send ok] →
      (EchoRun.run ⟨EchoCommandReceiver.new ⟨true, false, false⟩, []⟩
        [.Recv (some "ab".toList), .Recv (some "c".toList), .Send (fun _ => true)]).wire
        = delivered [.Recv (some "ab".toList), .Recv (some "c".toList), .Send (fun _ => true)]) :=
  C9_echo_replies_verbatim_in_order ⟨true, false, false⟩
    [.Recv (some "ab".toList), .Recv (some "c".toList), .Send (fun _ => true)]
    (by
      intro c hc
      simp only [List.mem_cons, List.mem_singleton, List.not_mem_nil, or_false] at hc
      rcases hc with rfl | rfl | rfl <;> simp [EchoCall.succeeds])

/-- C10: after any trace of calls, whatever the sockets did, the record that
`SendPrivateCommand` serialises into the `Result` has `recv_packets` equal to the
number of datagrams received by the successful `Recv` calls, `send_packets` equal to
the number of datagrams written by `Send`, and every other field zero. -/
theorem C10_echo_receiver_report (fmt : Double → Str) (istty : Bool) (ctx : FdInterest)
    (calls : List EchoCall) (sent : Option Nat) :
    (EchoRun.run ⟨EchoCommandReceiver.new ctx, []⟩ calls).receiver.reportStat
      = { NetStat.zero with
          recv_packets := ((delivered calls).length : Int),
          send_packets :=
            ((EchoRun.run ⟨EchoCommandReceiver.new ctx, []⟩ calls).wire.length : Int) } ∧
    (EchoCommandReceiver.SendPrivateCommand fmt istty
        (EchoRun.run ⟨EchoCommandReceiver.new ctx, []⟩ calls).receiver sent).2.1
      = ResultCommand.Serialize fmt istty
          (EchoRun.run ⟨EchoCommandReceiver.new ctx, []⟩ calls).receiver.reportStat := by
  have h := echo_run_counts calls ⟨EchoCommandReceiver.new ctx, []⟩ 0
    (by simp [EchoCommandReceiver.new]) (by simp [EchoCommandReceiver.new])
  refine ⟨?_, rfl⟩
  simp only [EchoCommandReceiver.reportStat, h.1, h.2, Nat.zero_add]

/-! ## C11: `operator+=` member by member

### Machine sums that fit their type -/

theorem wrap64_of_range (n : Int) (h : LLONG_MIN ≤ n ∧ n ≤ LLONG_MAX) : wrap64 n = n := by
  simp only [LLONG_MIN, LLONG_MAX] at h
  unfold wrap64
  omega

theorem wrap32_of_range (n : Int) (h : INT_MIN ≤ n ∧ n ≤ INT_MAX) : wrap32 n = n := by
  simp only [INT_MIN, INT_MAX] at h
  unfold wrap32
  omega

/-- Two lists of members combined with the sums taken in the C++ types are combined
with the exact sums when these fit the types. -/
theorem zipWith_machine_eq (l1 l2 : List (String × Int × Bool)) :
    FieldsInRange (List.zipWith
      (fun fa fb =>
        (fa.1,
         if isMaxName fa.1 then max fa.2.1 fb.2.1
         else if isMinName fa.1 then min fa.2.1 fb.2.1 else fa.2.1 + fb.2.1,
         fa.2.2)) l1 l2) →
    List.zipWith
      (fun fa fb =>
        (fa.1,
         if isMaxName fa.1 then max fa.2.1 fb.2.1
         else if isMinName fa.1 then min fa.2.1 fb.2.1
         else if fa.2.2 then wrap64 (fa.2.1 + fb.2.1) else wrap32 (fa.2.1 + fb.2.1),
         fa.2.2)) l1 l2
    = List.zipWith
      (fun fa fb =>
        (fa.1,
         if isMaxName fa.1 then max fa.2.1 fb.2.1
         else if isMinName fa.1 then min fa.2.1 fb.2.1 else fa.2.1 + fb.2.1,
         fa.2.2)) l1 l2 := by
  induction l1 generalizing l2 with
  | nil => intro _; simp
  | cons x xs ih =>
    intro h
    cases l2 with
    | nil => simp
    | cons y ys =>
      simp only [List.zipWith_cons_cons] at h ⊢
      have hx := h _ (List.mem_cons_self _ _)
      have hrest := ih ys (fun f hf => h f (List.mem_cons_of_mem _ hf))
      rw [hrest]
      congr 1
      dsimp only at hx
      cases h1 : isMaxName x.1 with
      | true => simp only [if_true]
      | false =>
        cases h2 : isMinName x.1 with
        | true => simp only [if_true, Bool.false_eq_true, if_false]
        | false =>
          simp only [h1, h2, Bool.false_eq_true, if_false] at hx ⊢
          cases h3 : x.2.2 with
          | true =>
            simp only [h3, if_true] at hx ⊢
            rw [wrap64_of_range _ hx]
          | false =>
            simp only [h3, Bool.false_eq_true, if_false] at hx ⊢
            rw [wrap32_of_range _ hx]

/-- A record is determined by `loss` and the list of its integer members: the list
covers the 31 members other than `loss`. -/
theorem NetStat_eq_of_fields (s t : NetStat) (hl : s.loss = t.loss)
    (hf : s.intFields = t.intFields) : s = t := by
  cases s
  cases t
  simp only [NetStat.intFields, List.cons.injEq, Prod.mk.injEq, true_and, and_true] at hf
  simp only at hl
  simp only [NetStat.mk.injEq]
  tauto

/-! ### The sum of two `double`s -/

theorem two_zpow_sub_toNat (a b : Int) (h : b ≤ a) :
    (((2 : Int) ^ (a - b).toNat : Int) : ℚ) * (2 : ℚ) ^ b = (2 : ℚ) ^ a := by
  have h1 : (((a - b).toNat : Nat) : Int) = a - b := Int.toNat_of_nonneg (by omega)
  rw [Int.cast_pow, Int.cast_ofNat, ← zpow_natCast, h1, ← zpow_add₀ (by norm_num)]
  congr 1
  ring

/-- The exact value that `Double.add` rounds. -/
theorem add_value_eq (m1 e1 m2 e2 : Int) :
    ((m1 * 2 ^ (e1 - min e1 e2).toNat + m2 * 2 ^ (e2 - min e1 e2).toNat : Int) : ℚ) / (1 : Nat)
        * (2 : ℚ) ^ (min e1 e2)
      = (m1 : ℚ) * (2 : ℚ) ^ e1 + (m2 : ℚ) * (2 : ℚ) ^ e2 := by
  have h1 := two_zpow_sub_toNat e1 (min e1 e2) (min_le_left _ _)
  have h2 := two_zpow_sub_toNat e2 (min e1 e2) (min_le_right _ _)
  rw [Nat.cast_one, div_one, Int.cast_add, Int.cast_mul, Int.cast_mul, add_mul, mul_assoc,
    mul_assoc, h1, h2]

/-- Relative error of a `double` addition in the normal range: at most `2 ^ (-53)`. -/
theorem add_rel (x y : Double) (p q : ℚ) (hx : x.HasValue p) (hy : y.HasValue q)
    (hlo : (2 : ℚ) ^ (-1022 : Int) ≤ |p + q|) (hhi : |p + q| < (2 : ℚ) ^ (1023 : Int)) :
    ∃ r, (Double.add x y).HasValue r ∧ |r - (p + q)| ≤ |p + q| * (2 : ℚ) ^ (-53 : Int) := by
  obtain ⟨m1, e1, rfl, h1⟩ := hx
  obtain ⟨m2, e2, rfl, h2⟩ := hy
  have hv := add_value_eq m1 e1 m2 e2
  rw [h1, h2] at hv
  have hn : m1 * 2 ^ (e1 - min e1 e2).toNat + m2 * 2 ^ (e2 - min e1 e2).toNat ≠ 0 := by
    intro h0
    rw [h0] at hv
    have : p + q = 0 := by rw [← hv]; simp
    rw [this, abs_zero] at hlo
    exact absurd hlo (not_le.mpr (zpow_pos (by norm_num) _))
  have := roundRatio_rel _ 1 (min e1 e2) hn (by norm_num) (by rw [hv]; exact hlo)
    (by rw [hv]; exact hhi)
  rw [hv] at this
  exact this

/-! ### The claim -/

set_option maxRecDepth 100000 in
/-- C11, as stated, is false where a sum does not fit its type: every member of both
operands is in the range of its type, `peers_count` is `2147483647` and `1`, and the
member is `-2147483648` after `a += b`; and the `double` sum of the losses
`9007199254740992` and `1` is `9007199254740992`. -/
theorem C11_sum_that_does_not_fit :
    NetStat.InRange { NetStat.zero with peers_count := 2147483647 } ∧
    NetStat.InRange { NetStat.zero with peers_count := 1 } ∧
    (NetStat.add { NetStat.zero with peers_count := 2147483647 }
        { NetStat.zero with peers_count := 1 }).peers_count = -2147483648 ∧
    (NetStat.add { NetStat.zero with peers_count := 2147483647 }
        { NetStat.zero with peers_count := 1 }).intFields
      ≠ elementwiseSum { NetStat.zero with peers_count := 2147483647 }
        { NetStat.zero with peers_count := 1 } ∧
    (NetStat.add { NetStat.zero with loss := Double.ofInt 9007199254740992 }
        { NetStat.zero with loss := Double.ofInt 1 }).loss = Double.ofInt 9007199254740992 := by
  refine ⟨?_, ?_, ?_, ?_, ?_⟩
  · unfold NetStat.InRange; decide
  · unfold NetStat.InRange; decide
  · decide
  · decide
  · decide

/-- C11, amended.  After `a += b` every `max_*` member is the maximum of the two
operands' members, every `min_*` member the minimum, and every other integer member
the sum taken in the member's type, which is the sum itself when it fits the type;
`loss` is the `double` sum, within `2 ^ (-53)` (relative) of the exact sum in the
normal range.  The 31 integer members and `loss` are all the members of the record. -/
theorem C11_sum_member_by_member (a b : NetStat) :
    (a.add b).intFields = elementwiseMachineSum a b ∧
    (FieldsInRange (elementwiseSum a b) → (a.add b).intFields = elementwiseSum a b) ∧
    (a.add b).loss = Double.add a.loss b.loss ∧
    (∀ p q : ℚ, a.loss.HasValue p → b.loss.HasValue q →
      (2 : ℚ) ^ (-1022 : Int) ≤ |p + q| → |p + q| < (2 : ℚ) ^ (1023 : Int) →
      ∃ r, (a.add b).loss.HasValue r ∧ |r - (p + q)| ≤ |p + q| * (2 : ℚ) ^ (-53 : Int)) ∧
    (a.add b).intFields.length = 31 ∧
    (∀ s t : NetStat, s.loss = t.loss → s.intFields = t.intFields → s = t) := by
  refine ⟨rfl, ?_, rfl, ?_, rfl, NetStat_eq_of_fields⟩
  · intro h
    exact (show (a.add b).intFields = elementwiseMachineSum a b from rfl).trans
      (zipWith_machine_eq a.intFields b.intFields h)
  · intro p q hp hq hlo hhi
    exact add_rel a.loss b.loss p q hp hq hlo hhi

set_option maxRecDepth 100000 in
/-- Witness for C11 amended: two records whose sums fit. -/
theorem C11_sum_member_by_member_witness :
    FieldsInRange (elementwiseSum
      { NetStat.zero with delay := 7, max_delay := 9, min_delay := 2, send_bytes := 4416 }
      { NetStat.zero with delay := 5, max_delay := 11, min_delay := 3, send_bytes := 1472 }) ∧
    (NetStat.add
      { NetStat.zero with delay := 7, max_delay := 9, min_delay := 2, send_bytes := 4416 }
      { NetStat.zero with delay := 5, max_delay := 11, min_delay := 3, send_bytes := 1472 }).intFields
      = elementwiseSum
      { NetStat.zero with delay := 7, max_delay := 9, min_delay := 2, send_bytes := 4416 }
      { NetStat.zero with delay := 5, max_delay := 11, min_delay := 3, send_bytes := 1472 } :=
  ⟨by unfold FieldsInRange; decide,
   (C11_sum_member_by_member
      { NetStat.zero with delay := 7, max_delay := 9, min_delay := 2, send_bytes := 4416 }
      { NetStat.zero with delay := 5, max_delay := 11, min_delay := 3, send_bytes := 1472 }).2.1
     (by unfold FieldsInRange; decide)⟩

/-! ## C12: the algebra of `operator+=`

### Roundings that are exact -/

/-- A quotient whose exact value is `M * 2 ^ E` with `|M| < 2 ^ 53` and `E` in the
exponent range of the format is not changed by the rounding. -/
theorem roundRatio_dyadic (n : Int) (d : Nat) (k : Int) (hd : 0 < d) (M E : Int)
    (hq : (n : ℚ) / d * (2 : ℚ) ^ k = (M : ℚ) * (2 : ℚ) ^ E) (hM : |M| < 2 ^ 53)
    (hE1 : -1074 ≤ E) (hE2 : E ≤ 971) :
    (roundRatio n d k).HasValue ((M : ℚ) * (2 : ℚ) ^ E) := by
  have hdq : (0 : ℚ) < d := by exact_mod_cast hd
  have hk : (0 : ℚ) < (2 : ℚ) ^ k := zpow_pos (by norm_num) _
  have hEp : (0 : ℚ) < (2 : ℚ) ^ E := zpow_pos (by norm_num) _
  by_cases hn : n = 0
  · subst hn
    have hM0 : (M : ℚ) = 0 := by
      have h0 : (M : ℚ) * (2 : ℚ) ^ E = 0 := by rw [← hq]; simp
      rcases mul_eq_zero.mp h0 with h | h
      · exact h
      · exact absurd h (ne_of_gt hEp)
    exact ⟨0, 0, by simp [roundRatio], by rw [hM0]; simp⟩
  have hM0 : M ≠ 0 := by
    intro h
    rw [h] at hq
    have hnq : (n : ℚ) ≠ 0 := by exact_mod_cast hn
    have : (n : ℚ) / d * (2 : ℚ) ^ k ≠ 0 :=
      mul_ne_zero (div_ne_zero hnq (ne_of_gt hdq)) (ne_of_gt hk)
    exact this (by rw [hq]; simp)
  obtain ⟨hb1, hb2⟩ := expo_bracket n d k hn hd
  rw [hq] at hb1 hb2
  have h2 : (1 : ℚ) < 2 := by norm_num
  have hM53 : |(M : ℚ)| < (2 : ℚ) ^ (53 : Int) := by
    have : ((|M| : Int) : ℚ) < ((2 ^ 53 : Int) : ℚ) := by exact_mod_cast hM
    rw [Int.cast_abs] at this
    rw [show ((53 : Int)) = ((53 : Nat) : Int) by norm_num, zpow_natCast]
    exact_mod_cast this
  have habsv : |(M : ℚ) * (2 : ℚ) ^ E| = |(M : ℚ)| * (2 : ℚ) ^ E := by
    rw [abs_mul, abs_of_pos hEp]
  have he1 : expo n.natAbs d + k < 53 + E := by
    have : (2 : ℚ) ^ (expo n.natAbs d + k) < (2 : ℚ) ^ (53 + E) := by
      rw [show (2 : ℚ) ^ (53 + E) = (2 : ℚ) ^ (53 : Int) * (2 : ℚ) ^ E from
        zpow_add₀ (by norm_num) _ _]
      calc (2 : ℚ) ^ (expo n.natAbs d + k) ≤ |(M : ℚ) * (2 : ℚ) ^ E| := hb1
        _ = |(M : ℚ)| * (2 : ℚ) ^ E := habsv
        _ < (2 : ℚ) ^ (53 : Int) * (2 : ℚ) ^ E := mul_lt_mul_of_pos_right hM53 hEp
    exact (zpow_lt_zpow_iff_right₀ h2).mp this
  have hu : ulpExp n.natAbs d k ≤ E := by
    unfold ulpExp
    exact max_le (by omega) hE1
  have hul : -1074 ≤ ulpExp n.natAbs d k := ulpExp_ge _ _ _
  -- the significand
  have hEu : (((2 : Int) ^ (E - ulpExp n.natAbs d k).toNat : Int) : ℚ)
      * (2 : ℚ) ^ (ulpExp n.natAbs d k) = (2 : ℚ) ^ E := two_zpow_sub_toNat E _ hu
  have hpow : (0 : ℚ) < (2 : ℚ) ^ (ulpExp n.natAbs d k) := zpow_pos (by norm_num) _
  have habs : (n.natAbs : ℚ) / d * (2 : ℚ) ^ k = (M.natAbs : ℚ) * (2 : ℚ) ^ E := by
    rw [natAbs_cast_abs, natAbs_cast_abs, ← habsv, ← hq, abs_mul, abs_div, abs_of_pos hk,
      abs_of_pos hdq]
  have hm : roundMant n.natAbs d k = M.natAbs * 2 ^ (E - ulpExp n.natAbs d k).toNat := by
    apply roundMant_exact n.natAbs d k hd
    rw [show k - ulpExp n.natAbs d k = k + -ulpExp n.natAbs d k by ring, zpow_add₀ (by norm_num),
      ← mul_assoc, habs, ← hEu]
    push_cast
    rw [zpow_neg]
    field_simp
    ring
  have hval : ((M.natAbs * 2 ^ (E - ulpExp n.natAbs d k).toNat : Nat) : ℚ)
      * (2 : ℚ) ^ ulpExp n.natAbs d k = (M.natAbs : ℚ) * (2 : ℚ) ^ E := by
    rw [← hEu]
    push_cast
    ring
  have hfin : roundRatio n d k =
      .fin (if n < 0 then -(roundMant n.natAbs d k : Int) else (roundMant n.natAbs d k : Int))
        (ulpExp n.natAbs d k) := by
    unfold roundRatio
    rw [if_neg hn, if_neg]
    intro hc
    rcases hc with hc | ⟨hc1, hc2⟩
    · omega
    · have hEeq : E = ulpExp n.natAbs d k := by omega
      rw [hm, ← hEeq, sub_self] at hc2
      simp only [Int.toNat_zero, pow_zero, mul_one] at hc2
      have : (M.natAbs : Int) = |M| := Int.natCast_natAbs M
      have h3 : ((M.natAbs : Nat) : Int) = 2 ^ 53 := by rw [hc2]; norm_num
      omega
  rw [hfin, hm]
  refine ⟨_, _, rfl, ?_⟩
  have hsign : (n < 0) ↔ (M < 0) := by
    have hq' : (M : ℚ) = (n : ℚ) * ((2 : ℚ) ^ k / d / (2 : ℚ) ^ E) := by
      have h1 : (M : ℚ) = ((n : ℚ) / d * (2 : ℚ) ^ k) / (2 : ℚ) ^ E := by
        rw [hq]; field_simp
      rw [h1]; ring
    have hpos : (0 : ℚ) < (2 : ℚ) ^ k / d / (2 : ℚ) ^ E := div_pos (div_pos hk hdq) hEp
    constructor
    · intro h
      have : (M : ℚ) < 0 := by
        rw [hq']; exact mul_neg_of_neg_of_pos (by exact_mod_cast h) hpos
      exact_mod_cast this
    · intro h
      by_contra hc
      have hn0 : (0 : ℚ) ≤ n := by exact_mod_cast (not_lt.mp hc)
      have : (0 : ℚ) ≤ M := by rw [hq']; exact mul_nonneg hn0 (le_of_lt hpos)
      have : (0 : Int) ≤ M := by exact_mod_cast this
      omega
  by_cases hneg : n < 0
  · rw [if_pos hneg]
    have hzneg := hsign.mp hneg
    rw [Int.cast_neg, Int.cast_natCast, neg_mul, hval, natAbs_cast_abs,
      abs_of_neg (by exact_mod_cast hzneg)]
    ring
  · rw [if_neg hneg]
    have hzpos : ¬ M < 0 := fun h => hneg (hsign.mpr h)
    rw [Int.cast_natCast, hval, natAbs_cast_abs,
      abs_of_nonneg (by exact_mod_cast (not_lt.mp hzpos))]

/-! ### The rounding depends on the exact value only -/

theorem pow_bracket_unique (v : ℚ) (a b : Int) (ha1 : (2 : ℚ) ^ a ≤ v)
    (ha2 : v < (2 : ℚ) ^ (a + 1)) (hb1 : (2 : ℚ) ^ b ≤ v) (hb2 : v < (2 : ℚ) ^ (b + 1)) :
    a = b := by
  have h2 : (1 : ℚ) < 2 := by norm_num
  have h1 : a < b + 1 := (zpow_lt_zpow_iff_right₀ h2).mp (lt_of_le_of_lt ha1 hb2)
  have h3 : b < a + 1 := (zpow_lt_zpow_iff_right₀ h2).mp (lt_of_le_of_lt hb1 ha2)
  omega

theorem roundHalfEven_congr (a b a' b' : Nat) (hb : 0 < b) (hb' : 0 < b')
    (h : a * b' = a' * b) : roundHalfEven a b = roundHalfEven a' b' := by
  have hdm := Nat.div_add_mod a b
  have hdm' := Nat.div_add_mod a' b'
  have hr := Nat.mod_lt a hb
  have hr' := Nat.mod_lt a' hb'
  have hq : a / b = a' / b' := by
    apply Nat.div_eq_of_lt_le
    · apply Nat.le_of_mul_le_mul_right _ hb'
      calc a' / b' * b * b' = (b' * (a' / b')) * b := by ring
        _ ≤ a' * b := Nat.mul_le_mul_right _ (by omega)
        _ = a * b' := h.symm
    · apply Nat.lt_of_mul_lt_mul_right (a := b')
      calc a * b' = a' * b := h
        _ < (b' * (a' / b') + b') * b := Nat.mul_lt_mul_of_pos_right (by omega) hb
        _ = (a' / b').succ * b * b' := by rw [Nat.succ_eq_add_one]; ring
  have hrr : (a % b) * b' = (a' % b') * b := by
    have e1 : a * b' = b * (a / b) * b' + (a % b) * b' := by
      rw [← Nat.add_mul, hdm]
    have e2 : a' * b = b' * (a' / b') * b + (a' % b') * b := by
      rw [← Nat.add_mul, hdm']
    have e3 : b * (a / b) * b' = b' * (a' / b') * b := by rw [hq]; ring
    omega
  have c1 : 2 * (a % b) < b ↔ 2 * (a' % b') < b' := by
    constructor
    · intro h1
      apply Nat.lt_of_mul_lt_mul_right (a := b)
      calc 2 * (a' % b') * b = 2 * ((a % b) * b') := by rw [hrr]; ring
        _ = (2 * (a % b)) * b' := by ring
        _ < b * b' := Nat.mul_lt_mul_of_pos_right h1 hb'
        _ = b' * b := by ring
    · intro h1
      apply Nat.lt_of_mul_lt_mul_right (a := b')
      calc 2 * (a % b) * b' = 2 * ((a' % b') * b) := by rw [← hrr]; ring
        _ = (2 * (a' % b')) * b := by ring
        _ < b' * b := Nat.mul_lt_mul_of_pos_right h1 hb
        _ = b * b' := by ring
  have c2 : b < 2 * (a % b) ↔ b' < 2 * (a' % b') := by
    constructor
    · intro h1
      apply Nat.lt_of_mul_lt_mul_right (a := b)
      calc b' * b = b * b' := by ring
        _ < (2 * (a % b)) * b' := Nat.mul_lt_mul_of_pos_right h1 hb'
        _ = 2 * ((a % b) * b') := by ring
        _ = 2 * (a' % b') * b := by rw [hrr]; ring
    · intro h1
      apply Nat.lt_of_mul_lt_mul_right (a := b')
      calc b * b' = b' * b := by ring
        _ < (2 * (a' % b')) * b := Nat.mul_lt_mul_of_pos_right h1 hb
        _ = 2 * ((a' % b') * b) := by ring
        _ = 2 * (a % b) * b' := by rw [← hrr]; ring
  unfold roundHalfEven
  simp only [c1, c2, hq]

theorem roundMant_ratio (a d : Nat) (k u : Int) (hd : 0 < d) :
    (((a * 2 ^ (k - u).toNat : Nat) : ℚ)) / ((d * 2 ^ (u - k).toNat : Nat) : ℚ)
      = (a : ℚ) / d * (2 : ℚ) ^ k / (2 : ℚ) ^ u := by
  have hdq : (d : ℚ) ≠ 0 := by exact_mod_cast (ne_of_gt hd)
  have hu : (2 : ℚ) ^ u ≠ 0 := ne_of_gt (zpow_pos (by norm_num) _)
  have e := two_zpow_toNat (k - u)
  rw [show -(k - u) = u - k by ring] at e
  have e2 : (2 : ℚ) ^ (k - u) = (2 : ℚ) ^ k / (2 : ℚ) ^ u := zpow_sub₀ (by norm_num) _ _
  rw [mul_div_assoc, ← e2, ← e]
  push_cast
  field_simp

/-- The rounding is a function of the exact value. -/
theorem roundRatio_congr (n n' : Int) (d d' : Nat) (k k' : Int) (hd : 0 < d) (hd' : 0 < d')
    (hv : (n : ℚ) / d * (2 : ℚ) ^ k = (n' : ℚ) / d' * (2 : ℚ) ^ k') :
    roundRatio n d k = roundRatio n' d' k' := by
  have hdq : (0 : ℚ) < d := by exact_mod_cast hd
  have hdq' : (0 : ℚ) < d' := by exact_mod_cast hd'
  have hk : (0 : ℚ) < (2 : ℚ) ^ k := zpow_pos (by norm_num) _
  have hk' : (0 : ℚ) < (2 : ℚ) ^ k' := zpow_pos (by norm_num) _
  have hc : (0 : ℚ) < (2 : ℚ) ^ k / d := div_pos hk hdq
  have hc' : (0 : ℚ) < (2 : ℚ) ^ k' / d' := div_pos hk' hdq'
  have hv2 : (n : ℚ) * ((2 : ℚ) ^ k / d) = (n' : ℚ) * ((2 : ℚ) ^ k' / d') := by
    rw [show (n : ℚ) * ((2 : ℚ) ^ k / d) = (n : ℚ) / d * (2 : ℚ) ^ k by ring, hv]; ring
  have hzero : n = 0 ↔ n' = 0 := by
    constructor
    · intro h
      rw [h] at hv2
      simp only [Int.cast_zero, zero_mul] at hv2
      rcases mul_eq_zero.mp hv2.symm with h1 | h1
      · exact_mod_cast h1
      · exact absurd h1 (ne_of_gt hc')
    · intro h
      rw [h] at hv2
      simp only [Int.cast_zero, zero_mul] at hv2
      rcases mul_eq_zero.mp hv2 with h1 | h1
      · exact_mod_cast h1
      · exact absurd h1 (ne_of_gt hc)
  by_cases hn : n = 0
  · have hn' := hzero.mp hn
    simp [roundRatio, hn, hn']
  have hn' : n' ≠ 0 := fun h => hn (hzero.mpr h)
  have hneg : n < 0 ↔ n' < 0 := by
    constructor
    · intro h
      by_contra hcn
      have h1 : (n : ℚ) * ((2 : ℚ) ^ k / d) < 0 :=
        mul_neg_of_neg_of_pos (by exact_mod_cast h) hc
      have h2 : (0 : ℚ) ≤ (n' : ℚ) * ((2 : ℚ) ^ k' / d') :=
        mul_nonneg (by exact_mod_cast (not_lt.mp hcn)) (le_of_lt hc')
      linarith
    · intro h
      by_contra hcn
      have h1 : (n' : ℚ) * ((2 : ℚ) ^ k' / d') < 0 :=
        mul_neg_of_neg_of_pos (by exact_mod_cast h) hc'
      have h2 : (0 : ℚ) ≤ (n : ℚ) * ((2 : ℚ) ^ k / d) :=
        mul_nonneg (by exact_mod_cast (not_lt.mp hcn)) (le_of_lt hc)
      linarith
  obtain ⟨b1, b2⟩ := expo_bracket n d k hn hd
  obtain ⟨b1', b2'⟩ := expo_bracket n' d' k' hn' hd'
  rw [hv] at b1 b2
  have he : expo n.natAbs d + k = expo n'.natAbs d' + k' :=
    pow_bracket_unique _ _ _ b1 b2 b1' b2'
  have hu : ulpExp n.natAbs d k = ulpExp n'.natAbs d' k' := by
    unfold ulpExp
    rw [he]
  have habs : (n.natAbs : ℚ) / d * (2 : ℚ) ^ k = (n'.natAbs : ℚ) / d' * (2 : ℚ) ^ k' := by
    have e1 : (n.natAbs : ℚ) / d * (2 : ℚ) ^ k = |(n : ℚ) / d * (2 : ℚ) ^ k| := by
      rw [abs_mul, abs_div, abs_of_pos hk, abs_of_pos hdq, natAbs_cast_abs]
    have e2 : (n'.natAbs : ℚ) / d' * (2 : ℚ) ^ k' = |(n' : ℚ) / d' * (2 : ℚ) ^ k'| := by
      rw [abs_mul, abs_div, abs_of_pos hk', abs_of_pos hdq', natAbs_cast_abs]
    rw [e1, e2, hv]
  have hm : roundMant n.natAbs d k = roundMant n'.natAbs d' k' := by
    unfold roundMant
    rw [← hu]
    have hB : 0 < d * 2 ^ (ulpExp n.natAbs d k - k).toNat := Nat.mul_pos hd (by positivity)
    have hB' : 0 < d' * 2 ^ (ulpExp n.natAbs d k - k').toNat := Nat.mul_pos hd' (by positivity)
    apply roundHalfEven_congr _ _ _ _ hB hB'
    have r1 := roundMant_ratio n.natAbs d k (ulpExp n.natAbs d k) hd
    have r2 := roundMant_ratio n'.natAbs d' k' (ulpExp n.natAbs d k) hd'
    rw [habs, ← r2] at r1
    have hBq : ((d * 2 ^ (ulpExp n.natAbs d k - k).toNat : Nat) : ℚ) ≠ 0 := by
      exact_mod_cast (ne_of_gt hB)
    have hBq' : ((d' * 2 ^ (ulpExp n.natAbs d k - k').toNat : Nat) : ℚ) ≠ 0 := by
      exact_mod_cast (ne_of_gt hB')
    rw [div_eq_div_iff hBq hBq'] at r1
    exact_mod_cast r1
  unfold roundRatio
  rw [if_neg hn, if_neg hn', hu, hm]
  simp only [hneg]

/-! ### The sum of the losses -/

theorem Double_add_comm (x y : Double) : Double.add x y = Double.add y x := by
  cases x with
  | fin m1 e1 =>
    cases y with
    | fin m2 e2 => simp only [Double.add, min_comm e1 e2, add_comm]
    | inf b => rfl
    | nan => rfl
  | inf a =>
    cases y with
    | fin m2 e2 => rfl
    | inf b => cases a <;> cases b <;> rfl
    | nan => rfl
  | nan => cases y <;> rfl

/-- Adding the `double` zero to a `double` does not change its value. -/
theorem Double_add_zero (x : Double) (p : ℚ) (hx : x.IsBinary64) (hp : x.HasValue p) :
    (Double.add x (.fin 0 0)).HasValue p := by
  obtain ⟨m, e, rfl, hm, he1, he2⟩ := hx
  obtain ⟨m', e', h1, h2⟩ := hp
  cases h1
  have hv : ((m * 2 ^ (e - min e 0).toNat + 0 * 2 ^ (0 - min e 0).toNat : Int) : ℚ) / (1 : Nat)
      * (2 : ℚ) ^ (min e 0) = (m : ℚ) * (2 : ℚ) ^ e := by
    rw [add_value_eq m e 0 0]; simp
  have := roundRatio_dyadic _ 1 (min e 0) (by norm_num) m e hv hm he1 he2
  rw [h2] at this
  exact this

/-- When the two inner additions are exact, the two ways of adding three `double`s
give the same `double`. -/
theorem Double_add_assoc_of_exact (x y z : Double) (p q r : ℚ)
    (hx : x.HasValue p) (hz : z.HasValue r)
    (hxy : (Double.add x y).HasValue (p + q)) (hyz : (Double.add y z).HasValue (q + r)) :
    Double.add (Double.add x y) z = Double.add x (Double.add y z) := by
  obtain ⟨m1, e1, h1, v1⟩ := hx
  obtain ⟨m3, e3, h3, v3⟩ := hz
  obtain ⟨m12, e12, h12, v12⟩ := hxy
  obtain ⟨m23, e23, h23, v23⟩ := hyz
  rw [h12, h23, h1, h3]
  simp only [Double.add]
  apply roundRatio_congr _ _ 1 1 _ _ (by norm_num) (by norm_num)
  rw [add_value_eq, add_value_eq, v1, v3, v12, v23]
  ring

theorem summed_eq (s : NetStat) :
    s.summed = [s.send_speed, s.recv_speed, s.send_avg_speed, s.recv_avg_speed,
      s.send_packets, s.recv_packets, s.illegal_packets, s.reorder_packets,
      s.duplicate_packets, s.timeout_packets, s.send_pps, s.recv_pps, s.send_bytes,
      s.recv_bytes, s.send_time, s.recv_time, s.delay, s.jitter, s.jitter_std,
      s.peers_count, s.peers_failed] := rfl

theorem wrap64_add_assoc (x y z : Int) :
    wrap64 (wrap64 (x + y) + z) = wrap64 (x + wrap64 (y + z)) := by
  unfold wrap64; omega

theorem wrap32_add_assoc (x y z : Int) :
    wrap32 (wrap32 (x + y) + z) = wrap32 (x + wrap32 (y + z)) := by
  unfold wrap32; omega

/-! ### The claim -/

/-- C12.  On the integer members that `operator+=` sums, the operator is associative
and commutative, and adding the all-zero record changes nothing (for a record whose
members are in the ranges of their types).  For `loss`, a `double`: the sum is
commutative, adding the zero of the all-zero record keeps the value, and the two ways
of adding three losses give the same `double` whenever the two inner additions are
exact. -/
theorem C12_sum_algebra (a b c : NetStat) :
    ((a.add b).add c).summed = (a.add (b.add c)).summed ∧
    (a.add b).summed = (b.add a).summed ∧
    (a.InRange → (a.add NetStat.zero).summed = a.summed) ∧
    (a.add b).loss = (b.add a).loss ∧
    (∀ p : ℚ, a.loss.IsBinary64 → a.loss.HasValue p → (a.add NetStat.zero).loss.HasValue p) ∧
    (∀ p q r : ℚ, a.loss.HasValue p → c.loss.HasValue r →
      (a.add b).loss.HasValue (p + q) → (b.add c).loss.HasValue (q + r) →
      ((a.add b).add c).loss = (a.add (b.add c)).loss) := by
  refine ⟨?_, ?_, ?_, Double_add_comm _ _, ?_, ?_⟩
  · simp only [summed_eq, NetStat.add, wrap64_add_assoc, wrap32_add_assoc]
  · simp only [summed_eq, NetStat.add, add_comm]
  · intro h
    have h64 : ∀ name v, (name, v, true) ∈ a.intFields → wrap64 (v + 0) = v := by
      intro name v hmem
      have := h _ hmem
      simp only [if_true] at this
      rw [add_zero, wrap64_of_range _ this]
    have h32 : ∀ name v, (name, v, false) ∈ a.intFields → wrap32 (v + 0) = v := by
      intro name v hmem
      have := h _ hmem
      simp only [Bool.false_eq_true, if_false] at this
      rw [add_zero, wrap32_of_range _ this]
    simp only [summed_eq, NetStat.add, NetStat.zero]
    rw [h64 "send_speed" a.send_speed (by simp [NetStat.intFields]),
      h64 "recv_speed" a.recv_speed (by simp [NetStat.intFields]),
      h64 "send_avg_speed" a.send_avg_speed (by simp [NetStat.intFields]),
      h64 "recv_avg_speed" a.recv_avg_speed (by simp [NetStat.intFields]),
      h64 "send_packets" a.send_packets (by simp [NetStat.intFields]),
      h64 "recv_packets" a.recv_packets (by simp [NetStat.intFields]),
      h64 "illegal_packets" a.illegal_packets (by simp [NetStat.intFields]),
      h64 "reorder_packets" a.reorder_packets (by simp [NetStat.intFields]),
      h64 "duplicate_packets" a.duplicate_packets (by simp [NetStat.intFields]),
      h64 "timeout_packets" a.timeout_packets (by simp [NetStat.intFields]),
      h64 "send_pps" a.send_pps (by simp [NetStat.intFields]),
      h64 "recv_pps" a.recv_pps (by simp [NetStat.intFields]),
      h64 "send_bytes" a.send_bytes (by simp [NetStat.intFields]),
      h64 "recv_bytes" a.recv_bytes (by simp [NetStat.intFields]),
      h32 "send_time" a.send_time (by simp [NetStat.intFields]),
      h32 "recv_time" a.recv_time (by simp [NetStat.intFields]),
      h32 "delay" a.delay (by simp [NetStat.intFields]),
      h32 "jitter" a.jitter (by simp [NetStat.intFields]),
      h64 "jitter_std" a.jitter_std (by simp [NetStat.intFields]),
      h32 "peers_count" a.peers_count (by simp [NetStat.intFields]),
      h32 "peers_failed" a.peers_failed (by simp [NetStat.intFields])]
  · intro p hb hp
    exact Double_add_zero a.loss p hb hp
  · intro p q r hp hr hpq hqr
    exact Double_add_assoc_of_exact a.loss b.loss c.loss p q r hp hr hpq hqr

set_option maxRecDepth 100000 in
/-- Witness for C12: the all-zero record added to a record with members in range, and
three losses `1`, `2`, `3`, whose inner sums are exact. -/
theorem C12_sum_algebra_witness :
    NetStat.InRange { NetStat.zero with delay := -7, send_bytes := 4416 } ∧
    (NetStat.add { NetStat.zero with delay := -7, send_bytes := 4416 } NetStat.zero).summed
      = NetStat.summed { NetStat.zero with delay := -7, send_bytes := 4416 } :=
  ⟨by unfold NetStat.InRange; decide,
   (C12_sum_algebra { NetStat.zero with delay := -7, send_bytes := 4416 } NetStat.zero
      NetStat.zero).2.2.1 (by unfold NetStat.InRange; decide)⟩

set_option maxRecDepth 100000 in
/-- Without the exactness of the inner additions the sum of three `double`s depends on
the order: with `x = 2 ^ 53` and `y = z = 1`, `(x + y) + z` is `2 ^ 53` and
`x + (y + z)` is `2 ^ 53 + 2`. -/
theorem Double_add_not_assoc :
    Double.add (Double.add (Double.ofInt 9007199254740992) (Double.ofInt 1)) (Double.ofInt 1)
      = Double.ofInt 9007199254740992 ∧
    Double.add (Double.ofInt 9007199254740992) (Double.add (Double.ofInt 1) (Double.ofInt 1))
      = Double.ofInt 9007199254740994 ∧
    Double.ofInt 9007199254740992 ≠ Double.ofInt 9007199254740994 := by
  decide

/-! ## C13: `operator/=` member by member -/

theorem elementwiseQuotient_eq (s : NetStat) (num : Int) :
    elementwiseQuotient s num =
      (NetStat.intFields
        { s with
          send_speed := Int.tdiv s.send_speed num, recv_speed := Int.tdiv s.recv_speed num,
          send_avg_speed := Int.tdiv s.send_avg_speed num,
          recv_avg_speed := Int.tdiv s.recv_avg_speed num,
          send_packets := Int.tdiv s.send_packets num,
          recv_packets := Int.tdiv s.recv_packets num,
          illegal_packets := Int.tdiv s.illegal_packets num,
          reorder_packets := Int.tdiv s.reorder_packets num,
          duplicate_packets := Int.tdiv s.duplicate_packets num,
          timeout_packets := Int.tdiv s.timeout_packets num,
          send_pps := Int.tdiv s.send_pps num, recv_pps := Int.tdiv s.recv_pps num,
          send_bytes := Int.tdiv s.send_bytes num, recv_bytes := Int.tdiv s.recv_bytes num,
          delay := Int.tdiv s.delay num, jitter := Int.tdiv s.jitter num,
          jitter_std := Int.tdiv s.jitter_std num,
          send_time := Int.tdiv s.send_time num, recv_time := Int.tdiv s.recv_time num,
          peers_count := Int.tdiv s.peers_count num,
          peers_failed := Int.tdiv s.peers_failed num }) := rfl

set_option maxRecDepth 100000 in
/-- C13, as stated, is false for the divisor `-1` when a divided member holds the
smallest value of its type: every member of the record is in the range of its type,
`delay` is `-2147483648`, the quotient `2147483648` does not fit an `int`, and
`s /= -1` has no result. -/
theorem C13_quotient_that_does_not_fit :
    NetStat.InRange { NetStat.zero with delay := -2147483648 } ∧
    Int.tdiv (-2147483648) (-1) = 2147483648 ∧ ¬ (2147483648 ≤ INT_MAX) ∧
    NetStat.div { NetStat.zero with delay := -2147483648 } (-1) = none := by
  refine ⟨?_, by decide, by decide, by decide⟩
  unfold NetStat.InRange; decide

/-- C13, amended.  For every record `s` and every divisor `n` other than `0` (and, when
`n` is `-1`, no divided member at the smallest value of its type), `s /= n` keeps the
ten `max_*` and `min_*` members and replaces every other integer member by its
quotient by `n` truncated toward zero; `loss` becomes the `double` quotient. -/
theorem C13_quotient_member_by_member (s : NetStat) (n : Int) (hn : n ≠ 0)
    (hmin : n = -1 → ∀ f ∈ s.intFields, (isMaxName f.1 || isMinName f.1) = false →
      f.2.1 ≠ (if f.2.2 = true then LLONG_MIN else INT_MIN)) :
    ∃ t, s.div n = some t ∧ t.intFields = elementwiseQuotient s n ∧
      t.loss = Double.div s.loss (Double.ofInt n) := by
  unfold NetStat.div
  rw [if_neg]
  · refine ⟨_, rfl, ?_, rfl⟩
    rw [elementwiseQuotient_eq]
    simp only [NetStat.intFields, mul_one]
  · intro hc
    rcases hc with h0 | ⟨h1, hc⟩
    · exact hn h0
    have hm := hmin h1
    rcases hc with h | h | h | h | h | h | h | h | h | h | h | h | h | h | h | h | h | h | h | h | h
    · exact hm ("send_speed", s.send_speed, true) (by simp [NetStat.intFields]) rfl h
    · exact hm ("recv_speed", s.recv_speed, true) (by simp [NetStat.intFields]) rfl h
    · exact hm ("send_avg_speed", s.send_avg_speed, true) (by simp [NetStat.intFields]) rfl h
    · exact hm ("recv_avg_speed", s.recv_avg_speed, true) (by simp [NetStat.intFields]) rfl h
    · exact hm ("send_packets", s.send_packets, true) (by simp [NetStat.intFields]) rfl h
    · exact hm ("recv_packets", s.recv_packets, true) (by simp [NetStat.intFields]) rfl h
    · exact hm ("illegal_packets", s.illegal_packets, true) (by simp [NetStat.intFields]) rfl h
    · exact hm ("reorder_packets", s.reorder_packets, true) (by simp [NetStat.intFields]) rfl h
    · exact hm ("duplicate_packets", s.duplicate_packets, true) (by simp [NetStat.intFields]) rfl h
    · exact hm ("timeout_packets", s.timeout_packets, true) (by simp [NetStat.intFields]) rfl h
    · exact hm ("send_pps", s.send_pps, true) (by simp [NetStat.intFields]) rfl h
    · exact hm ("recv_pps", s.recv_pps, true) (by simp [NetStat.intFields]) rfl h
    · exact hm ("send_bytes", s.send_bytes, true) (by simp [NetStat.intFields]) rfl h
    · exact hm ("recv_bytes", s.recv_bytes, true) (by simp [NetStat.intFields]) rfl h
    · exact hm ("delay", s.delay, false) (by simp [NetStat.intFields]) rfl h
    · exact hm ("jitter", s.jitter, false) (by simp [NetStat.intFields]) rfl h
    · exact hm ("jitter_std", s.jitter_std, true) (by simp [NetStat.intFields]) rfl h
    · exact hm ("send_time", s.send_time, false) (by simp [NetStat.intFields]) rfl h
    · exact hm ("recv_time", s.recv_time, false) (by simp [NetStat.intFields]) rfl h
    · exact hm ("peers_count", s.peers_count, false) (by simp [NetStat.intFields]) rfl h
    · exact hm ("peers_failed", s.peers_failed, false) (by simp [NetStat.intFields]) rfl h

set_option maxRecDepth 100000 in
/-- Witness for C13 amended: a record divided by `2`. -/
theorem C13_quotient_member_by_member_witness :
    ∃ t, NetStat.div { NetStat.zero with delay := -7, max_delay := 9, send_bytes := 4416 } 2
        = some t ∧
      t.intFields = elementwiseQuotient
        { NetStat.zero with delay := -7, max_delay := 9, send_bytes := 4416 } 2 ∧
      t.loss = Double.div (.fin 0 0) (Double.ofInt 2) :=
  C13_quotient_member_by_member
    { NetStat.zero with delay := -7, max_delay := 9, send_bytes := 4416 } 2 (by decide)
    (fun h => absurd h (by decide))

/-! ## C14: lines that `CommandFactory::New` rejects before parsing the arguments -/

theorem Container_find_none (name : Str) (h : name ∉ Container.map (fun r => r.1)) :
    Container.find name = none := by
  unfold Container.find
  rw [Option.map_eq_none', List.find?_eq_none]
  intro r hr hc
  apply h
  rw [List.mem_map]
  exact ⟨r, hr, by simpa using hc⟩

set_option maxRecDepth 1000000 in
/-- C14.  `New` returns the null pointer for every line longer than 1014 bytes and for
every line whose first word is not a registered name, the empty line included; for a
line of exactly 1014 bytes the length check passes: a registered name and an argument
list that the loop accepts lead to `NewCommand`, as for the 1014-byte line made of
`ping` and 1010 blanks, for which an Echo command is returned. -/
theorem C14_long_or_unknown_line_rejected :
    (∀ index cmd, 1014 < cmd.length → New index cmd = (.ok none, index)) ∧
    (∀ index cmd, (words cmd).headD [] ∉ Container.map (fun r => r.1) →
      New index cmd = (.ok none, index)) ∧
    (∀ index, New index [] = (.ok none, index)) ∧
    (∀ index cmd cls is_private args, cmd.length = 1014 →
      Container.find ((words cmd).headD []) = some (cls, is_private) →
      parseArgs (words cmd).tail [] [] = some args →
      New index cmd = NewCommand cls is_private index cmd args) ∧
    ("ping".toList ++ List.replicate 1010 ' ').length = 1014 ∧
    (echoOf (New 0 ("ping".toList ++ List.replicate 1010 ' '))).isSome = true := by
  refine ⟨?_, ?_, ?_, ?_, by decide, by decide⟩
  · intro index cmd h
    unfold New
    rw [if_pos]
    simp only [MAX_CMD_LENGTH, MAX_TOKEN_LENGTH]
    omega
  · intro index cmd h
    unfold New
    split
    · rfl
    · rw [Container_find_none _ h]
  · intro index
    rfl
  · intro index cmd cls is_private args hlen hfind hargs
    unfold New
    rw [if_neg, hfind]
    · simp only [hargs]
    · simp only [MAX_CMD_LENGTH, MAX_TOKEN_LENGTH]
      omega

set_option maxRecDepth 1000000 in
/-- Witness for C14: a line of 1015 bytes, the line `pong count 1`, and the 1014-byte
line made of `ping` and 1010 blanks. -/
theorem C14_long_or_unknown_line_rejected_witness :
    New 0 (List.replicate 1015 'x') = (.ok none, 0) ∧
    New 0 "pong count 1".toList = (.ok none, 0) ∧
    New 0 ("ping".toList ++ List.replicate 1010 ' ')
      = NewCommand .echo false 0 ("ping".toList ++ List.replicate 1010 ' ') [] :=
  ⟨C14_long_or_unknown_line_rejected.1 0 (List.replicate 1015 'x') (by decide),
   C14_long_or_unknown_line_rejected.2.1 0 "pong count 1".toList (by decide),
   C14_long_or_unknown_line_rejected.2.2.2.1 0 ("ping".toList ++ List.replicate 1010 ' ')
     .echo false [] (by decide) (by decide) (by decide)⟩

/-! ## C15: a key given twice

### The argument loop on key-value pairs -/

theorem find_set (args : CommandArgs) (k v k1 : Str) :
    CommandArgs.find (CommandArgs.set args k v) k1
      = if k = k1 then some v else CommandArgs.find args k1 := by
  induction args with
  | nil => simp [CommandArgs.set, CommandArgs.find]
  | cons kv args ih =>
    obtain ⟨a, b⟩ := kv
    by_cases hak : a = k
    · subst hak
      simp only [CommandArgs.set, if_true, CommandArgs.find]
      split <;> rfl
    · simp only [CommandArgs.set, if_neg hak, CommandArgs.find, ih]
      by_cases ha1 : a = k1
      · subst ha1
        simp only [if_true]
        rw [if_neg (fun e => hak e.symm)]
      · simp only [if_neg ha1]

/-- Once a key is in the map, a later key-value pair with the same key makes the loop
return the null pointer, whatever comes in between (in pairs) and after. -/
theorem parseArgs_seen_key (k v1 : Str) (post : List Str) (mid : List (Str × Str)) :
    ∀ (args : CommandArgs) (value : Str), (CommandArgs.find args k).isSome = true →
      parseArgs ((mid.map (fun kv => [kv.1, kv.2])).flatten ++ k :: v1 :: post) args value
        = none := by
  induction mid with
  | nil =>
    intro args value h
    simp only [List.map_nil, List.flatten_nil, List.nil_append, parseArgs, h, if_true]
  | cons kv mid ih =>
    intro args value h
    obtain ⟨a, b⟩ := kv
    have e : (((a, b) :: mid).map (fun kv : Str × Str => [kv.1, kv.2])).flatten
          ++ k :: v1 :: post
        = a :: b :: ((mid.map (fun kv : Str × Str => [kv.1, kv.2])).flatten
          ++ k :: v1 :: post) := by simp
    rw [e]
    simp only [parseArgs]
    split
    · rfl
    · apply ih
      rw [find_set]
      split
      · rfl
      · exact h

/-- The sibling path: a key that is followed by a value twice is rejected. -/
theorem parseArgs_duplicate_valued (k v v1 : Str) (post : List Str)
    (pre mid : List (Str × Str)) :
    ∀ (args : CommandArgs) (value : Str),
      parseArgs ((pre.map (fun kv => [kv.1, kv.2])).flatten ++ k :: v ::
        ((mid.map (fun kv => [kv.1, kv.2])).flatten ++ k :: v1 :: post)) args value = none := by
  induction pre with
  | nil =>
    intro args value
    simp only [List.map_nil, List.flatten_nil, List.nil_append, parseArgs]
    split
    · rfl
    · apply parseArgs_seen_key
      rw [find_set]
      simp
  | cons kv pre ih =>
    intro args value
    obtain ⟨a, b⟩ := kv
    have e : (((a, b) :: pre).map (fun kv : Str × Str => [kv.1, kv.2])).flatten ++ k :: v ::
          ((mid.map (fun kv : Str × Str => [kv.1, kv.2])).flatten ++ k :: v1 :: post)
        = a :: b :: ((pre.map (fun kv : Str × Str => [kv.1, kv.2])).flatten ++ k :: v ::
          ((mid.map (fun kv : Str × Str => [kv.1, kv.2])).flatten ++ k :: v1 :: post)) := by
      simp
    rw [e]
    simp only [parseArgs]
    split
    · rfl
    · apply ih

/-- A line in which a key is followed by a value at two places is rejected by `New`. -/
theorem New_duplicate_valued (index : Nat) (cmd k v v1 : Str) (post : List Str)
    (pre mid : List (Str × Str))
    (h : (words cmd).tail = (pre.map (fun kv => [kv.1, kv.2])).flatten ++ k :: v ::
        ((mid.map (fun kv => [kv.1, kv.2])).flatten ++ k :: v1 :: post)) :
    New index cmd = (.ok none, index) := by
  unfold New
  split
  · rfl
  · split
    · rfl
    · rw [h, parseArgs_duplicate_valued]

/-! ### The claim -/

set_option maxRecDepth 100000 in
/-- C15 at a failing input.  The line `send count 5 count 6` is rejected, but
`send count 5 count`, in which the key `count` is read at two key positions, is
accepted: the second `count` has no value after it, the argument loop stores the empty
string for it without looking the key up, and the command is built with the default
count 100. -/
theorem C15_trailing_duplicate_key_accepted :
    New 0 "send count 5 count 6".toList = (.ok none, 0) ∧
    (words "send count 5 count".toList).tail
      = ["count".toList, "5".toList, "count".toList] ∧
    parseArgs (words "send count 5 count".toList).tail [] [] = some [("count".toList, [])] ∧
    (sendOf (New 0 "send count 5 count".toList)).map (fun c => c.count_) = some 100 := by
  decide

/-! ## C16: the key `multicast` without a value

### Words and the argument map -/

theorem splitWords_ne_nil (s : Str) :
    ∀ (cur : Str), ∀ w ∈ splitWords s cur, w ≠ [] := by
  induction s with
  | nil =>
    intro cur w hw
    simp only [splitWords] at hw
    split at hw
    · simp at hw
    · rename_i hc
      simp only [List.mem_singleton] at hw
      rw [hw]
      intro h
      apply hc
      simpa using h
  | cons c s ih =>
    intro cur w hw
    simp only [splitWords] at hw
    split at hw
    · split at hw
      · exact ih [] w hw
      · rename_i hc
        simp only [List.mem_cons] at hw
        rcases hw with hw | hw
        · rw [hw]
          intro h
          apply hc
          simpa using h
        · exact ih [] w hw
    · exact ih (c :: cur) w hw

theorem words_ne_nil (s : Str) : ∀ w ∈ words s, w ≠ [] := splitWords_ne_nil s []

/-- What the map holds after the loop has run over key-value pairs: every pair of the
line, and what it held before. -/
theorem parseArgs_pairs_get (fs : List (Str × Str)) :
    ∀ (acc : CommandArgs) (value : Str) (r : CommandArgs),
      parseArgs (fs.map (fun kv => [kv.1, kv.2])).flatten acc value = some r →
      (∀ kv ∈ fs, CommandArgs.find r kv.1 = some kv.2) ∧
      (∀ k v, CommandArgs.find acc k = some v → CommandArgs.find r k = some v) := by
  induction fs with
  | nil =>
    intro acc value r h
    simp only [List.map_nil, List.flatten_nil, parseArgs, Option.some.injEq] at h
    subst h
    exact ⟨by simp, fun k v hk => hk⟩
  | cons kv fs ih =>
    intro acc value r h
    obtain ⟨a, b⟩ := kv
    have e : (((a, b) :: fs).map (fun kv : Str × Str => [kv.1, kv.2])).flatten
        = a :: b :: (fs.map (fun kv : Str × Str => [kv.1, kv.2])).flatten := by simp
    rw [e] at h
    simp only [parseArgs] at h
    split at h
    · simp at h
    · rename_i hfind
      obtain ⟨h1, h2⟩ := ih _ _ _ h
      have hnone : CommandArgs.find acc a = none := by
        cases hf : CommandArgs.find acc a with
        | none => rfl
        | some x => rw [hf] at hfind; simp at hfind
      constructor
      · intro kv hkv
        simp only [List.mem_cons] at hkv
        rcases hkv with rfl | hkv
        · apply h2
          rw [find_set]
          simp
        · exact h1 kv hkv
      · intro k v hk
        apply h2
        rw [find_set]
        split
        · rename_i hak
          rw [hak, hk] at hnone
          simp at hnone
        · exact hk

/-- What the map holds for a last key that has no value after it: the empty string. -/
theorem parseArgs_dangling (k : Str) (fs : List (Str × Str)) :
    ∀ (acc : CommandArgs) (value : Str) (r : CommandArgs),
      parseArgs ((fs.map (fun kv => [kv.1, kv.2])).flatten ++ [k]) acc value = some r →
      CommandArgs.get r k = [] := by
  induction fs with
  | nil =>
    intro acc value r h
    simp only [List.map_nil, List.flatten_nil, List.nil_append, parseArgs] at h
    split at h
    · simp at h
    · simp only [Option.some.injEq] at h
      subst h
      simp [CommandArgs.get, find_set]
  | cons kv fs ih =>
    intro acc value r h
    obtain ⟨a, b⟩ := kv
    have e : (((a, b) :: fs).map (fun kv : Str × Str => [kv.1, kv.2])).flatten ++ [k]
        = a :: b :: ((fs.map (fun kv : Str × Str => [kv.1, kv.2])).flatten ++ [k]) := by simp
    rw [e] at h
    simp only [parseArgs] at h
    split at h
    · simp at h
    · exact ih _ _ _ h

/-- The Send command that `New` returns was resolved from the arguments of the line. -/
theorem sendOf_New_inv (index : Nat) (cmd : Str) (c : SendCommand)
    (h : sendOf (New index cmd) = some c) :
    ∃ args c1 p, parseArgs (words cmd).tail [] [] = some args ∧
      (SendCommand.new index cmd).1.ResolveArgs args = .ok c1 ∧
      c = { c1 with is_private := p } := by
  unfold sendOf New at h
  by_cases hlen : cmd.length ≤ MAX_CMD_LENGTH - MAX_TOKEN_LENGTH
  · rw [if_neg (not_not.mpr hlen)] at h
    rcases hfind : Container.find ((words cmd).headD []) with _ | ⟨cls, p⟩
    · rw [hfind] at h; simp at h
    · rcases hargs : parseArgs (words cmd).tail [] [] with _ | args
      · rw [hfind, hargs] at h; simp at h
      · rw [hfind, hargs] at h
        cases cls with
        | send =>
          simp only [NewCommand] at h
          rcases hr : (SendCommand.new index cmd).1.ResolveArgs args with e | c1
          · simp [hr, Except.map] at h
          · simp only [hr, Except.map, Option.some.injEq] at h
            exact ⟨args, c1, p, rfl, hr, h.symm⟩
        | echo =>
          simp only [NewCommand] at h
          rcases hr : (EchoCommand.new index cmd).1.ResolveArgs args with e | c1
          · simp [hr, Except.map] at h
          · simp [hr, Except.map] at h
        | ack => simp [NewCommand] at h
        | stop => simp [NewCommand] at h
        | result => simp [NewCommand] at h
        | mode =>
          simp only [NewCommand] at h
          split at h <;> simp at h
          rename_i h1 h2 h3
          split at h3 <;> simp at h3
  · rw [if_pos hlen] at h; simp at h

/-! ### The claim -/

set_option maxRecDepth 100000 in
/-- C16, as stated, is false: `send count 5 multicast` is accepted as a Send command
whose `is_multicast` is false (the argument loop stores the empty string for a key
without a value, and `ResolveArgs` tests the stored string for emptiness), and
`send multicast` is rejected.  With a value, as in the usage text
`send count 1000 multicast true`, the flag is set. -/
theorem C16_valueless_multicast_is_not_set :
    (sendOf (New 0 "send count 5 multicast".toList)).map (fun c => c.is_multicast)
      = some false ∧
    New 0 "send multicast".toList = (.ok none, 0) ∧
    (sendOf (New 0 "send count 1000 multicast true".toList)).map (fun c => c.is_multicast)
      = some true := by
  decide

/-- C16, amended.  For a send line whose last word is the key `multicast` with no
value after it, `New` returns no command when no key-value pair precedes the key, and
a Send command that `New` returns has `is_multicast` false; for a send line made of
key-value pairs in which `multicast` is followed by a value, a Send command that `New`
returns has `is_multicast` true. -/
theorem C16_multicast_needs_a_value (index : Nat) (cmd : Str) :
    ((words cmd).tail = ["multicast".toList] → New index cmd = (.ok none, index)) ∧
    (∀ fs : List (Str × Str),
      (words cmd).tail = (fs.map (fun kv => [kv.1, kv.2])).flatten ++ ["multicast".toList] →
      ∀ c, sendOf (New index cmd) = some c → c.is_multicast = false) ∧
    (∀ (fs : List (Str × Str)) (v : Str),
      (words cmd).tail = (fs.map (fun kv => [kv.1, kv.2])).flatten →
      ("multicast".toList, v) ∈ fs →
      ∀ c, sendOf (New index cmd) = some c → c.is_multicast = true) := by
  refine ⟨?_, ?_, ?_⟩
  · intro h
    unfold New
    split
    · rfl
    · split
      · rfl
      · rw [h]
        rfl
  · intro fs hw c hc
    obtain ⟨args, c1, p, hargs, hr, rfl⟩ := sendOf_New_inv index cmd c hc
    obtain ⟨_, _, _, _, _, _, _, _, _, _, _, _, _, _, h8⟩ := SendCommand_ResolveArgs_ok _ c1 args hr
    rw [hw] at hargs
    have hget := parseArgs_dangling _ fs _ _ _ hargs
    rw [h8]
    show (!List.isEmpty (CommandArgs.get args "multicast".toList)) = false
    rw [hget]
    rfl
  · intro fs v hw hmem c hc
    obtain ⟨args, c1, p, hargs, hr, rfl⟩ := sendOf_New_inv index cmd c hc
    obtain ⟨_, _, _, _, _, _, _, _, _, _, _, _, _, _, h8⟩ := SendCommand_ResolveArgs_ok _ c1 args hr
    have hv : v ≠ [] := by
      apply words_ne_nil cmd
      apply List.mem_of_mem_tail
      rw [hw, List.mem_flatten]
      exact ⟨["multicast".toList, v], List.mem_map.mpr ⟨_, hmem, rfl⟩, by simp⟩
    rw [hw] at hargs
    have hfind := (parseArgs_pairs_get fs _ _ _ hargs).1 _ hmem
    have hget : CommandArgs.get args "multicast".toList = v := by
      simp only [CommandArgs.get]
      rw [hfind]
      rfl
    rw [h8]
    show (!List.isEmpty (CommandArgs.get args "multicast".toList)) = true
    rw [hget]
    cases v with
    | nil => exact absurd rfl hv
    | cons a v => rfl

set_option maxRecDepth 100000 in
/-- Witness for C16 amended: the three parts at `send multicast`,
`send count 5 multicast` and `send count 1000 multicast true`. -/
theorem C16_multicast_needs_a_value_witness :
    New 0 "send multicast".toList = (.ok none, 0) ∧
    ((sendOf (New 0 "send count 5 multicast".toList)).isSome = true ∧
      ∀ c, sendOf (New 0 "send count 5 multicast".toList) = some c → c.is_multicast = false) ∧
    ((sendOf (New 0 "send count 1000 multicast true".toList)).isSome = true ∧
      ∀ c, sendOf (New 0 "send count 1000 multicast true".toList) = some c →
        c.is_multicast = true) :=
  ⟨(C16_multicast_needs_a_value 0 "send multicast".toList).1 (by decide),
   ⟨by decide,
    (C16_multicast_needs_a_value 0 "send count 5 multicast".toList).2.1
      [("count".toList, "5".toList)] (by decide)⟩,
   ⟨by decide,
    (C16_multicast_needs_a_value 0 "send count 1000 multicast true".toList).2.2
      [("count".toList, "1000".toList), ("multicast".toList, "true".toList)]
      "true".toList (by decide) (by decide)⟩⟩

/-! ## C17: the interval of an Echo command is positive -/

/-- What `EchoCommand::ResolveArgs` stores when it returns. -/
theorem EchoCommand_ResolveArgs_ok (c c1 : EchoCommand) (args : CommandArgs)
    (h : c.ResolveArgs args = .ok c1) :
    ∃ count interval size wait timeout speed time,
      intArg args "count" ECHO_DEFAULT_COUNT = .ok count ∧
      intervalArg args ECHO_DEFAULT_INTERVAL = .ok interval ∧
      intArg args "size" ECHO_DEFAULT_SIZE = .ok size ∧
      waitArg args ECHO_DEFAULT_WAIT = .ok wait ∧
      intArg args "timeout" ECHO_DEFAULT_TIMEOUT = .ok timeout ∧
      intArg args "speed" ECHO_DEFAULT_SPEED = .ok speed ∧
      intArg args "time" ECHO_DEFAULT_TIME = .ok time ∧
      c1.count_ =
        (if 0 < speed ∧ 0 < time then
          countFromSpeed speed time (if size = ECHO_DEFAULT_SIZE then 1472 else size)
        else if 0 < interval ∧ 0 < time then countFromInterval time interval else count) ∧
      c1.interval_ =
        (if (if 0 < speed ∧ 0 < time then
              intervalFromSpeed speed (if size = ECHO_DEFAULT_SIZE then 1472 else size)
            else interval) ≤ 0 then ECHO_DEFAULT_INTERVAL
         else (if 0 < speed ∧ 0 < time then
              intervalFromSpeed speed (if size = ECHO_DEFAULT_SIZE then 1472 else size)
            else interval)) ∧
      c1.size_ = (if 0 < speed ∧ 0 < time then (if size = ECHO_DEFAULT_SIZE then 1472 else size)
        else size) ∧
      c1.wait_ = wait ∧ c1.timeout_ = timeout := by
  unfold EchoCommand.ResolveArgs at h
  simp only [Except_bind_eq_ok] at h
  obtain ⟨count, h1, interval, h2, size, h3, wait, h4, timeout, h5, speed, h6, time, h7, h8⟩ := h
  refine ⟨count, interval, size, wait, timeout, speed, time, h1, h2, h3, h4, h5, h6, h7, ?_⟩
  simp only [pure, Except.pure, Except.ok.injEq] at h8
  rw [← h8]
  by_cases hst : 0 < speed ∧ 0 < time
  · simp [hst]
  · simp [hst]

/-- C17.  Whenever `EchoCommand::ResolveArgs` returns, the interval it leaves is greater
than 0 microseconds; it is 200000 microseconds when the line gives no interval and
does not give both a positive speed and a positive time. -/
theorem C17_echo_interval_positive (c c1 : EchoCommand) (args : CommandArgs)
    (h : c.ResolveArgs args = .ok c1) :
    0 < c1.interval_ ∧
    ((args.get "interval".toList).isEmpty = true →
      ∀ speed time, intArg args "speed" ECHO_DEFAULT_SPEED = .ok speed →
        intArg args "time" ECHO_DEFAULT_TIME = .ok time →
        ¬ (0 < speed ∧ 0 < time) → c1.interval_ = 200000) := by
  obtain ⟨count, interval, size, wait, timeout, speed, time, h1, h2, h3, h4, h5, h6, h7,
    _, hi, _⟩ := EchoCommand_ResolveArgs_ok c c1 args h
  constructor
  · rw [hi]
    generalize (if 0 < speed ∧ 0 < time then
        intervalFromSpeed speed (if size = ECHO_DEFAULT_SIZE then 1472 else size)
      else interval) = x
    by_cases hx : x ≤ 0
    · rw [if_pos hx]; decide
    · rw [if_neg hx]; omega
  · intro hno speed1 time1 hs ht hnot
    rw [h6] at hs
    rw [h7] at ht
    cases hs
    cases ht
    have hint : interval = ECHO_DEFAULT_INTERVAL := by
      unfold intervalArg at h2
      rw [if_pos hno] at h2
      cases h2
      rfl
    rw [hi, if_neg hnot, hint]
    decide

set_option maxRecDepth 100000 in
/-- Witness for C17: the arguments of `ping count 3 speed 10`. -/
theorem C17_echo_interval_positive_witness :
    0 < ({ (EchoCommand.new 0 []).1 with count_ := 3, timeout_ := 100 } : EchoCommand).interval_ ∧
    ({ (EchoCommand.new 0 []).1 with count_ := 3, timeout_ := 100 } : EchoCommand).interval_
      = 200000 :=
  ⟨(C17_echo_interval_positive (EchoCommand.new 0 []).1
      { (EchoCommand.new 0 []).1 with count_ := 3, timeout_ := 100 }
      [("count".toList, "3".toList), ("speed".toList, "10".toList)] (by decide)).1,
   (C17_echo_interval_positive (EchoCommand.new 0 []).1
      { (EchoCommand.new 0 []).1 with count_ := 3, timeout_ := 100 }
      [("count".toList, "3".toList), ("speed".toList, "10".toList)] (by decide)).2
      (by decide) 10 0 (by decide) (by decide) (by decide)⟩

/-! ## C18: the count derived from the interval and the time

### One division of two integers, truncated -/

theorem toInt_range (x : Double) : INT_MIN ≤ x.toInt ∧ x.toInt ≤ INT_MAX := by
  cases x with
  | fin m e =>
    simp only [Double.toInt]
    split
    · assumption
    · decide
  | inf b => simp only [Double.toInt]; decide
  | nan => simp only [Double.toInt]; decide

/-- The quotient of two positive integers computed in `double` and truncated is the
integer quotient, when the dividend is below `2 ^ 53` and the quotient fits an `int`. -/
theorem div_trunc_exact (x y : Double) (a b : Int) (hx : x.HasValue a) (hy : y.HasValue b)
    (ha : 0 < a) (ha2 : a < 2 ^ 53) (hb : 0 < b) (hb2 : b ≤ INT_MAX) (hq : a / b ≤ INT_MAX) :
    (Double.div x y).toInt = a / b := by
  have hbq : (0 : ℚ) < b := by exact_mod_cast hb
  have haq : (0 : ℚ) < a := by exact_mod_cast ha
  have hdm : b * (a / b) + a % b = a := Int.ediv_add_emod a b
  have hr0 : 0 ≤ a % b := Int.emod_nonneg a (by omega)
  have hrb : a % b < b := Int.emod_lt_of_pos a hb
  have hq0 : 0 ≤ a / b := Int.ediv_nonneg (by omega) (by omega)
  have hsplit : (a : ℚ) / b = ((a / b : Int) : ℚ) + ((a % b : Int) : ℚ) / b := by
    have : (a : ℚ) = (b : ℚ) * ((a / b : Int) : ℚ) + ((a % b : Int) : ℚ) := by
      exact_mod_cast hdm.symm
    field_simp
    linarith
  by_cases hr : a % b = 0
  · have hex : (a : ℚ) / b = ((a / b : Int) : ℚ) := by
      rw [hsplit, hr]; simp
    have hval := div_exact x y a b (a / b) hx hy (ne_of_gt hbq) hex (by
      have : a / b ≤ a := Int.ediv_le_self b (by omega)
      rw [abs_of_nonneg hq0]; omega)
    rw [toInt_value _ _ hval (by exact_mod_cast hq0) (by rw [Int.floor_intCast]; exact hq),
      Int.floor_intCast]
  · have hr1 : 1 ≤ a % b := by omega
    have hr1q : (1 : ℚ) ≤ ((a % b : Int) : ℚ) := by exact_mod_cast hr1
    have hrbq : ((a % b : Int) : ℚ) + 1 ≤ b := by exact_mod_cast (by omega : a % b + 1 ≤ b)
    have hqpos : (0 : ℚ) < (a : ℚ) / b := div_pos haq hbq
    have ha53 : (a : ℚ) < 2 ^ 53 := by exact_mod_cast ha2
    have hb31 : (b : ℚ) ≤ 2147483647 := by
      simp only [INT_MAX] at hb2
      exact_mod_cast hb2
    have hge : (1 : ℚ) / 2 ^ 64 ≤ (a : ℚ) / b := by
      have h1 : (1 : ℚ) / b ≤ (a : ℚ) / b :=
        div_le_div_of_nonneg_right (by exact_mod_cast (by omega : 1 ≤ a)) (le_of_lt hbq)
      have h3 : (1 : ℚ) / 2 ^ 64 ≤ 1 / b := by
        apply one_div_le_one_div_of_le hbq
        have : (2147483647 : ℚ) ≤ 2 ^ 64 := by norm_num
        linarith
      linarith
    have hle : (a : ℚ) / b ≤ 2 ^ 64 := by
      have h1 : (a : ℚ) / b ≤ a := div_le_self (le_of_lt haq) (by exact_mod_cast (by omega : 1 ≤ b))
      have : (2 : ℚ) ^ 53 ≤ 2 ^ 64 := by norm_num
      linarith
    obtain ⟨hlo, hhi⟩ := in_range _ hge hle
    obtain ⟨v, hv, herr⟩ := div_rel x y a b hx hy hlo hhi
    have herr2 : |(a : ℚ) / b| * (2 : ℚ) ^ (-53 : Int) < 1 / b := by
      rw [abs_of_pos hqpos, u53, div_mul_eq_mul_div, div_lt_div_iff₀ hbq hbq]
      have : (a : ℚ) * (1 / 2 ^ 53) < 1 := by
        rw [mul_one_div, div_lt_one (by positivity)]
        exact ha53
      nlinarith
    rw [abs_le] at herr
    have hone : (1 : ℚ) / b * b = 1 := by field_simp
    have hfrac1 : (1 : ℚ) / b ≤ ((a % b : Int) : ℚ) / b :=
      div_le_div_of_nonneg_right hr1q (le_of_lt hbq)
    have hfrac2 : ((a % b : Int) : ℚ) / b + 1 / b ≤ 1 := by
      rw [← add_div, div_le_one hbq]
      exact hrbq
    have hv1 : ((a / b : Int) : ℚ) ≤ v := by linarith [herr.1]
    have hv2 : v < ((a / b : Int) : ℚ) + 1 := by linarith [herr.2]
    have hfloor : ⌊v⌋ = a / b := Int.floor_eq_iff.mpr ⟨hv1, hv2⟩
    have hv0 : (0 : ℚ) ≤ v := le_trans (by exact_mod_cast hq0) hv1
    rw [toInt_value _ _ hv hv0 (by rw [hfloor]; exact hq), hfloor]

/-- The count `time * 1000.0 / interval_`, converted to `int`, is the integer quotient
when this fits an `int`. -/
theorem countFromInterval_spec (time interval : Int) (ht : 0 < time) (ht2 : time ≤ INT_MAX)
    (hi : 0 < interval) (hi2 : interval ≤ INT_MAX) (hq : time * 1000 / interval ≤ INT_MAX) :
    countFromInterval time interval = time * 1000 / interval := by
  simp only [INT_MAX] at ht2 hi2
  have h1 : (Double.ofInt time).HasValue time :=
    ofInt_value time (by rw [abs_of_pos ht]; omega)
  have h2 : (Double.ofInt 1000).HasValue (1000 : Int) := ofInt_value 1000 (by decide)
  have h3 : (Double.ofInt interval).HasValue interval :=
    ofInt_value interval (by rw [abs_of_pos hi]; omega)
  have hm : (Double.mul (Double.ofInt time) (Double.ofInt 1000)).HasValue
      ((time * 1000 : Int) : ℚ) :=
    mul_exact _ _ _ _ (time * 1000) h1 h2 (by push_cast; ring)
      (by rw [abs_of_pos (by omega)]; omega)
  unfold countFromInterval
  exact div_trunc_exact _ _ (time * 1000) interval hm h3 (by omega) (by omega) hi
    (by simp only [INT_MAX]; omega) hq

theorem intervalArg_range (args : CommandArgs) (dflt v : Int)
    (hd : INT_MIN ≤ dflt ∧ dflt ≤ INT_MAX) (h : intervalArg args dflt = .ok v) :
    INT_MIN ≤ v ∧ v ≤ INT_MAX := by
  unfold intervalArg at h
  split at h
  · cases h; exact hd
  · cases hs : stod (args.get "interval".toList) with
    | error e => rw [hs] at h; simp [Except.map] at h
    | ok d =>
      rw [hs] at h
      simp only [Except.map, Except.ok.injEq] at h
      rw [← h]
      exact toInt_range _

/-! ### The claim -/

set_option maxRecDepth 100000 in
/-- C18, as stated, is false where the quotient does not fit an `int`: for
`send time 3000000 interval 0.001` the interval is 1 microsecond, the quotient
`3000000 * 1000 / 1` is `3000000000`, and the count stored is `-2147483648`; the same
for `ping`. -/
theorem C18_quotient_does_not_fit :
    (sendOf (New 0 "send time 3000000 interval 0.001".toList)).map
        (fun c => (c.interval_, c.count_)) = some (1, -2147483648) ∧
    (echoOf (New 0 "ping time 3000000 interval 0.001".toList)).map
        (fun c => (c.interval_, c.count_)) = some (1, -2147483648) ∧
    Int.tdiv (3000000 * 1000) 1 = 3000000000 := by
  decide

/-- C18, amended.  For a send line and for a ping line that give a time `> 0` and an
interval whose value in microseconds is `> 0`, and no positive speed, the count that
`ResolveArgs` stores is the integer quotient `time * 1000 / interval_us` truncated
toward zero, provided the quotient fits an `int`. -/
theorem C18_count_from_interval (args : CommandArgs) (time interval speed : Int)
    (ht : 0 < time) (hi : 0 < interval) (hs : ¬ 0 < speed)
    (hfit : Int.tdiv (time * 1000) interval ≤ INT_MAX) :
    (∀ c c1 : SendCommand,
      intervalArg args SEND_DEFAULT_INTERVAL = .ok interval →
      intArg args "time" SEND_DEFAULT_TIME = .ok time →
      intArg args "speed" SEND_DEFAULT_SPEED = .ok speed →
      c.ResolveArgs args = .ok c1 → c1.count_ = Int.tdiv (time * 1000) interval) ∧
    (∀ c c1 : EchoCommand,
      intervalArg args ECHO_DEFAULT_INTERVAL = .ok interval →
      intArg args "time" ECHO_DEFAULT_TIME = .ok time →
      intArg args "speed" ECHO_DEFAULT_SPEED = .ok speed →
      c.ResolveArgs args = .ok c1 → c1.count_ = Int.tdiv (time * 1000) interval) := by
  have hdiv : Int.tdiv (time * 1000) interval = time * 1000 / interval :=
    Int.tdiv_eq_ediv (by omega) (by omega)
  rw [hdiv] at hfit ⊢
  constructor
  · intro c c1 h2 h7 h6 h
    obtain ⟨count, interval1, size, wait, timeout, speed1, time1, _, e2, _, _, _, e6, e7, h8⟩ :=
      SendCommand_ResolveArgs_ok c c1 args h
    rw [h2] at e2; rw [h6] at e6; rw [h7] at e7
    cases e2; cases e6; cases e7
    have ht2 := (intArg_range args "time" _ time (by decide) h7).2
    have hi2 := (intervalArg_range args _ interval (by decide) h2).2
    rw [h8]
    show (if 0 < speed ∧ 0 < time then countFromSpeed speed time size
      else if 0 < interval ∧ 0 < time then countFromInterval time interval else count) = _
    rw [if_neg (fun hc => hs hc.1), if_pos ⟨hi, ht⟩]
    exact countFromInterval_spec time interval ht ht2 hi hi2 hfit
  · intro c c1 h2 h7 h6 h
    obtain ⟨count, interval1, size, wait, timeout, speed1, time1, _, e2, _, _, _, e6, e7, hc,
      _⟩ := EchoCommand_ResolveArgs_ok c c1 args h
    rw [h2] at e2; rw [h6] at e6; rw [h7] at e7
    cases e2; cases e6; cases e7
    have ht2 := (intArg_range args "time" _ time (by decide) h7).2
    have hi2 := (intervalArg_range args _ interval (by decide) h2).2
    rw [hc, if_neg (fun hc => hs hc.1), if_pos ⟨hi, ht⟩]
    exact countFromInterval_spec time interval ht ht2 hi hi2 hfit

set_option maxRecDepth 100000 in
/-- Witness for C18 amended: the arguments of `send time 1000 interval 0.3`, with the
interval 300 microseconds and the count `1000000 / 300 = 3333`. -/
theorem C18_count_from_interval_witness :
    ({ (SendCommand.new 0 []).1 with count_ := 3333, interval_ := 300 } : SendCommand).count_
      = Int.tdiv (1000 * 1000) 300 :=
  (C18_count_from_interval
    [("time".toList, "1000".toList), ("interval".toList, "0.3".toList)] 1000 300 0
    (by decide) (by decide) (by decide) (by decide)).1
    (SendCommand.new 0 []).1
    { (SendCommand.new 0 []).1 with count_ := 3333, interval_ := 300 }
    (by decide) (by decide) (by decide) (by decide)

/-! ## C19: the units of `interval`, `wait`, `size` and `timeout`

### `std::stod` on a decimal number -/

theorem takeWhile_digits_append (ip rest : Str) (h : IsDigits ip)
    (hr : ∀ c, rest.head? = some c → isdigit c = false) :
    (ip ++ rest).takeWhile isdigit = ip ∧ (ip ++ rest).dropWhile isdigit = rest := by
  induction ip with
  | nil =>
    cases rest with
    | nil => simp
    | cons c rest =>
      have := hr c rfl
      simp [List.takeWhile, List.dropWhile, this]
  | cons a ip ih =>
    have ha : isdigit a = true := h a (by simp)
    have := ih (fun c hc => h c (by simp [hc]))
    simp [List.takeWhile, List.dropWhile, ha, this]

theorem digit_code (a : Char) (h : isdigit a = true) : 48 ≤ a.toNat ∧ a.toNat ≤ 57 := by
  simpa [isdigit] using h

theorem startsNoCase_digit (a : Char) (rest : Str) (h : isdigit a = true) :
    startsNoCase (a :: rest) "inf" = false ∧ startsNoCase (a :: rest) "nan" = false := by
  obtain ⟨h1, h2⟩ := digit_code a h
  have hlow : (if 65 ≤ a.toNat ∧ a.toNat ≤ 90 then a.toNat + 32 else a.toNat) = a.toNat := by
    rw [if_neg]; omega
  constructor
  · unfold startsNoCase lowerCodes
    rw [beq_eq_false_iff_ne]
    intro hc
    have : ("inf".length) = 3 := by decide
    rw [this] at hc
    simp only [List.take_succ_cons, List.map_cons, hlow] at hc
    have h3 : a.toNat = 105 := by
      have := congrArg List.head? hc
      simpa using this
    omega
  · unfold startsNoCase lowerCodes
    rw [beq_eq_false_iff_ne]
    intro hc
    have : ("nan".length) = 3 := by decide
    rw [this] at hc
    simp only [List.take_succ_cons, List.map_cons, hlow] at hc
    have h3 : a.toNat = 110 := by
      have := congrArg List.head? hc
      simpa using this
    omega

theorem startsNoCase_0x (t : Str) (h : ∀ c ∈ t, isdigit c = true ∨ c = '.') :
    startsNoCase t "0x" = false := by
  unfold startsNoCase lowerCodes
  rw [beq_eq_false_iff_ne]
  intro hc
  have hl : ("0x".length) = 2 := by decide
  rw [hl] at hc
  cases t with
  | nil => simp at hc
  | cons a t =>
    cases t with
    | nil => simp at hc
    | cons b t =>
      simp only [List.take_succ_cons, List.map_cons] at hc
      have hb := h b (by simp)
      have h3 : (if 65 ≤ b.toNat ∧ b.toNat ≤ 90 then b.toNat + 32 else b.toNat) = 120 := by
        have := congrArg (fun l => l.tail.head?) hc
        simpa using this
      rcases hb with hb | hb
      · obtain ⟨h1, h2⟩ := digit_code b hb
        rw [if_neg (by omega)] at h3
        omega
      · rw [hb] at h3
        revert h3
        decide

theorem decimalText_eq (ip fp : Str) :
    decimalText ip fp = ip ++ (if fp.isEmpty then [] else '.' :: fp) := by
  unfold decimalText
  split <;> simp

theorem strtodDecimal_decimal (a : Char) (ip1 fp : Str) (hd1 : IsDigits (a :: ip1))
    (hd2 : IsDigits fp) :
    strtodDecimal (decimalText (a :: ip1) fp)
      = some (roundChecked (digitsVal (a :: ip1 ++ fp) * 10 ^ 0) (10 ^ fp.length) 0) := by
  rw [decimalText_eq]
  by_cases hfp : fp = []
  · subst hfp
    have h1 := takeWhile_digits_append (a :: ip1) [] hd1 (by simp)
    simp only [List.isEmpty_nil, if_true, List.append_nil] at h1 ⊢
    simp only [strtodDecimal, h1.1, h1.2]
    simp
  · have hne : fp.isEmpty = false := by
      cases fp with
      | nil => exact absurd rfl hfp
      | cons b fp => rfl
    have h1 := takeWhile_digits_append (a :: ip1) ('.' :: fp) hd1 (by
      intro c hc
      simp only [List.head?_cons, Option.some.injEq] at hc
      rw [← hc]; decide)
    have h2 := takeWhile_digits_append fp [] hd2 (by simp)
    simp only [List.append_nil] at h2
    simp only [hne, Bool.false_eq_true, if_false]
    simp only [strtodDecimal, h1.1, h1.2, List.head?_cons, List.tail_cons, h2.1, h2.2]
    simp [exponentVal]

/-- The conversion `strtod` reads the whole of a decimal number. -/
theorem strtod_decimal (ip fp : Str) (hip : ip ≠ []) (hd1 : IsDigits ip) (hd2 : IsDigits fp) :
    strtod (decimalText ip fp)
      = some (roundChecked (digitsVal (ip ++ fp) * 10 ^ 0) (10 ^ fp.length) 0) := by
  obtain ⟨a, ip1, rfl⟩ : ∃ a ip1, ip = a :: ip1 := by
    cases ip with
    | nil => exact absurd rfl hip
    | cons a ip1 => exact ⟨a, ip1, rfl⟩
  have hall : ∀ c ∈ decimalText (a :: ip1) fp, isdigit c = true ∨ c = '.' := by
    intro c hc
    rw [decimalText_eq] at hc
    rw [List.mem_append] at hc
    rcases hc with hc | hc
    · exact Or.inl (hd1 c hc)
    · split at hc
      · simp at hc
      · simp only [List.mem_cons] at hc
        rcases hc with hc | hc
        · exact Or.inr hc
        · exact Or.inl (hd2 c hc)
  have hdec := strtodDecimal_decimal a ip1 fp hd1 hd2
  have ha : isdigit a = true := hd1 a (by simp)
  obtain ⟨c1, c2⟩ := digit_code a ha
  obtain ⟨rest, hrest⟩ : ∃ rest, decimalText (a :: ip1) fp = a :: rest := by
    rw [decimalText_eq]
    exact ⟨_, rfl⟩
  have hsp : isspace a = false := isdigit_not_space a ha
  have hun : strtodUnsigned (decimalText (a :: ip1) fp)
      = some (roundChecked (digitsVal (a :: ip1 ++ fp) * 10 ^ 0) (10 ^ fp.length) 0) := by
    unfold strtodUnsigned
    rw [startsNoCase_0x _ hall]
    rw [hrest, (startsNoCase_digit a rest ha).1, (startsNoCase_digit a rest ha).2, ← hrest]
    simp only [Bool.false_eq_true, if_false]
    exact hdec
  have hhead : (decimalText (a :: ip1) fp).head? = some a := by rw [hrest]; rfl
  have hm : ((decimalText (a :: ip1) fp).head? == some '-') = false := by
    rw [hhead, beq_eq_false_iff_ne]
    intro h
    simp only [Option.some.injEq] at h
    rw [h] at c1; revert c1; decide
  have hp : ((decimalText (a :: ip1) fp).head? == some '+') = false := by
    rw [hhead, beq_eq_false_iff_ne]
    intro h
    simp only [Option.some.injEq] at h
    rw [h] at c1; revert c1; decide
  have hdw : (decimalText (a :: ip1) fp).dropWhile isspace = decimalText (a :: ip1) fp := by
    rw [hrest]
    simp [List.dropWhile, hsp]
  simp only [strtod, hdw, hm, hp, Bool.or_false, Bool.false_eq_true, if_false, hun]

/-! ### A lower bound that the rounding keeps -/

theorem roundHalfEven_ge (a b M : Nat) (hb : 0 < b)
    (h : 2 * (b * M) < 2 * a + b) : M ≤ roundHalfEven a b := by
  have hdm := Nat.div_add_mod a b
  have hr := Nat.mod_lt a hb
  have hge : a / b ≤ roundHalfEven a b := by
    unfold roundHalfEven
    split
    · exact le_refl _
    · split
      · omega
      · split <;> omega
  by_cases hq : M ≤ a / b
  · exact le_trans hq hge
  · have hMq : M = a / b + 1 := by
      by_contra hne
      have hq2 : a / b + 2 ≤ M := by omega
      have h4 : b * (a / b + 2) ≤ b * M := Nat.mul_le_mul_left b hq2
      have h5 : b * (a / b + 2) = b * (a / b) + 2 * b := by ring
      omega
    have h3 : b * M = b * (a / b) + b := by rw [hMq]; ring
    have hlt : b < 2 * (a % b) := by omega
    unfold roundHalfEven
    rw [if_neg (by omega), if_pos hlt]
    omega

theorem roundHalfEven_ge_rat (a b M : Nat) (hb : 0 < b)
    (h : (2 * (M : ℚ) - 1) < 2 * ((a : ℚ) / b)) : M ≤ roundHalfEven a b := by
  apply roundHalfEven_ge a b M hb
  have hbq : (0 : ℚ) < b := by exact_mod_cast hb
  have h1 : (2 * (M : ℚ) - 1) * b < 2 * a := by
    have := mul_lt_mul_of_pos_right h hbq
    rw [mul_assoc, div_mul_cancel₀ _ (ne_of_gt hbq)] at this
    exact this
  have h2 : ((2 * (b * M) : Nat) : ℚ) < ((2 * a + b : Nat) : ℚ) := by
    push_cast
    linarith
  exact_mod_cast h2

/-- Rounding an exact value `q` that lies in the binade of `M * 2 ^ E` or above, and
above `(M - 1/2) * 2 ^ E`, gives at least `M * 2 ^ E`. -/
theorem roundRatio_lower (n : Int) (d : Nat) (k : Int) (M : Nat) (E : Int)
    (hn : 0 < n) (hd : 0 < d) (hM2 : M ≤ 2 ^ 53) (hE : -1074 ≤ E)
    (hq1 : (2 : ℚ) ^ (52 + E) ≤ (n : ℚ) / d * (2 : ℚ) ^ k)
    (hq2 : (2 * (M : ℚ) - 1) * (2 : ℚ) ^ E < 2 * ((n : ℚ) / d * (2 : ℚ) ^ k))
    (hhi : (n : ℚ) / d * (2 : ℚ) ^ k < (2 : ℚ) ^ (1023 : Int)) :
    ∃ r, (roundRatio n d k).HasValue r ∧ (M : ℚ) * (2 : ℚ) ^ E ≤ r := by
  have h2 : (1 : ℚ) < 2 := by norm_num
  have hn0 : n ≠ 0 := by omega
  have hnq : (0 : ℚ) < n := by exact_mod_cast hn
  have hdq : (0 : ℚ) < d := by exact_mod_cast hd
  have hqpos : (0 : ℚ) < (n : ℚ) / d * (2 : ℚ) ^ k :=
    mul_pos (div_pos hnq hdq) (zpow_pos (by norm_num) _)
  obtain ⟨b1, b2⟩ := expo_bracket n d k hn0 hd
  rw [abs_of_pos hqpos] at b1 b2
  have he1 : 52 + E < expo n.natAbs d + k + 1 :=
    (zpow_lt_zpow_iff_right₀ h2).mp (lt_of_le_of_lt hq1 b2)
  have he2 : expo n.natAbs d + k < 1023 :=
    (zpow_lt_zpow_iff_right₀ h2).mp (lt_of_le_of_lt b1 hhi)
  have hu : ulpExp n.natAbs d k = expo n.natAbs d + k - 52 := by
    unfold ulpExp; omega
  have hupos : (0 : ℚ) < (2 : ℚ) ^ (ulpExp n.natAbs d k) := zpow_pos (by norm_num) _
  have hB : 0 < d * 2 ^ (ulpExp n.natAbs d k - k).toNat := Nat.mul_pos hd (by positivity)
  have hratio := roundMant_ratio n.natAbs d k (ulpExp n.natAbs d k) hd
  have hna : ((n.natAbs : Nat) : ℚ) = n := by
    rw [natAbs_cast_abs, abs_of_pos hnq]
  rw [hna] at hratio
  rw [roundRatio_fin n d k hn0 (by omega), if_neg (by omega)]
  refine ⟨_, ⟨_, _, rfl, rfl⟩, ?_⟩
  rw [Int.cast_natCast]
  by_cases hcase : expo n.natAbs d + k = 52 + E
  · have huE : ulpExp n.natAbs d k = E := by omega
    have hm : M ≤ roundMant n.natAbs d k := by
      unfold roundMant
      apply roundHalfEven_ge_rat _ _ M hB
      rw [hratio, huE]
      have hEpos : (0 : ℚ) < (2 : ℚ) ^ E := zpow_pos (by norm_num) _
      rw [← mul_div_assoc, lt_div_iff₀ hEpos]
      exact hq2
    rw [huE]
    exact mul_le_mul_of_nonneg_right (by exact_mod_cast hm) (le_of_lt (zpow_pos (by norm_num) _))
  · have hm : 2 ^ 52 ≤ roundMant n.natAbs d k := by
      unfold roundMant
      apply roundHalfEven_ge_rat _ _ (2 ^ 52) hB
      rw [hratio]
      have h52 : (2 : ℚ) ^ (52 : Int) ≤ (n : ℚ) / d * (2 : ℚ) ^ k / (2 : ℚ) ^ ulpExp n.natAbs d k := by
        rw [le_div_iff₀ hupos, ← zpow_add₀ (by norm_num), hu]
        rw [show (52 : Int) + (expo n.natAbs d + k - 52) = expo n.natAbs d + k by ring]
        exact b1
      have e52 : ((2 ^ 52 : Nat) : ℚ) = (2 : ℚ) ^ (52 : Int) := by norm_num
      rw [e52]
      linarith
    have hMq : (M : ℚ) ≤ (2 : ℚ) ^ (53 : Int) := by
      have : ((M : Nat) : ℚ) ≤ ((2 ^ 53 : Nat) : ℚ) := by exact_mod_cast hM2
      rw [show ((53 : Int)) = ((53 : Nat) : Int) by norm_num, zpow_natCast]
      exact_mod_cast this
    have hmq : (2 : ℚ) ^ (52 : Int) ≤ ((roundMant n.natAbs d k : Nat) : ℚ) := by
      have : ((2 ^ 52 : Nat) : ℚ) ≤ ((roundMant n.natAbs d k : Nat) : ℚ) := by exact_mod_cast hm
      rw [show ((52 : Int)) = ((52 : Nat) : Int) by norm_num, zpow_natCast]
      exact_mod_cast this
    have hEpos : (0 : ℚ) < (2 : ℚ) ^ E := zpow_pos (by norm_num) _
    calc (M : ℚ) * (2 : ℚ) ^ E ≤ (2 : ℚ) ^ (53 : Int) * (2 : ℚ) ^ E :=
          mul_le_mul_of_nonneg_right hMq (le_of_lt hEpos)
      _ = (2 : ℚ) ^ (53 + E) := (zpow_add₀ (by norm_num) _ _).symm
      _ ≤ (2 : ℚ) ^ (expo n.natAbs d + k) := zpow_le_zpow_right₀ (by norm_num) (by omega)
      _ = (2 : ℚ) ^ (52 : Int) * (2 : ℚ) ^ ulpExp n.natAbs d k := by
          rw [← zpow_add₀ (by norm_num), hu]; congr 1; ring
      _ ≤ ((roundMant n.natAbs d k : Nat) : ℚ) * (2 : ℚ) ^ ulpExp n.natAbs d k :=
          mul_le_mul_of_nonneg_right hmq (le_of_lt hupos)

/-! ### The interval in microseconds -/

theorem decimalValue_eq (ip fp : Str) :
    ((((digitsVal (ip ++ fp) * 10 ^ 0 : Nat) : Int) : ℚ)) / ((10 ^ fp.length : Nat) : ℚ)
        * (2 : ℚ) ^ (0 : Int) = decimalValue ip fp := by
  unfold decimalValue
  push_cast
  simp

/-- A product of two `double`s whose exact value is at least `1` is at least `1`. -/
theorem mul_ge_one (x y : Double) (p q : ℚ) (hx : x.HasValue p) (hy : y.HasValue q)
    (h1 : 1 ≤ p * q) (hhi : p * q < (2 : ℚ) ^ (1023 : Int)) :
    ∃ r, (Double.mul x y).HasValue r ∧ 1 ≤ r := by
  obtain ⟨m1, e1, rfl, v1⟩ := hx
  obtain ⟨m2, e2, rfl, v2⟩ := hy
  have hval : ((m1 * m2 : Int) : ℚ) / (1 : Nat) * (2 : ℚ) ^ (e1 + e2) = p * q := by
    rw [← v1, ← v2, zpow_add₀ (by norm_num)]; push_cast; ring
  have hpos : 0 < m1 * m2 := by
    by_contra hc
    have hle : ((m1 * m2 : Int) : ℚ) ≤ 0 := by exact_mod_cast (not_lt.mp hc)
    have : ((m1 * m2 : Int) : ℚ) / (1 : Nat) * (2 : ℚ) ^ (e1 + e2) ≤ 0 := by
      rw [Nat.cast_one, div_one]
      exact mul_nonpos_of_nonpos_of_nonneg hle (le_of_lt (zpow_pos (by norm_num) _))
    rw [hval] at this
    linarith
  obtain ⟨r, hr, hge⟩ := roundRatio_lower (m1 * m2) 1 (e1 + e2) (2 ^ 52) (-52) hpos
    (by norm_num) (by norm_num) (by norm_num)
    (by rw [hval]; norm_num; exact h1)
    (by
      rw [hval]
      have : (2 * (((2 ^ 52 : Nat) : ℚ)) - 1) * (2 : ℚ) ^ (-52 : Int) < 2 := by
        rw [zpow_neg, show ((52 : Int)) = ((52 : Nat) : Int) by norm_num, zpow_natCast]
        norm_num
      linarith)
    (by rw [hval]; exact hhi)
  refine ⟨r, hr, le_trans ?_ hge⟩
  rw [zpow_neg, show ((52 : Int)) = ((52 : Nat) : Int) by norm_num, zpow_natCast]
  norm_num

/-- What `std::stod` returns for a decimal number between `0.001` and `2147483.646`:
a `double` within `2 ^ (-53)` (relative) of the number, and not below `0.001`. -/
theorem stod_decimal (ip fp : Str) (hip : ip ≠ []) (hd1 : IsDigits ip) (hd2 : IsDigits fp)
    (hlo : 1 ≤ decimalValue ip fp * 1000) (hhi : decimalValue ip fp * 1000 ≤ 2147483646) :
    ∃ r, stod (decimalText ip fp)
        = .ok (roundRatio ((digitsVal (ip ++ fp) * 10 ^ 0 : Nat) : Int) (10 ^ fp.length) 0) ∧
      (roundRatio ((digitsVal (ip ++ fp) * 10 ^ 0 : Nat) : Int) (10 ^ fp.length) 0).HasValue r ∧
      |r - decimalValue ip fp| ≤ |decimalValue ip fp| * (2 : ℚ) ^ (-53 : Int) ∧
      1 ≤ r * 1000 := by
  have hx1 : (1 : ℚ) / 1000 ≤ decimalValue ip fp := by linarith
  have hx2 : decimalValue ip fp ≤ 2147483646 / 1000 := by linarith
  have hval := decimalValue_eq ip fp
  have hD : 0 < 10 ^ fp.length := by positivity
  have hnpos : (0 : Int) < ((digitsVal (ip ++ fp) * 10 ^ 0 : Nat) : Int) := by
    by_contra hc
    have h0 : ((digitsVal (ip ++ fp) * 10 ^ 0 : Nat) : Int) = 0 := by omega
    rw [h0] at hval
    simp only [Int.cast_zero, zero_div, zero_mul] at hval
    rw [← hval] at hx1
    norm_num at hx1
  have hn0 : digitsVal (ip ++ fp) * 10 ^ 0 ≠ 0 := by
    intro h; rw [h] at hnpos; exact absurd hnpos (by decide)
  obtain ⟨hr1, hr2⟩ := in_range (decimalValue ip fp)
    (le_trans (by norm_num) hx1) (le_trans hx2 (by norm_num))
  obtain ⟨r, hr, herr⟩ := roundRatio_rel _ (10 ^ fp.length) 0 (ne_of_gt hnpos) hD
    (by rw [hval]; exact hr1) (by rw [hval]; exact hr2)
  rw [hval] at herr
  -- the value is not below the `double` nearest to `0.001`
  obtain ⟨r', hr', hge⟩ := roundRatio_lower _ (10 ^ fp.length) 0 4611686018427388 (-62)
    hnpos hD (by norm_num) (by norm_num)
    (by
      rw [hval]
      have : (2 : ℚ) ^ ((52 : Int) + -62) ≤ 1 / 1000 := by
        rw [show ((52 : Int) + -62) = -(10 : Int) by norm_num, zpow_neg,
          show ((10 : Int)) = ((10 : Nat) : Int) by norm_num, zpow_natCast]
        norm_num
      exact le_trans this hx1)
    (by
      rw [hval]
      have : (2 * ((4611686018427388 : Nat) : ℚ) - 1) * (2 : ℚ) ^ (-62 : Int) < 2 * (1 / 1000) := by
        rw [zpow_neg, show ((62 : Int)) = ((62 : Nat) : Int) by norm_num, zpow_natCast]
        norm_num
      exact lt_of_lt_of_le this (by linarith))
    (by
      rw [hval]
      exact lt_of_le_of_lt (le_abs_self _) hr2)
  have hrr : r' = r := hasValue_unique _ _ _ hr' hr
  rw [hrr] at hge
  have hge1 : 1 ≤ r * 1000 := by
    have : (1 : ℚ) ≤ ((4611686018427388 : Nat) : ℚ) * (2 : ℚ) ^ (-62 : Int) * 1000 := by
      rw [zpow_neg, show ((62 : Int)) = ((62 : Nat) : Int) by norm_num, zpow_natCast]
      norm_num
    linarith
  -- `errno` stays clear
  obtain ⟨m, e, hfin, _⟩ := hr
  have hexp : ¬ (expo (digitsVal (ip ++ fp) * 10 ^ 0) (10 ^ fp.length) + 0 < -1022) := by
    obtain ⟨b1, b2⟩ := expo_bracket _ (10 ^ fp.length) 0 (ne_of_gt hnpos) hD
    rw [hval, abs_of_pos (by linarith)] at b2
    simp only [Int.natAbs_ofNat] at b2
    have h2 : (1 : ℚ) < 2 := by norm_num
    have : (2 : ℚ) ^ (-10 : Int) < (2 : ℚ) ^ (expo (digitsVal (ip ++ fp) * 10 ^ 0)
        (10 ^ fp.length) + 0 + 1) := by
      refine lt_of_le_of_lt ?_ b2
      rw [zpow_neg, show ((10 : Int)) = ((10 : Nat) : Int) by norm_num, zpow_natCast]
      norm_num
      linarith
    have := (zpow_lt_zpow_iff_right₀ h2).mp this
    omega
  refine ⟨r, ?_, ⟨m, e, hfin, by assumption⟩, herr, hge1⟩
  unfold stod
  rw [strtod_decimal ip fp hip hd1 hd2]
  simp only [roundChecked, if_neg hn0, hfin, decide_eq_false hexp, Bool.false_and, Bool.or_false]
  rfl

/-- The interval argument given as a decimal number of milliseconds between `0.001`
and `2147483.646`: the microseconds stored are positive and differ from
`floor (I * 1000)` by one at most; they are `I * 1000` when `I` has no fraction. -/
theorem intervalArg_decimal (args : CommandArgs) (dflt : Int) (ip fp : Str)
    (hI : args.get "interval".toList = decimalText ip fp)
    (hip : ip ≠ []) (hd1 : IsDigits ip) (hd2 : IsDigits fp)
    (hlo : 1 ≤ decimalValue ip fp * 1000) (hhi : decimalValue ip fp * 1000 ≤ 2147483646) :
    ∃ v, intervalArg args dflt = .ok v ∧ 1 ≤ v ∧ |v - ⌊decimalValue ip fp * 1000⌋| ≤ 1 ∧
      (fp = [] → v = (digitsVal ip : Int) * 1000) := by
  obtain ⟨r, hstod, hr, herr, hr1⟩ := stod_decimal ip fp hip hd1 hd2 hlo hhi
  have hx0 : (0 : ℚ) < decimalValue ip fp := by linarith
  obtain ⟨ra, rb⟩ := rel_bounds r _ (le_of_lt hx0) herr
  have h1000 : (Double.ofInt 1000).HasValue ((1000 : Int) : ℚ) := ofInt_value 1000 (by decide)
  have hrle : r * 1000 ≤ 2147483647 := by
    have : decimalValue ip fp * (1 + 1 / 2 ^ 53) * 1000 ≤ 2147483647 := by
      have e : decimalValue ip fp * (1 + 1 / 2 ^ 53) * 1000
          = decimalValue ip fp * 1000 * (1 + 1 / 2 ^ 53) := by ring
      rw [e]
      have := mul_le_mul_of_nonneg_right hhi (show (0 : ℚ) ≤ 1 + 1 / 2 ^ 53 by norm_num)
      refine le_trans this ?_
      norm_num
    linarith
  have hprod : r * ((1000 : Int) : ℚ) = r * 1000 := by norm_num
  obtain ⟨hm1, hm2⟩ := in_range (r * 1000) (le_trans (by norm_num) hr1)
    (le_trans hrle (by norm_num))
  obtain ⟨r2, hr2, herr2⟩ := mul_rel _ _ r _ hr h1000 (by rw [hprod]; exact hm1)
    (by rw [hprod]; exact hm2)
  rw [hprod] at herr2
  obtain ⟨r2', hr2', hge⟩ := mul_ge_one _ _ r _ hr h1000 (by rw [hprod]; exact hr1)
    (by rw [hprod]; exact lt_of_le_of_lt (le_abs_self _) hm2)
  have hsame : r2' = r2 := hasValue_unique _ _ _ hr2' hr2
  rw [hsame] at hge
  obtain ⟨sa, sb⟩ := rel_bounds r2 _ (by linarith) herr2
  -- the product is within one of `I * 1000`
  have hup : r2 ≤ decimalValue ip fp * 1000 + 1 := by
    have h1 : r * 1000 * (1 + 1 / 2 ^ 53)
        ≤ decimalValue ip fp * (1 + 1 / 2 ^ 53) * 1000 * (1 + 1 / 2 ^ 53) :=
      mul_le_mul_of_nonneg_right (by linarith) (by norm_num)
    have h2 : decimalValue ip fp * (1 + 1 / 2 ^ 53) * 1000 * (1 + 1 / 2 ^ 53)
        = decimalValue ip fp * 1000 + decimalValue ip fp * 1000 * ((1 + 1 / 2 ^ 53) ^ 2 - 1) := by
      ring
    have h3 : decimalValue ip fp * 1000 * ((1 + 1 / 2 ^ 53) ^ 2 - 1)
        ≤ 2147483646 * ((1 + 1 / 2 ^ 53) ^ 2 - 1) :=
      mul_le_mul_of_nonneg_right hhi (by norm_num)
    have h4 : (2147483646 : ℚ) * ((1 + 1 / 2 ^ 53) ^ 2 - 1) ≤ 1 := by norm_num
    linarith
  have hdown : decimalValue ip fp * 1000 - 1 ≤ r2 := by
    have h1 : decimalValue ip fp * (1 - 1 / 2 ^ 53) * 1000 * (1 - 1 / 2 ^ 53)
        ≤ r * 1000 * (1 - 1 / 2 ^ 53) :=
      mul_le_mul_of_nonneg_right (by linarith) (by norm_num)
    have h2 : decimalValue ip fp * (1 - 1 / 2 ^ 53) * 1000 * (1 - 1 / 2 ^ 53)
        = decimalValue ip fp * 1000 - decimalValue ip fp * 1000 * (1 - (1 - 1 / 2 ^ 53) ^ 2) := by
      ring
    have h3 : decimalValue ip fp * 1000 * (1 - (1 - 1 / 2 ^ 53) ^ 2)
        ≤ 2147483646 * (1 - (1 - 1 / 2 ^ 53) ^ 2) :=
      mul_le_mul_of_nonneg_right hhi (by norm_num)
    have h4 : (2147483646 : ℚ) * (1 - (1 - 1 / 2 ^ 53) ^ 2) ≤ 1 := by norm_num
    linarith
  have hfl1 : ⌊r2⌋ ≤ ⌊decimalValue ip fp * 1000⌋ + 1 := by
    have := Int.floor_le_floor hup
    rwa [Int.floor_add_one] at this
  have hfl2 : ⌊decimalValue ip fp * 1000⌋ - 1 ≤ ⌊r2⌋ := by
    have := Int.floor_le_floor hdown
    rwa [Int.floor_sub_one] at this
  have hflmax : ⌊decimalValue ip fp * 1000⌋ ≤ 2147483646 := by
    have := Int.floor_le_floor hhi
    rwa [show ((2147483646 : ℚ)) = ((2147483646 : Int) : ℚ) by norm_num, Int.floor_intCast] at this
  have htoInt : (Double.mul (roundRatio ((digitsVal (ip ++ fp) * 10 ^ 0 : Nat) : Int)
      (10 ^ fp.length) 0) (Double.ofInt 1000)).toInt = ⌊r2⌋ :=
    toInt_value _ _ hr2 (by linarith) (by simp only [INT_MAX]; omega)
  have hne : (decimalText ip fp).isEmpty = false := by
    rw [decimalText_eq]
    cases ip with
    | nil => exact absurd rfl hip
    | cons a ip => rfl
  refine ⟨⌊r2⌋, ?_, ?_, ?_, ?_⟩
  · unfold intervalArg
    rw [hI, hne, hstod]
    simp only [Bool.false_eq_true, if_false, Except.map, htoInt]
  · exact Int.le_floor.mpr (by exact_mod_cast hge)
  · rw [abs_le]; constructor <;> omega
  · intro hfp
    subst hfp
    have hN : (roundRatio ((digitsVal (ip ++ []) * 10 ^ 0 : Nat) : Int) (10 ^ ([] : Str).length)
        0).HasValue ((digitsVal ip : Int) : ℚ) := by
      apply roundRatio_exact _ _ 0 (by simp) (digitsVal ip : Int)
      · have := decimalValue_eq ip []
        rw [this]
        simp [decimalValue]
      · have hv : decimalValue ip [] = (digitsVal ip : ℚ) := by simp [decimalValue]
        rw [hv] at hhi
        have : (digitsVal ip : ℚ) ≤ 2147483646 := by linarith [show (0:ℚ) ≤ (digitsVal ip : ℚ) from by positivity]
        have h2 : (digitsVal ip : Int) ≤ 2147483646 := by exact_mod_cast this
        rw [abs_of_nonneg (by positivity)]
        omega
    have hrN : r = ((digitsVal ip : Int) : ℚ) := hasValue_unique _ _ _ hr hN
    have hv : decimalValue ip [] = (digitsVal ip : ℚ) := by simp [decimalValue]
    have hle : ((digitsVal ip : Int) : ℚ) * 1000 ≤ 2147483646 := by
      rw [hv] at hhi
      exact_mod_cast hhi
    have hle2 : (digitsVal ip : Int) * 1000 ≤ 2147483646 := by exact_mod_cast hle
    have hM := mul_exact _ _ _ _ ((digitsVal ip : Int) * 1000) hN h1000 (by push_cast; ring)
      (by rw [abs_of_nonneg (by positivity)]; omega)
    have : r2 = (((digitsVal ip : Int) * 1000 : Int) : ℚ) := hasValue_unique _ _ _ hr2 hM
    rw [this, Int.floor_intCast]

/-! ### The integer arguments -/

theorem showInt_ne_nil (v : Int) : showInt v ≠ [] := by
  unfold showInt
  split
  · simp
  · exact showNat_ne_nil _

theorem stoi_showInt (v : Int) (h : INT_MIN ≤ v ∧ v ≤ INT_MAX) : stoi (showInt v) = .ok v := by
  unfold stoi
  rw [strtolValue_showInt]
  simp only
  rw [if_neg]
  omega

theorem intArg_showInt (args : CommandArgs) (key : String) (dflt v : Int)
    (hk : args.get key.toList = showInt v) (h : INT_MIN ≤ v ∧ v ≤ INT_MAX) :
    intArg args key dflt = .ok v := by
  unfold intArg
  rw [hk]
  have : (showInt v).isEmpty = false := by
    cases hs : showInt v with
    | nil => exact absurd hs (showInt_ne_nil v)
    | cons a l => rfl
  rw [this]
  simp only [Bool.false_eq_true, if_false]
  exact stoi_showInt v h

theorem waitArg_showInt (args : CommandArgs) (dflt W : Int)
    (hk : args.get "wait".toList = showInt W)
    (h : INT_MIN ≤ W * 1000 ∧ W * 1000 ≤ INT_MAX) :
    waitArg args dflt = .ok (W * 1000) := by
  have hW : INT_MIN ≤ W ∧ W ≤ INT_MAX := by
    simp only [INT_MIN, INT_MAX] at h ⊢
    omega
  unfold waitArg
  rw [hk]
  have : (showInt W).isEmpty = false := by
    cases hs : showInt W with
    | nil => exact absurd hs (showInt_ne_nil W)
    | cons a l => rfl
  rw [this, stoi_showInt W hW]
  simp only [Bool.false_eq_true, if_false, Except.map]
  rw [wrap32_of_range _ h]

/-! ### The claim -/

set_option maxRecDepth 100000 in
/-- C19, as stated, is false.  For `interval 1.001` the number `I * 1000` is `1001`
and the interval stored is `1000` microseconds, for `send` and for `ping`: the nearest
`double` to `1.001` is below it, and so is its product by `1000`.  For
`wait 3000000` the `int` product `W * 1000` does not fit and the wait stored is
`-1294967296`. -/
theorem C19_interval_is_not_the_floor :
    decimalText "1".toList "001".toList = "1.001".toList ∧
    decimalValue "1".toList "001".toList * 1000 = 1001 ∧
    (sendOf (New 0 "send interval 1.001 wait 1 size 64 timeout 100".toList)).map
        (fun c => (c.interval_, c.wait_, c.size_, c.timeout_)) = some (1000, 1000, 64, 100) ∧
    (echoOf (New 0 "ping interval 1.001 wait 1 size 64 timeout 100".toList)).map
        (fun c => (c.interval_, c.wait_, c.size_, c.timeout_)) = some (1000, 1000, 64, 100) ∧
    (sendOf (New 0 "send interval 2 wait 3000000 size 64 timeout 100".toList)).map
        (fun c => (c.interval_, c.wait_, c.size_, c.timeout_))
      = some (2000, -1294967296, 64, 100) := by
  refine ⟨by decide, ?_, by decide, by decide, by decide⟩
  have h : digitsVal ("1".toList ++ "001".toList) = 1001 := by decide
  unfold decimalValue
  rw [h]
  norm_num

/-- C19, amended.  For a send line and for a ping line without a speed argument that
give `interval I` (a decimal number of milliseconds with `1 <= I * 1000` and
`I * 1000 <= 2147483646`), `wait W` (with `W * 1000` in the range of `int`), `size S`
and `timeout T`, the command that `ResolveArgs` leaves has an interval that differs
from `floor (I * 1000)` microseconds by one at most, and equals `I * 1000` when `I`
has no fraction, the wait `W * 1000` microseconds, the size `S` and the timeout `T`. -/
theorem C19_unit_conversion (args : CommandArgs) (ip fp : Str) (W S T : Int)
    (hip : ip ≠ []) (hd1 : IsDigits ip) (hd2 : IsDigits fp)
    (hI : args.get "interval".toList = decimalText ip fp)
    (hW : args.get "wait".toList = showInt W)
    (hS : args.get "size".toList = showInt S)
    (hT : args.get "timeout".toList = showInt T)
    (hspeed : args.get "speed".toList = [])
    (hlo : 1 ≤ decimalValue ip fp * 1000) (hhi : decimalValue ip fp * 1000 ≤ 2147483646)
    (hWr : INT_MIN ≤ W * 1000 ∧ W * 1000 ≤ INT_MAX)
    (hSr : INT_MIN ≤ S ∧ S ≤ INT_MAX) (hTr : INT_MIN ≤ T ∧ T ≤ INT_MAX) :
    (∀ c c1 : SendCommand, c.ResolveArgs args = .ok c1 →
      |c1.interval_ - ⌊decimalValue ip fp * 1000⌋| ≤ 1 ∧
      (fp = [] → c1.interval_ = (digitsVal ip : Int) * 1000) ∧
      c1.wait_ = W * 1000 ∧ c1.size_ = S ∧ c1.timeout_ = T) ∧
    (∀ c c1 : EchoCommand, c.ResolveArgs args = .ok c1 →
      |c1.interval_ - ⌊decimalValue ip fp * 1000⌋| ≤ 1 ∧
      (fp = [] → c1.interval_ = (digitsVal ip : Int) * 1000) ∧
      c1.wait_ = W * 1000 ∧ c1.size_ = S ∧ c1.timeout_ = T) := by
  have hsp : ∀ d, intArg args "speed" d = .ok d := by
    intro d
    unfold intArg
    rw [hspeed]
    rfl
  constructor
  · intro c c1 h
    obtain ⟨count, interval, size, wait, timeout, speed, time, _, e2, e3, e4, e5, e6, _, h8⟩ :=
      SendCommand_ResolveArgs_ok c c1 args h
    obtain ⟨v, hv, hv1, hv2, hv3⟩ := intervalArg_decimal args SEND_DEFAULT_INTERVAL ip fp hI hip
      hd1 hd2 hlo hhi
    rw [hv] at e2
    rw [waitArg_showInt args _ W hW hWr] at e4
    rw [intArg_showInt args "size" _ S hS hSr] at e3
    rw [intArg_showInt args "timeout" _ T hT hTr] at e5
    rw [hsp] at e6
    cases e2; cases e3; cases e4; cases e5; cases e6
    rw [h8]
    have hns : ¬ (0 < SEND_DEFAULT_SPEED ∧ 0 < time) := by
      intro hc; exact absurd hc.1 (by decide)
    simp only [if_neg hns]
    refine ⟨hv2, hv3, ?_, ?_, ?_⟩ <;> first | rfl | trivial
  · intro c c1 h
    obtain ⟨count, interval, size, wait, timeout, speed, time, _, e2, e3, e4, e5, e6, _, _, hi,
      hsz, hw, hto⟩ := EchoCommand_ResolveArgs_ok c c1 args h
    obtain ⟨v, hv, hv1, hv2, hv3⟩ := intervalArg_decimal args ECHO_DEFAULT_INTERVAL ip fp hI hip
      hd1 hd2 hlo hhi
    rw [hv] at e2
    rw [waitArg_showInt args _ W hW hWr] at e4
    rw [intArg_showInt args "size" _ S hS hSr] at e3
    rw [intArg_showInt args "timeout" _ T hT hTr] at e5
    rw [hsp] at e6
    cases e2; cases e3; cases e4; cases e5; cases e6
    have hns : ¬ (0 < ECHO_DEFAULT_SPEED ∧ 0 < time) := by
      intro hc; exact absurd hc.1 (by decide)
    rw [if_neg hns] at hi hsz
    rw [if_neg (by omega)] at hi
    rw [hi, hsz, hw, hto]
    exact ⟨hv2, hv3, rfl, rfl, rfl⟩

set_option maxRecDepth 100000 in
/-- Witness for C19 amended: the arguments of
`send interval 2.5 wait 3 size 64 timeout 100`, resolved to the interval 2500 (and the count
`3000 * 1000 / 2500 = 1200` from the default time). -/
theorem C19_unit_conversion_witness :
    |({ (SendCommand.new 0 []).1 with
          count_ := 1200, interval_ := 2500, wait_ := 3000, size_ := 64 } : SendCommand).interval_
        - ⌊decimalValue "2".toList "5".toList * 1000⌋| ≤ 1 :=
  ((C19_unit_conversion
    [("interval".toList, "2.5".toList), ("wait".toList, "3".toList),
     ("size".toList, "64".toList), ("timeout".toList, "100".toList)]
    "2".toList "5".toList 3 64 100 (by decide) (by unfold IsDigits; decide)
    (by unfold IsDigits; decide) (by decide) (by decide) (by decide) (by decide) (by decide)
    (by
      have h : digitsVal ("2".toList ++ "5".toList) = 25 := by decide
      unfold decimalValue; rw [h]; norm_num)
    (by
      have h : digitsVal ("2".toList ++ "5".toList) = 25 := by decide
      unfold decimalValue; rw [h]; norm_num)
    (by decide) (by decide) (by decide)).1
    (SendCommand.new 0 []).1
    { (SendCommand.new 0 []).1 with
        count_ := 1200, interval_ := 2500, wait_ := 3000, size_ := 64 }
    (by decide)).1

/-! ## C20: a rejected command text does not reach the peers -/

theorem SendCommand_rejected (create : Str → Option AnyCommand) (ERR_ILLEGAL_PARAM : Int)
    (s : ServerState) (cmd : Str) (h : create cmd = none) :
    NetSnoopServer.SendCommand create ERR_ILLEGAL_PARAM s cmd = (s, ERR_ILLEGAL_PARAM) := by
  simp only [NetSnoopServer.SendCommand, h]

theorem serverRun_withoutRejected (create : Str → Option AnyCommand) (ERR_ILLEGAL_PARAM : Int)
    (es : List ServerEvent) :
    ∀ s, serverRun create ERR_ILLEGAL_PARAM s es
      = serverRun create ERR_ILLEGAL_PARAM s (withoutRejected create es) := by
  induction es with
  | nil => intro s; rfl
  | cons e es ih =>
    intro s
    cases e with
    | send cmd =>
      cases hc : create cmd with
      | none =>
        have hf : withoutRejected create (.send cmd :: es) = withoutRejected create es := by
          simp [withoutRejected, hc]
        rw [hf]
        simp only [serverRun, SendCommand_rejected create ERR_ILLEGAL_PARAM s cmd hc]
        exact ih s
      | some c =>
        have hf : withoutRejected create (.send cmd :: es)
            = .send cmd :: withoutRejected create es := by
          simp [withoutRejected, hc]
        rw [hf]
        simp only [serverRun]
        exact ih _
    | loop =>
      have hf : withoutRejected create (.loop :: es) = .loop :: withoutRejected create es := by
        simp [withoutRejected]
      rw [hf]
      simp only [serverRun]
      exact ih _

/-- C20.  For a command text that the parser rejects, `NetSnoopServer::SendCommand`
returns `ERR_ILLEGAL_PARAM` and leaves the pipe and the peers as they were, so that
the coordinator ends in the same state as if the call had not been made, whatever
other calls and loop iterations come before and after; and the console loop pushes no
command for a line for which `CommandFactory::New` returns the null pointer. -/
theorem C20_rejected_text_reaches_no_peer (create : Str → Option AnyCommand)
    (ERR_ILLEGAL_PARAM : Int) :
    (∀ s cmd, create cmd = none →
      NetSnoopServer.SendCommand create ERR_ILLEGAL_PARAM s cmd = (s, ERR_ILLEGAL_PARAM)) ∧
    (∀ s es, serverRun create ERR_ILLEGAL_PARAM s es
      = serverRun create ERR_ILLEGAL_PARAM s (withoutRejected create es)) ∧
    (∀ index cmd, (New index cmd).1 = .ok none → (consolePush index cmd).1 = .ok none) := by
  refine ⟨SendCommand_rejected create ERR_ILLEGAL_PARAM,
    fun s es => serverRun_withoutRejected create ERR_ILLEGAL_PARAM es s, ?_⟩
  intro index cmd h
  unfold consolePush
  split
  · rfl
  · split
    · rfl
    · split
      · rfl
      · exact h

set_option maxRecDepth 100000 in
/-- Witness for C20, with `CommandFactory::New` as the parser of the server and one
peer: `pong` is rejected, and the peer is handed the command of `ping count 1` only. -/
theorem C20_rejected_text_reaches_no_peer_witness :
    NetSnoopServer.SendCommand (fun cmd => ((New 0 cmd).1.toOption).join) (-1)
        { pipe := [], peers := [[]] } "pong".toList
      = ({ pipe := [], peers := [[]] }, -1) ∧
    (serverRun (fun cmd => ((New 0 cmd).1.toOption).join) (-1) { pipe := [], peers := [[]] }
        [.send "pong".toList, .send "ping count 1".toList, .loop]).peers.map List.length
      = [1] :=
  ⟨(C20_rejected_text_reaches_no_peer (fun cmd => ((New 0 cmd).1.toOption).join) (-1)).1
      { pipe := [], peers := [[]] } "pong".toList (by decide),
   by decide⟩

/-! ## C21: the timeout handed to `pselect` -/

theorem timeoutStep_inv (l : List Int) (s : SelectTimeout) (t : Int)
    (h : NetSnoopServer.TimeoutInv l s) :
    NetSnoopServer.TimeoutInv (l ++ [t]) (NetSnoopServer.timeoutStep s t) := by
  obtain ⟨h1, h2, h3, h4⟩ := h
  unfold NetSnoopServer.TimeoutInv NetSnoopServer.timeoutStep
  by_cases hc : t > 0 ∧ s.time_millseconds > t
  · rw [if_pos hc]
    obtain ⟨ht, hlt⟩ := hc
    have hmod1 : 0 ≤ t % 1000 := Int.emod_nonneg _ (by norm_num)
    have hmod2 : t % 1000 < 1000 := Int.emod_lt_of_pos _ (by norm_num)
    refine ⟨by dsimp only; omega, ?_, ?_, ?_⟩
    · intro x hx hpos
      dsimp only
      rcases List.mem_append.1 hx with hx | hx
      · have := h2 x hx hpos; omega
      · simp at hx; omega
    · intro _
      dsimp only
      refine ⟨by simp, ht, by omega, ?_, ?_⟩
      · exact Int.tdiv_eq_ediv (le_of_lt ht) (by norm_num)
      · have hm : Int.tmod t 1000 = t % 1000 := Int.tmod_eq_emod (le_of_lt ht) (by norm_num)
        rw [hm]
        unfold wrap32
        omega
    · intro h; simp at h
  · rw [if_neg hc]
    refine ⟨h1, ?_, ?_, h4⟩
    · intro x hx hpos
      rcases List.mem_append.1 hx with hx | hx
      · exact h2 x hx hpos
      · simp at hx
        subst hx
        by_contra hcon
        exact hc ⟨hpos, by omega⟩
    · intro hp
      obtain ⟨a, b, c, d, e⟩ := h3 hp
      exact ⟨List.mem_append_left _ a, b, c, d, e⟩

theorem timeout_foldl_inv (l2 : List Int) : ∀ (l1 : List Int) (s : SelectTimeout),
    NetSnoopServer.TimeoutInv l1 s →
    NetSnoopServer.TimeoutInv (l1 ++ l2) (l2.foldl NetSnoopServer.timeoutStep s) := by
  induction l2 with
  | nil => intro l1 s h; simpa using h
  | cons t l2 ih =>
    intro l1 s h
    have := ih (l1 ++ [t]) _ (timeoutStep_inv l1 s t h)
    simpa [List.append_assoc] using this

theorem prepareTimeout_inv (tv_sec tv_nsec : Int) (timeouts : List Int) :
    NetSnoopServer.TimeoutInv timeouts (NetSnoopServer.prepareTimeout tv_sec tv_nsec timeouts) := by
  have h0 : NetSnoopServer.TimeoutInv []
      { time_millseconds := INT32_MAX, tv_sec := tv_sec, tv_nsec := tv_nsec,
        timeout_ptr := false } := by
    refine ⟨le_refl _, ?_, ?_, ?_⟩
    · intro x hx; simp at hx
    · intro h; simp at h
    · intro _; rfl
  simpa [NetSnoopServer.prepareTimeout] using timeout_foldl_inv timeouts [] _ h0

/-- C21, counterexample: a peer whose timeout is 2147483647 ms (set by
`CommandSender::SetTimeout(2147483647)`) has a positive timeout, yet the loop passes
the null pointer to `pselect`, alone or next to peers without a timeout. -/
theorem C21_largest_timeout_blocks :
    0 < CommandSender.SetTimeout 2147483647 ∧
    NetSnoopServer.selectTimeout 0 0 [CommandSender.SetTimeout 2147483647] = none ∧
    NetSnoopServer.selectTimeout 0 0
      [CommandSender.SetTimeout 0, CommandSender.SetTimeout 2147483647] = none := by
  decide

/-- C21, amended: in an iteration of `NetSnoopServer::Run` over peers whose
`GetTimeout()` values are `timeouts`, the timeout passed to `pselect` is null exactly
when no peer has a positive timeout below `INT32_MAX`; otherwise it is the minimum `m`
of the positive timeouts of all peers, split as `tv_sec = m / 1000` and
`tv_nsec = (m mod 1000) * 1000000`. -/
theorem C21_select_timeout (tv_sec tv_nsec : Int) (timeouts : List Int) :
    (NetSnoopServer.selectTimeout tv_sec tv_nsec timeouts = none ↔
      ¬ ∃ t ∈ timeouts, 0 < t ∧ t < INT32_MAX) ∧
    ((∃ t ∈ timeouts, 0 < t ∧ t < INT32_MAX) →
      ∃ m ∈ timeouts, 0 < m ∧ (∀ t ∈ timeouts, 0 < t → m ≤ t) ∧
        NetSnoopServer.selectTimeout tv_sec tv_nsec timeouts =
          some (m / 1000, m % 1000 * 1000000)) := by
  obtain ⟨h1, h2, h3, h4⟩ := prepareTimeout_inv tv_sec tv_nsec timeouts
  unfold NetSnoopServer.selectTimeout
  cases hp : (NetSnoopServer.prepareTimeout tv_sec tv_nsec timeouts).timeout_ptr with
  | true =>
    obtain ⟨a, b, c, d, e⟩ := h3 hp
    refine ⟨?_, ?_⟩
    · simp only [if_true]
      constructor
      · intro h; simp at h
      · intro h; exact absurd ⟨_, a, b, c⟩ h
    · intro _
      refine ⟨_, a, b, h2, ?_⟩
      simp only [if_true, d, e]
  | false =>
    have hm := h4 hp
    have hno : ¬ ∃ t ∈ timeouts, 0 < t ∧ t < INT32_MAX := by
      rintro ⟨t, ht, hpos, hlt⟩
      have := h2 t ht hpos
      omega
    refine ⟨?_, ?_⟩
    · simp only [Bool.false_eq_true, if_false]
      exact ⟨fun _ => hno, fun _ => trivial⟩
    · intro h; exact absurd h hno

/-- Witness for C21: with timeouts 1500, none, 200 and 2147483647 the loop waits
200 ms. -/
theorem C21_select_timeout_witness :
    (∃ t ∈ [1500, -1, 200, 2147483647], 0 < t ∧ t < INT32_MAX) ∧
    ∃ m ∈ [1500, -1, 200, 2147483647], 0 < m ∧
      (∀ t ∈ [1500, -1, 200, 2147483647], 0 < t → m ≤ t) ∧
      NetSnoopServer.selectTimeout 0 0 [1500, -1, 200, 2147483647] =
        some (m / 1000, m % 1000 * 1000000) :=
  ⟨⟨200, by decide, by decide, by decide⟩,
   (C21_select_timeout 0 0 [1500, -1, 200, 2147483647]).2
     ⟨200, by decide, by decide, by decide⟩⟩

/-! ## C22: the text read from the command pipe -/

theorem pipe_short_line (create : Str → Option AnyCommand) (ERR_ILLEGAL_PARAM : Int)
    (peers : List (List (Option AnyCommand))) (cmd : Str) (c : AnyCommand)
    (hc : create cmd = some c) (hne : cmd ≠ []) (hlen : cmd.length ≤ 64) :
    (NetSnoopServer.SendCommand create ERR_ILLEGAL_PARAM { pipe := [], peers := peers } cmd).2 = 0 ∧
    NetSnoopServer.pipeText
      (NetSnoopServer.SendCommand create ERR_ILLEGAL_PARAM { pipe := [], peers := peers } cmd).1
      = cmd ∧
    (NetSnoopServer.readPipe create
      (NetSnoopServer.SendCommand create ERR_ILLEGAL_PARAM { pipe := [], peers := peers } cmd).1).peers
      = peers.map (fun log => log ++ [some c]) ∧
    (NetSnoopServer.readPipe create
      (NetSnoopServer.SendCommand create ERR_ILLEGAL_PARAM { pipe := [], peers := peers } cmd).1).pipe
      = [] := by
  have htake : cmd.take 64 = cmd := List.take_of_length_le hlen
  have hdrop : cmd.drop 64 = [] := List.drop_of_length_le hlen
  have hemp : cmd.isEmpty = false := by
    cases cmd with
    | nil => exact absurd rfl hne
    | cons a l => rfl
  simp only [NetSnoopServer.SendCommand, hc, NetSnoopServer.pipeText, NetSnoopServer.readPipe,
    List.nil_append, htake, hdrop, hemp, Bool.false_eq_true, if_false]
  simp

set_option maxRecDepth 100000 in
/-- C22 at a failing input, with `CommandFactory::New` as the parser and one peer.
`SendCommand` accepts the 78-byte line
`send count 1000 interval 10 size 1472 wait 500 timeout 100 speed 500 time 3000` and
writes it to the empty pipe.  The next read of the loop yields its first 64 bytes only,
which end in the key `speed` without its value; the command parsed from them, not the
command of the line, is handed to `SetCommand`.  The iteration after that reads the
rest, ` 500 time 3000`, which is no command: `SetCommand` is called with the null
pointer. -/
theorem C22_long_line_is_read_in_pieces :
    (NetSnoopServer.SendCommand (fun cmd => ((New 0 cmd).1.toOption).join) (-1)
      { pipe := [], peers := [[]] }
      "send count 1000 interval 10 size 1472 wait 500 timeout 100 speed 500 time 3000".toList).2
      = 0 ∧
    (NetSnoopServer.SendCommand (fun cmd => ((New 0 cmd).1.toOption).join) (-1)
      { pipe := [], peers := [[]] }
      "send count 1000 interval 10 size 1472 wait 500 timeout 100 speed 500 time 3000".toList).1.pipe
      = "send count 1000 interval 10 size 1472 wait 500 timeout 100 speed 500 time 3000".toList ∧
    NetSnoopServer.pipeText
      (NetSnoopServer.SendCommand (fun cmd => ((New 0 cmd).1.toOption).join) (-1)
        { pipe := [], peers := [[]] }
        "send count 1000 interval 10 size 1472 wait 500 timeout 100 speed 500 time 3000".toList).1
      = "send count 1000 interval 10 size 1472 wait 500 timeout 100 speed".toList ∧
    (serverRun (fun cmd => ((New 0 cmd).1.toOption).join) (-1) { pipe := [], peers := [[]] }
      [.send "send count 1000 interval 10 size 1472 wait 500 timeout 100 speed 500 time 3000".toList,
       .loop]).peers
      = [[((New 0
            "send count 1000 interval 10 size 1472 wait 500 timeout 100 speed".toList).1.toOption).join]] ∧
    ((New 0 "send count 1000 interval 10 size 1472 wait 500 timeout 100 speed".toList).1.toOption).join
      ≠ ((New 0
          "send count 1000 interval 10 size 1472 wait 500 timeout 100 speed 500 time 3000".toList).1.toOption).join ∧
    (sendOf (New 0
      "send count 1000 interval 10 size 1472 wait 500 timeout 100 speed".toList)).map
        (fun c => (c.count_, c.interval_)) = some (300, 10000) ∧
    (sendOf (New 0
      "send count 1000 interval 10 size 1472 wait 500 timeout 100 speed 500 time 3000".toList)).map
        (fun c => (c.count_, c.interval_)) = some (1044, 2875) ∧
    (serverRun (fun cmd => ((New 0 cmd).1.toOption).join) (-1) { pipe := [], peers := [[]] }
      [.send "send count 1000 interval 10 size 1472 wait 500 timeout 100 speed 500 time 3000".toList,
       .loop, .loop]).peers.map (fun log => log.map Option.isSome)
      = [[true, false]] := by
  decide

/-! ## C23: the speed samples of the receive engine -/

set_option maxRecDepth 100000 in
/-- C23 at a failing input.  A receive engine is started at clock reading 0 and
receives one datagram of 100 bytes exactly one second after the start of each of three
windows (the clock advances by a nanosecond between two readings), so that three
windows of one second close, in each of which 100 bytes arrived (100 bytes per
second).  The first sample is 100, but the second is 200 and the third 300: the
dividend is `recv_bytes_`, the bytes received since the start, which no window
resets.  Afterwards `min_speed_` is 100 and `max_speed_` is 300. -/
theorem C23_sample_counts_all_bytes :
    (((RecvCommandReceiver.new 'a' ⟨false, false, false⟩).Start 0 0).1.Recv
        (some (List.replicate 100 'x')) 1000000000 1000000001 1000000002).1.max_speed_ = 100 ∧
    ((((RecvCommandReceiver.new 'a' ⟨false, false, false⟩).Start 0 0).1.Recv
        (some (List.replicate 100 'x')) 1000000000 1000000001 1000000002).1.Recv
        (some (List.replicate 100 'x')) 2000000002 2000000003 2000000004).1.max_speed_ = 200 ∧
    (((((RecvCommandReceiver.new 'a' ⟨false, false, false⟩).Start 0 0).1.Recv
        (some (List.replicate 100 'x')) 1000000000 1000000001 1000000002).1.Recv
        (some (List.replicate 100 'x')) 2000000002 2000000003 2000000004).1.Recv
        (some (List.replicate 100 'x')) 3000000004 3000000005 3000000006).1.max_speed_ = 300 ∧
    (((((RecvCommandReceiver.new 'a' ⟨false, false, false⟩).Start 0 0).1.Recv
        (some (List.replicate 100 'x')) 1000000000 1000000001 1000000002).1.Recv
        (some (List.replicate 100 'x')) 2000000002 2000000003 2000000004).1.Recv
        (some (List.replicate 100 'x')) 3000000004 3000000005 3000000006).1.min_speed_ = 100 ∧
    (((((RecvCommandReceiver.new 'a' ⟨false, false, false⟩).Start 0 0).1.Recv
        (some (List.replicate 100 'x')) 1000000000 1000000001 1000000002).1.Recv
        (some (List.replicate 100 'x')) 2000000002 2000000003 2000000004).1.Recv
        (some (List.replicate 100 'x')) 3000000004 3000000005 3000000006).1.recv_bytes_ = 300 ∧
    (((((RecvCommandReceiver.new 'a' ⟨false, false, false⟩).Start 0 0).1.Recv
        (some (List.replicate 100 'x')) 1000000000 1000000001 1000000002).1.Recv
        (some (List.replicate 100 'x')) 2000000002 2000000003 2000000004).1.Recv
        (some (List.replicate 100 'x')) 3000000004 3000000005 3000000006).1.begin_
      = 3000000006 := by
  decide

/-! ## C24: the count of a send line with an interval and no time -/

/-- C24.  For a send line from which `New` returns a command, whose interval in
microseconds is positive, whose speed is not positive and which has no `time`
argument, the count is the integer quotient `3000000 / interval_us`, whatever the
other arguments are. -/
theorem C24_count_from_default_time (index : Nat) (cmd : Str) (c : SendCommand)
    (args : CommandArgs) (interval speed : Int)
    (h : sendOf (New index cmd) = some c)
    (hargs : parseArgs (words cmd).tail [] [] = some args)
    (hi : intervalArg args SEND_DEFAULT_INTERVAL = .ok interval) (hpos : 0 < interval)
    (hs : intArg args "speed" SEND_DEFAULT_SPEED = .ok speed) (hsp : ¬ 0 < speed)
    (hno : args.get "time".toList = []) :
    c.count_ = Int.tdiv 3000000 interval := by
  obtain ⟨args1, c1, p, ha, hr, hc⟩ := sendOf_New_inv index cmd c h
  rw [hargs] at ha
  cases ha
  obtain ⟨count, interval1, size, wait, timeout, speed1, time1, _, e2, _, _, _, e6, e7, h8⟩ :=
    SendCommand_ResolveArgs_ok _ c1 args hr
  rw [hi] at e2; rw [hs] at e6
  cases e2; cases e6
  have ht : time1 = 3000 := by
    unfold intArg at e7
    rw [hno] at e7
    simp only [List.isEmpty_nil, if_true, Except.ok.injEq] at e7
    rw [← e7]; rfl
  subst ht
  have hi2 := (intervalArg_range args _ interval (by decide) hi).2
  have hdiv : Int.tdiv 3000000 interval = 3000 * 1000 / interval := by
    rw [Int.tdiv_eq_ediv (by norm_num) (by omega)]
    norm_num
  have hq : (3000 : Int) * 1000 / interval ≤ INT_MAX := by
    have : (3000 : Int) * 1000 / interval ≤ 3000 * 1000 :=
      Int.ediv_le_self _ (by norm_num)
    simp only [INT_MAX]; omega
  rw [hc, h8, hdiv]
  show (if 0 < speed ∧ 0 < (3000 : Int) then countFromSpeed speed 3000 size
    else if 0 < interval ∧ 0 < (3000 : Int) then countFromInterval 3000 interval else count) = _
  rw [if_neg (fun hc => hsp hc.1), if_pos ⟨hpos, by norm_num⟩]
  exact countFromInterval_spec 3000 interval (by norm_num) (by decide) hpos hi2 hq

set_option maxRecDepth 100000 in
/-- Witness for C24: `send count 7 interval 0.5` has the interval 500 microseconds and
the count `3000000 / 500 = 6000`, not 7. -/
theorem C24_count_from_default_time_witness :
    ({ (SendCommand.new 0 "send count 7 interval 0.5".toList).1 with
        count_ := 6000, interval_ := 500 } : SendCommand).count_ = Int.tdiv 3000000 500 :=
  C24_count_from_default_time 0 "send count 7 interval 0.5".toList
    { (SendCommand.new 0 "send count 7 interval 0.5".toList).1 with
        count_ := 6000, interval_ := 500 }
    [("count".toList, "7".toList), ("interval".toList, "0.5".toList)] 500 0
    (by decide) (by decide) (by decide) (by decide) (by decide) (by decide) (by decide)

/-! ## C25: the size of a ping line with a speed and a time -/

/-- The Echo command that `New` returns was resolved from the arguments of the line. -/
theorem echoOf_New_inv (index : Nat) (cmd : Str) (c : EchoCommand)
    (h : echoOf (New index cmd) = some c) :
    ∃ args c1 p, parseArgs (words cmd).tail [] [] = some args ∧
      (EchoCommand.new index cmd).1.ResolveArgs args = .ok c1 ∧
      c = { c1 with is_private := p } := by
  unfold echoOf New at h
  by_cases hlen : cmd.length ≤ MAX_CMD_LENGTH - MAX_TOKEN_LENGTH
  · rw [if_neg (not_not.mpr hlen)] at h
    rcases hfind : Container.find ((words cmd).headD []) with _ | ⟨cls, p⟩
    · rw [hfind] at h; simp at h
    · rcases hargs : parseArgs (words cmd).tail [] [] with _ | args
      · rw [hfind, hargs] at h; simp at h
      · rw [hfind, hargs] at h
        cases cls with
        | echo =>
          simp only [NewCommand] at h
          rcases hr : (EchoCommand.new index cmd).1.ResolveArgs args with e | c1
          · simp [hr, Except.map] at h
          · simp only [hr, Except.map, Option.some.injEq] at h
            exact ⟨args, c1, p, rfl, hr, h.symm⟩
        | send =>
          simp only [NewCommand] at h
          rcases hr : (SendCommand.new index cmd).1.ResolveArgs args with e | c1
          · simp [hr, Except.map] at h
          · simp [hr, Except.map] at h
        | ack => simp [NewCommand] at h
        | stop => simp [NewCommand] at h
        | result => simp [NewCommand] at h
        | mode =>
          simp only [NewCommand] at h
          split at h <;> simp at h
          rename_i h1 h2 h3
          split at h3 <;> simp at h3
  · rw [if_pos hlen] at h; simp at h

/-- C25.  For a ping line from which `New` returns a command and which gives a speed
`> 0` and a time `> 0`: the size of the command is 1472 when the size read from the
line is 32, which it is both without a `size` argument and with `size 32`, and it is
the size read otherwise; the count and the interval are derived from the size of the
command. -/
theorem C25_size_32_becomes_1472 (index : Nat) (cmd : Str) (c : EchoCommand)
    (args : CommandArgs) (speed time size : Int)
    (h : echoOf (New index cmd) = some c)
    (hargs : parseArgs (words cmd).tail [] [] = some args)
    (hs : intArg args "speed" ECHO_DEFAULT_SPEED = .ok speed) (hsp : 0 < speed)
    (ht : intArg args "time" ECHO_DEFAULT_TIME = .ok time) (htp : 0 < time)
    (hz : intArg args "size" ECHO_DEFAULT_SIZE = .ok size) :
    (size = 32 → c.size_ = 1472) ∧
    (size ≠ 32 → c.size_ = size) ∧
    (args.get "size".toList = [] → size = 32) ∧
    (args.get "size".toList = "32".toList → size = 32) ∧
    c.count_ = countFromSpeed speed time c.size_ ∧
    c.interval_ = (if intervalFromSpeed speed c.size_ ≤ 0 then ECHO_DEFAULT_INTERVAL
      else intervalFromSpeed speed c.size_) := by
  obtain ⟨args1, c1, p, ha, hr, hc⟩ := echoOf_New_inv index cmd c h
  rw [hargs] at ha
  cases ha
  obtain ⟨count, interval, size1, wait, timeout, speed1, time1, _, _, e3, _, _, e6, e7,
    hcount, hint, hsize, _⟩ := EchoCommand_ResolveArgs_ok _ c1 args hr
  rw [hs] at e6; rw [ht] at e7; rw [hz] at e3
  cases e3; cases e6; cases e7
  have hst : (0 < speed ∧ 0 < time) = True := eq_true ⟨hsp, htp⟩
  simp only [hst, if_true] at hcount hint hsize
  have hcs : c.size_ = c1.size_ := by rw [hc]
  have hcc : c.count_ = c1.count_ := by rw [hc]
  have hci : c.interval_ = c1.interval_ := by rw [hc]
  rw [hcs, hcc, hci, hsize]
  refine ⟨?_, ?_, ?_, ?_, hcount, ?_⟩
  · intro h32
    rw [if_pos (by rw [h32]; rfl)]
  · intro h32
    rw [if_neg (by simpa [ECHO_DEFAULT_SIZE] using h32)]
  · intro he
    unfold intArg at hz
    rw [he] at hz
    simp only [List.isEmpty_nil, if_true, Except.ok.injEq] at hz
    rw [← hz]; rfl
  · intro he
    unfold intArg at hz
    rw [he] at hz
    have h32 : stoi "32".toList = .ok 32 := by decide
    have hne : ("32".toList).isEmpty = false := by decide
    rw [hne, h32] at hz
    simp only [Bool.false_eq_true, if_false, Except.ok.injEq] at hz
    exact hz.symm
  · exact hint

set_option maxRecDepth 100000 in
/-- Witness for C25: `ping speed 100 time 1000 size 32` is a command of size 1472,
with the count `ceil(100 * 1024 * 1 / 1472) = 70` and the interval
`1000000 / (100 * 1024 / 1472) = 14375` microseconds. -/
theorem C25_size_32_becomes_1472_witness :
    ({ (EchoCommand.new 0 "ping speed 100 time 1000 size 32".toList).1 with
        count_ := 70, interval_ := 14375, size_ := 1472, timeout_ := 100 } : EchoCommand).size_
      = 1472 :=
  (C25_size_32_becomes_1472 0 "ping speed 100 time 1000 size 32".toList
    { (EchoCommand.new 0 "ping speed 100 time 1000 size 32".toList).1 with
        count_ := 70, interval_ := 14375, size_ := 1472, timeout_ := 100 }
    [("speed".toList, "100".toList), ("time".toList, "1000".toList),
     ("size".toList, "32".toList)] 100 1000 32
    (by decide) (by decide) (by decide) (by decide) (by decide) (by decide) (by decide)).1 rfl

/-! ## C26: accumulating into a zero record -/

theorem minima_eq (s : NetStat) :
    s.minima = [("min_send_speed", s.min_send_speed), ("min_recv_speed", s.min_recv_speed),
      ("min_send_time", s.min_send_time), ("min_recv_time", s.min_recv_time),
      ("min_delay", s.min_delay)] := by
  rfl

theorem maxima_eq (s : NetStat) :
    s.maxima = [("max_send_speed", s.max_send_speed), ("max_recv_speed", s.max_recv_speed),
      ("max_send_time", s.max_send_time), ("max_recv_time", s.max_recv_time),
      ("max_delay", s.max_delay)] := by
  rfl

/-- C26.  For a record `s` whose `min_*` and `max_*` members are all at least 0, the
record `zero += s` has every `min_*` member equal to 0 and every `max_*` member equal
to that of `s`. -/
theorem C26_zero_accumulator_loses_minima (s : NetStat)
    (hmin : ∀ f ∈ s.minima, 0 ≤ f.2) (hmax : ∀ f ∈ s.maxima, 0 ≤ f.2) :
    (∀ f ∈ (NetStat.zero.add s).minima, f.2 = 0) ∧
    (NetStat.zero.add s).maxima = s.maxima ∧
    (NetStat.zero.add s).minima.length = 5 ∧ s.maxima.length = 5 := by
  rw [minima_eq] at hmin ⊢
  rw [maxima_eq] at hmax
  rw [maxima_eq, maxima_eq]
  simp only [List.mem_cons, List.mem_singleton, List.not_mem_nil, or_false, forall_eq_or_imp,
    forall_eq] at hmin hmax
  obtain ⟨a1, a2, a3, a4, a5⟩ := hmin
  obtain ⟨b1, b2, b3, b4, b5⟩ := hmax
  refine ⟨?_, ?_, rfl, rfl⟩
  · simp only [List.mem_cons, List.mem_singleton, List.not_mem_nil, or_false, forall_eq_or_imp,
      forall_eq, NetStat.add, NetStat.zero]
    exact ⟨min_eq_left a1, min_eq_left a2, min_eq_left a3, min_eq_left a4, min_eq_left a5⟩
  · simp only [NetStat.add, NetStat.zero, max_eq_right b1, max_eq_right b2, max_eq_right b3,
      max_eq_right b4, max_eq_right b5]

set_option maxRecDepth 100000 in
/-- Witness for C26: a record with the delays between 3 and 9 and the speeds between
1000 and 2000. -/
theorem C26_zero_accumulator_loses_minima_witness :
    (∀ f ∈ (NetStat.zero.add { NetStat.zero with
        delay := 5, min_delay := 3, max_delay := 9, send_speed := 1500,
        min_send_speed := 1000, max_send_speed := 2000 }).minima, f.2 = 0) ∧
    (NetStat.zero.add { NetStat.zero with
        delay := 5, min_delay := 3, max_delay := 9, send_speed := 1500,
        min_send_speed := 1000, max_send_speed := 2000 }).maxima
      = [("max_send_speed", 2000), ("max_recv_speed", 0), ("max_send_time", 0),
         ("max_recv_time", 0), ("max_delay", 9)] :=
  ⟨(C26_zero_accumulator_loses_minima { NetStat.zero with
        delay := 5, min_delay := 3, max_delay := 9, send_speed := 1500,
        min_send_speed := 1000, max_send_speed := 2000 } (by decide) (by decide)).1,
   (C26_zero_accumulator_loses_minima { NetStat.zero with
        delay := 5, min_delay := 3, max_delay := 9, send_speed := 1500,
        min_send_speed := 1000, max_send_speed := 2000 } (by decide) (by decide)).2.1⟩

/-! ## C27: two commands constructed one after the other -/

/-- A call of `New` that returns a measurement command moves the token counter by
one, modulo 256. -/
theorem New_measurement_index (index : Nat) (cmd : Str) (c : AnyCommand) (t : Char) (i : Nat)
    (h : New index cmd = (.ok (some c), i)) (ht : measurementToken c = some t) :
    i = (index + 1) % 256 := by
  have hi : (New index cmd).2 = i := by rw [h]
  rw [New_index] at hi
  by_cases hc : constructsMeasurement cmd = true
  · rw [if_pos hc] at hi; exact hi.symm
  · exfalso
    apply hc
    unfold New at h
    unfold constructsMeasurement
    by_cases hlen : cmd.length ≤ MAX_CMD_LENGTH - MAX_TOKEN_LENGTH
    · rw [if_neg (not_not.mpr hlen)] at h
      rcases hfind : Container.find ((words cmd).headD []) with _ | ⟨cls, p⟩
      · rw [hfind] at h; simp at h
      · rcases hargs : parseArgs (words cmd).tail [] [] with _ | args
        · rw [hfind, hargs] at h; simp at h
        · rw [hfind, hargs] at h
          cases cls with
          | echo => simp [hlen]
          | send => simp [hlen]
          | ack =>
            simp only [NewCommand, Prod.mk.injEq, Except.ok.injEq, Option.some.injEq] at h
            rw [← h.1] at ht; simp [measurementToken] at ht
          | stop =>
            simp only [NewCommand, Prod.mk.injEq, Except.ok.injEq, Option.some.injEq] at h
            rw [← h.1] at ht; simp [measurementToken] at ht
          | result =>
            simp only [NewCommand, Prod.mk.injEq, Except.ok.injEq, Option.some.injEq] at h
            rw [← h.1] at ht; simp [measurementToken] at ht
          | mode =>
            simp only [NewCommand, Prod.mk.injEq, Except.ok.injEq] at h
            split at h
            · simp only [Option.some.injEq] at h
              rw [← h.1] at ht; simp [measurementToken] at ht
            · simp at h
    · rw [if_pos hlen] at h; simp at h

set_option maxRecDepth 1000000 in
theorem UpdateToken_next_differs :
    ∀ index, index < 256 →
      (UpdateToken index).1 ≠ (UpdateToken (UpdateToken index).2).1 := by
  decide

/-- C27.  When a measurement command is constructed with the 8-bit token counter at
`index`, and the next construction of the process is that of a second measurement
command, both from lines without a `token` argument, the two tokens differ; this
includes `index = 255`, after which the counter is 0. -/
theorem C27_consecutive_tokens_differ (index : Nat) (hindex : index < 256)
    (cmd1 cmd2 : Str) (c1 c2 : AnyCommand) (t1 t2 : Char) (i1 i2 : Nat)
    (h1 : New index cmd1 = (.ok (some c1), i1)) (ht1 : measurementToken c1 = some t1)
    (hno1 : ∀ args, parseArgs (words cmd1).tail [] [] = some args →
      args.get "token".toList = [])
    (h2 : New i1 cmd2 = (.ok (some c2), i2)) (ht2 : measurementToken c2 = some t2)
    (hno2 : ∀ args, parseArgs (words cmd2).tail [] [] = some args →
      args.get "token".toList = []) :
    t1 ≠ t2 ∧ i1 = (index + 1) % 256 := by
  have e1 := New_token_of_no_token_arg _ _ _ _ _ h1 ht1 hno1
  have e2 := New_token_of_no_token_arg _ _ _ _ _ h2 ht2 hno2
  have ei := New_measurement_index _ _ _ _ _ h1 ht1
  refine ⟨?_, ei⟩
  rw [e1, e2, ei]
  exact UpdateToken_next_differs index hindex

set_option maxRecDepth 100000 in
/-- Witness for C27, at the wrap of the counter: with the counter at 255 a `ping` gets
the token `h` (`255 mod 62 = 7`), the counter becomes 0, and the `send` constructed
next gets the token `a`. -/
theorem C27_consecutive_tokens_differ_witness : 'h' ≠ 'a' ∧ 0 = (255 + 1) % 256 :=
  C27_consecutive_tokens_differ 255 (by decide) "ping".toList "send".toList
    (.echo { toCommand := { name := "ping".toList, cmd := "ping".toList, token := 'h',
                            is_private := false, is_multicast := false },
             count_ := 5, interval_ := 200000, size_ := 32, wait_ := 500000, timeout_ := 100 })
    (.send { toCommand := { name := "send".toList, cmd := "send".toList, token := 'a',
                            is_private := false, is_multicast := false },
             count_ := 100, interval_ := 0, size_ := 1472, wait_ := 500000, timeout_ := 100,
             is_finished := false })
    'h' 'a' 0 1 (by decide) (by decide)
    (by
      intro args h
      have : parseArgs (words "ping".toList).tail [] [] = some [] := by decide
      rw [this] at h
      cases h
      decide)
    (by decide) (by decide)
    (by
      intro args h
      have : parseArgs (words "send".toList).tail [] [] = some [] := by decide
      rw [this] at h
      cases h
      decide)

/-! ## C28: write interest on the data descriptor -/

theorem echo_step_write_interest (w : EchoRun) (c : EchoCall)
    (h : w.receiver.context_.write_data = true → w.receiver.data_queue_ ≠ []) :
    (w.step c).receiver.context_.write_data = true → (w.step c).receiver.data_queue_ ≠ [] := by
  cases c with
  | Start => simpa [EchoRun.step, EchoCommandReceiver.Start] using h
  | Stop => simp [EchoRun.step, EchoCommandReceiver.Stop]
  | Recv got =>
    cases got with
    | none => simpa [EchoRun.step, EchoCommandReceiver.Recv] using h
    | some buf => simp [EchoRun.step, EchoCommandReceiver.Recv]
  | Send ok => simp [EchoRun.step, EchoCommandReceiver.Send]

theorem echo_run_write_interest (calls : List EchoCall) :
    ∀ w : EchoRun,
      (w.receiver.context_.write_data = true → w.receiver.data_queue_ ≠ []) →
      (w.run calls).receiver.context_.write_data = true →
      (w.run calls).receiver.data_queue_ ≠ [] := by
  induction calls with
  | nil => intro w h; simpa [EchoRun.run] using h
  | cons c calls ih =>
    intro w h
    have hrun : w.run (c :: calls) = (w.step c).run calls := by simp [EchoRun.run]
    rw [hrun]
    exact ih _ (echo_step_write_interest w c h)

/-- C28.  From an echo receiver without write interest on the data descriptor (its
queue is empty after the constructor, which the proof does not need), after every
sequence of `Start`, `Stop`, `Recv` and `Send` calls,
whatever the socket does in them, write interest on the data descriptor implies that
the queue is not empty; so the queue holds a datagram whenever `Send` is called next
with the data descriptor in the write set, as `ASSERT(data_queue_.size()>0)` says. -/
theorem C28_write_interest_implies_queue (w : EchoRun) (calls : List EchoCall)
    (hw : w.receiver.context_.write_data = false) :
    ((w.run calls).receiver.context_.write_data = true →
      (w.run calls).receiver.data_queue_ ≠ []) ∧
    (∀ ok, (w.run calls).receiver.context_.write_data = true →
      (w.run (calls ++ [.Send ok])).receiver = ((w.run calls).receiver.Send ok).1 ∧
      0 < (w.run calls).receiver.data_queue_.length) := by
  have h := echo_run_write_interest calls w (by rw [hw]; intro hc; cases hc)
  refine ⟨h, ?_⟩
  intro ok hi
  refine ⟨?_, List.length_pos.2 (h hi)⟩
  simp [EchoRun.run, EchoRun.step]

/-- Witness for C28: after `Start`, a datagram received, a failed `Send`, a failed
`Recv` and a second datagram received, the data descriptor is in the write set and the
queue holds two datagrams. -/
theorem C28_write_interest_implies_queue_witness :
    (EchoRun.run ⟨EchoCommandReceiver.new ⟨false, false, false⟩, []⟩
      [.Start, .Recv (some "ab".toList), .Send (fun _ => false), .Recv none,
       .Recv (some "c".toList)]).receiver.context_.write_data = true ∧
    (EchoRun.run ⟨EchoCommandReceiver.new ⟨false, false, false⟩, []⟩
      [.Start, .Recv (some "ab".toList), .Send (fun _ => false), .Recv none,
       .Recv (some "c".toList)]).receiver.data_queue_ ≠ [] :=
  ⟨by decide,
   (C28_write_interest_implies_queue ⟨EchoCommandReceiver.new ⟨false, false, false⟩, []⟩
      [.Start, .Recv (some "ab".toList), .Send (fun _ => false), .Recv none,
       .Recv (some "c".toList)] rfl).1 (by decide)⟩

/-! ## C29: the counters and the queue -/

theorem echo_step_counters (w : EchoRun) (c : EchoCall)
    (h : w.receiver.recv_count_
      = w.receiver.send_count_ + (w.receiver.data_queue_.length : Int)) :
    (w.step c).receiver.recv_count_
      = (w.step c).receiver.send_count_ + ((w.step c).receiver.data_queue_.length : Int) := by
  cases c with
  | Start => simpa [EchoRun.step, EchoCommandReceiver.Start] using h
  | Stop => simpa [EchoRun.step, EchoCommandReceiver.Stop] using h
  | Recv got =>
    cases got with
    | none => simpa [EchoRun.step, EchoCommandReceiver.Recv] using h
    | some buf =>
      simp only [EchoRun.step, EchoCommandReceiver.Recv, List.length_append, List.length_singleton]
      push_cast
      omega
  | Send ok =>
    have hs := congrArg List.length (drain_split w.receiver.data_queue_ ok)
    rw [List.length_append] at hs
    simp only [EchoRun.step, EchoCommandReceiver.Send]
    omega

theorem echo_run_counters (calls : List EchoCall) :
    ∀ w : EchoRun,
      w.receiver.recv_count_
        = w.receiver.send_count_ + (w.receiver.data_queue_.length : Int) →
      (w.run calls).receiver.recv_count_
        = (w.run calls).receiver.send_count_
          + ((w.run calls).receiver.data_queue_.length : Int) := by
  induction calls with
  | nil => intro w h; simpa [EchoRun.run] using h
  | cons c calls ih =>
    intro w h
    have hrun : w.run (c :: calls) = (w.step c).run calls := by simp [EchoRun.run]
    rw [hrun]
    exact ih _ (echo_step_counters w c h)

/-- C29.  After every sequence of calls on an echo receiver, whatever the socket does
in the `Recv` and `Send` calls, `recv_count_` is `send_count_` plus the number of
datagrams in the queue. -/
theorem C29_counters_and_queue (ctx : FdInterest) (calls : List EchoCall) :
    (EchoRun.run ⟨EchoCommandReceiver.new ctx, []⟩ calls).receiver.recv_count_
      = (EchoRun.run ⟨EchoCommandReceiver.new ctx, []⟩ calls).receiver.send_count_
        + ((EchoRun.run ⟨EchoCommandReceiver.new ctx, []⟩ calls).receiver.data_queue_.length
            : Int) :=
  echo_run_counters calls ⟨EchoCommandReceiver.new ctx, []⟩ (by simp [EchoCommandReceiver.new])

/-! ## C30: a failed write in `Send` -/

theorem drain_fail (q : List Str) :
    ∀ (ok : Nat → Bool) (k : Nat), k < q.length → (∀ i, i < k → ok i = true) →
      ok k = false →
      EchoCommandReceiver.drain q ok = (q.take k, q.drop k, some (-1)) := by
  induction q with
  | nil => intro ok k hk; simp at hk
  | cons buf q ih =>
    intro ok k hk hbefore hfail
    cases k with
    | zero => simp [EchoCommandReceiver.drain, hfail]
    | succ k =>
      have h0 : ok 0 = true := hbefore 0 (Nat.succ_pos k)
      have := ih (fun i => ok (i + 1)) k (by simpa using hk)
        (fun i hi => hbefore (i + 1) (by omega)) hfail
      simp [EchoCommandReceiver.drain, h0, this]

/-- C30.  When the write of the datagram at position `k` of the queue is the first
write of a `Send` call that fails, `Send` returns `-1`, has written the `k` datagrams
before it, leaves in the queue the datagram whose write failed followed by all the
datagrams behind it, in their order, and has added `k` to `send_count_`. -/
theorem C30_failed_write_loses_nothing (r : EchoCommandReceiver) (ok : Nat → Bool) (k : Nat)
    (hk : k < r.data_queue_.length) (hbefore : ∀ i, i < k → ok i = true)
    (hfail : ok k = false) :
    (r.Send ok).2.2 = -1 ∧
    (r.Send ok).2.1 = r.data_queue_.take k ∧
    (r.Send ok).1.data_queue_ = r.data_queue_.drop k ∧
    (r.Send ok).1.data_queue_.head? = r.data_queue_.get? k ∧
    (r.Send ok).1.send_count_ = r.send_count_ + (k : Int) ∧
    (r.Send ok).1.recv_count_ = r.recv_count_ := by
  have h := drain_fail r.data_queue_ ok k hk hbefore hfail
  have hlen : (r.data_queue_.take k).length = k := by
    rw [List.length_take]; omega
  simp only [EchoCommandReceiver.Send, h, hlen, Option.getD_some]
  simp [List.head?_drop]

/-- Witness for C30: three datagrams are queued, the first write succeeds and the
second fails. -/
theorem C30_failed_write_loses_nothing_witness :
    (EchoCommandReceiver.Send
      { EchoCommandReceiver.new ⟨true, true, false⟩ with
        recv_count_ := 3, data_queue_ := ["ab".toList, "c".toList, "d".toList] }
      (fun i => decide (i < 1))).2.2 = -1 ∧
    (EchoCommandReceiver.Send
      { EchoCommandReceiver.new ⟨true, true, false⟩ with
        recv_count_ := 3, data_queue_ := ["ab".toList, "c".toList, "d".toList] }
      (fun i => decide (i < 1))).1.data_queue_ = ["c".toList, "d".toList] ∧
    (EchoCommandReceiver.Send
      { EchoCommandReceiver.new ⟨true, true, false⟩ with
        recv_count_ := 3, data_queue_ := ["ab".toList, "c".toList, "d".toList] }
      (fun i => decide (i < 1))).1.send_count_ = 0 + ((1 : Nat) : Int) :=
  ⟨(C30_failed_write_loses_nothing
      { EchoCommandReceiver.new ⟨true, true, false⟩ with
        recv_count_ := 3, data_queue_ := ["ab".toList, "c".toList, "d".toList] }
      (fun i => decide (i < 1)) 1 (by decide) (by decide) (by decide)).1,
   (C30_failed_write_loses_nothing
      { EchoCommandReceiver.new ⟨true, true, false⟩ with
        recv_count_ := 3, data_queue_ := ["ab".toList, "c".toList, "d".toList] }
      (fun i => decide (i < 1)) 1 (by decide) (by decide) (by decide)).2.2.1,
   (C30_failed_write_loses_nothing
      { EchoCommandReceiver.new ⟨true, true, false⟩ with
        recv_count_ := 3, data_queue_ := ["ab".toList, "c".toList, "d".toList] }
      (fun i => decide (i < 1)) 1 (by decide) (by decide) (by decide)).2.2.2.2.1⟩

end NetSnoop
